import Mathlib

/-!
Mandala SMTP client: a shallow embedding of the session engine.

Source files embedded here: `client.go` (the SMTP session), the parts of
`message.go`, `header.go`, `part.go` and `address.go` that the session's
DATA phase runs.

Modelling conventions.

* Go `string` values are Unicode text (`String`); `[]byte` values are
  `List UInt8`; the conversion `[]byte(s)` is UTF-8 encoding.
* Go `error` results are `Option Err` (`none` is `nil`).
* Methods with a pointer receiver take the receiver and return its new value.
* A `[]*Email` is a list of pointers `Fin n` into a store of `n` messages, so
  that a list can hold one message more than once.
* The transport collaborator (`textproto.Conn`) is a record holding the
  trace of operations performed on it, a script of what the peer does on
  the coming exchanges, and a counter of `Close` calls.
* Library functions whose result is not computed by this repository
  (IDNA conversion, RFC 2047 encoding, quoted-printable, HTML sanitising,
  base64 decoding, Unicode case mapping) are fields of `Lib`; random and
  clock values are drawn from `World`; dialling and the split of a
  host:port address are fields of `Net`.
-/

namespace Mandala

/-! ## Text helpers (package `strings`) -/

/-- Go `strings.SplitN(s, sep, 2)` for a one-character separator: the text
before and the text after the first separator, `none` when there is none
(Go then returns the one-element slice `[s]`). -/
def cut (sep : Char) : List Char → Option (List Char × List Char)
  | [] => none
  | c :: cs =>
    if c = sep then some ([], cs)
    else match cut sep cs with
      | none => none
      | some (a, b) => some (c :: a, b)

/-- Go `strings.Split(s, sep)` for a one-character separator: all the
pieces between separators; the empty text gives one empty piece. -/
def splitAll (sep : Char) : List Char → List (List Char)
  | [] => [[]]
  | c :: cs =>
    if c = sep then [] :: splitAll sep cs
    else match splitAll sep cs with
      | [] => [[c]]
      | l :: ls => (c :: l) :: ls

/-- Loop of `isASCII` over the runes of a string. -/
def isASCIIChars : List Char → Bool
  | [] => true
  | c :: cs => if c.toNat > 0x7F then false else isASCIIChars cs

/-- Source `isASCII` (client.go): true if all the characters in `s` are ASCII. -/
def isASCII (s : String) : Bool := isASCIIChars s.data

/-- Source `Split` (message.go): an `user@domain` address into user and domain. -/
def Split (addr : String) : String × String :=
  match cut '@' addr.data with
  | none => (addr, "")
  | some (user, domain) => (String.mk user, String.mk domain)

/-! ## Errors -/

/-- Go error values: `proto` is a `*textproto.Error` (status code, a Go `int`,
and server text), `other` is any other error (I/O failures, `errors.New`, ...). -/
inductive Err where
  | proto (code : Int) (msg : String)
  | other (msg : String)
  deriving DecidableEq, Repr

/-- Source `IsPermanent` (client.go). -/
def IsPermanent : Option Err → Bool
  | some (Err.proto code _) => if code ≥ 500 ∧ code < 600 then true else false
  | _ => false

/-! ## Library collaborators -/

/-- Functions of imported packages, taken at their interface. -/
structure Lib where
  /-- Go `idna.ToASCII`; `none` when it returns an error. -/
  idnaToASCII : String → Option String
  /-- Go `strings.ToUpper` on text that has non-ASCII characters. -/
  unicodeUpper : String → String
  /-- Go `strings.ToLower` on text that has non-ASCII characters. -/
  unicodeLower : String → String
  /-- Go `mime.QEncoding.Encode(charset, s)`. -/
  qEncode : String → String → String
  /-- Output of a `quotedprintable.Writer` fed the given bytes and closed. -/
  qpEncode : List UInt8 → List UInt8
  /-- Go `sanitize.HTML`. -/
  sanitizeHTML : String → String
  /-- Go `base64.StdEncoding.DecodeString`. -/
  b64Decode : String → Except Err (List UInt8)

/-- Go `strings.ToUpper`: ASCII text is mapped letter by letter, other text
goes through the Unicode tables. -/
def ToUpper (L : Lib) (s : String) : String :=
  if isASCII s then String.mk (s.data.map Char.toUpper) else L.unicodeUpper s

/-- Go `strings.ToLower`. -/
def ToLower (L : Lib) (s : String) : String :=
  if isASCII s then String.mk (s.data.map Char.toLower) else L.unicodeLower s

/-- Values that differ from call to call: `nuid.Next()`, the boundary chosen
by `multipart.NewWriter`, and the formatted `time.Now()`. Each call takes the
head of its list (the empty text once the list is used up). -/
structure World where
  nuids : List String
  boundaries : List String
  dates : List String
  deriving DecidableEq, Repr

/-- One call of `nuid.Next()`. -/
def World.nextNuid (W : World) : String × World :=
  (W.nuids.headD "", { W with nuids := W.nuids.tail })

/-- The boundary drawn by one `multipart.NewWriter`. -/
def World.nextBoundary (W : World) : String × World :=
  (W.boundaries.headD "", { W with boundaries := W.boundaries.tail })

/-- One formatted `time.Now()`. -/
def World.nextDate (W : World) : String × World :=
  (W.dates.headD "", { W with dates := W.dates.tail })

/-! ## The transport collaborator -/

/-- What reading a response finds: a well-formed response (status code and
text, the lines of a multi-line response joined by a newline) or a failure of
the read. -/
inductive Recv where
  | resp (code : Nat) (msg : String)
  | fail (e : Err)
  deriving DecidableEq, Repr

/-- How the transport plays one request/response exchange: whether writing the
request fails, and what reading the response then finds. -/
structure Exchange where
  sendErr : Option Err
  recv : Recv
  deriving DecidableEq, Repr

/-- An operation performed on the transport. -/
inductive Wire where
  /-- A command line handed to `Text.Cmd`. -/
  | cmd (line : String)
  /-- The bytes accepted by the dot-writer of one DATA phase. -/
  | body (bytes : List UInt8)
  /-- The dot-writer was closed. -/
  | endData
  /-- The connection was wrapped by `tls.Client`. -/
  | tls
  deriving DecidableEq, Repr

/-- Model of `textproto.Conn` and the `net.Conn` under it. -/
structure Conn where
  /-- Operations performed so far, oldest first. -/
  trace : List Wire
  /-- Behaviour of the coming exchanges; when used up, reads find EOF. -/
  script : List Exchange
  /-- For each coming DATA phase, `some (k, e)` when the write number `k`
  (from 0) into its dot-writer fails with `e`, `none` when all are accepted. -/
  sinks : List (Option (Nat × Err))
  /-- Number of calls of `Close`. -/
  closes : Nat
  deriving DecidableEq, Repr

/-- The error of a read on a connection with nothing left to read. -/
def errEOF : Err := Err.other "EOF"

/-- Status check of `textproto` `parseCodeLine`: true when `code` does not
match `expectCode` (one digit: class, two digits: first two, three: exact). -/
def codeMismatch (expectCode code : Nat) : Bool :=
  (decide (1 ≤ expectCode) && decide (expectCode < 10) && decide (code / 100 ≠ expectCode)) ||
  (decide (10 ≤ expectCode) && decide (expectCode < 100) && decide (code / 10 ≠ expectCode)) ||
  (decide (100 ≤ expectCode) && decide (expectCode < 1000) && decide (code ≠ expectCode))

/-- Go `textproto.Conn.Cmd`: writes the command line. -/
def Conn.Cmd (t : Conn) (line : String) : Conn × Option Err :=
  let t := { t with trace := t.trace ++ [Wire.cmd line] }
  match t.script with
  | [] => (t, none)
  | x :: rest =>
    match x.sendErr with
    | some e => ({ t with script := rest }, some e)
    | none => (t, none)

/-- Go `textproto.Conn.ReadResponse(expectCode)`. -/
def Conn.ReadResponse (t : Conn) (expectCode : Nat) : Conn × Nat × String × Option Err :=
  match t.script with
  | [] => (t, 0, "", some errEOF)
  | x :: rest =>
    let t := { t with script := rest }
    match x.recv with
    | Recv.fail e => (t, 0, "", some e)
    | Recv.resp code msg =>
      if codeMismatch expectCode code then (t, code, msg, some (Err.proto code msg))
      else (t, code, msg, none)

/-- Go `textproto.Conn.Close`. -/
def Conn.Close (t : Conn) : Conn := { t with closes := t.closes + 1 }

/-! ## Data model -/

/-- Source `EmailAddress` (address.go). -/
structure EmailAddress where
  Name : String
  Address : String
  deriving DecidableEq, Repr

/-- Source `Header` (header.go). -/
structure Header where
  Name : String
  Value : String
  Encoded : Bool
  deriving DecidableEq, Repr

/-- Source `Headers` (header.go). -/
abbrev Headers := List Header

/-- Source `Part` (part.go). -/
structure Part where
  Filename : String
  ContentType : String
  ContentDisposition : String
  Encoding : String
  CharSet : String
  ContentID : String
  Body : List UInt8
  deriving DecidableEq, Repr

/-- Source `Email` (message.go). -/
structure Email where
  From : EmailAddress
  To : List EmailAddress
  Cc : List EmailAddress
  Bcc : List EmailAddress
  Subject : String
  Headers : Headers
  Text : String
  HTML : String
  AMP : String
  Encoding : String
  CharSet : String
  MessageID : String
  ReplyTo : EmailAddress
  Recipient : String
  ReturnPath : String
  Sender : String
  Attachments : List Part
  Images : List Part
  Sanitize : Bool
  deriving DecidableEq, Repr

/-- Go `smtp.ServerInfo`. -/
structure ServerInfo where
  Name : String
  TLS : Bool
  Auth : List String
  deriving DecidableEq, Repr

/-- A call made to the authentication mechanism. -/
inductive AuthCall where
  | start (server : ServerInfo)
  | next (fromServer : List UInt8) (more : Bool)
  deriving DecidableEq, Repr

/-- Go `smtp.Auth`: a mechanism answers each call from the calls it has
received before (its private state) and the arguments of this one. -/
structure Auth where
  /-- `Start(server)`: mechanism name, initial response, error. -/
  Start : List AuthCall → ServerInfo → String × Option (List UInt8) × Option Err
  /-- `Next(fromServer, more)`: response (`none` is `nil`), error. -/
  Next : List AuthCall → List UInt8 → Bool → Option (List UInt8) × Option Err

/-- The extension map `map[string]string`: keys are unique, a key that is set
again takes the new value. -/
abbrev ExtMap := List (String × String)

/-- Map read `m[k]`. -/
def ExtMap.get? (m : ExtMap) (k : String) : Option String :=
  match m.find? (fun p => p.1 == k) with
  | some p => some p.2
  | none => none

/-- Map write `m[k] = v`. -/
def ExtMap.set (m : ExtMap) (k v : String) : ExtMap :=
  (k, v) :: m.filter (fun p => p.1 != k)

/-- Source `Session` (client.go). `Text` stands for both `Text` and `conn`;
`calls` is the private state of the mechanism `a`. -/
structure Session where
  Text : Conn
  tls : Bool
  serverName : String
  ext : Option ExtMap
  auth : List String
  localName : String
  didHello : Bool
  helloError : Option Err
  a : Option Auth
  calls : List AuthCall

/-- Source `SendBulkReportItem` (client.go). -/
structure SendBulkReportItem where
  MessageID : String
  Sent : Bool
  Err : Option Err
  deriving DecidableEq, Repr

/-- Source `SendBulkReport` (client.go). -/
abbrev SendBulkReport := List SendBulkReportItem

/-! ## Session commands (client.go) -/

/-- Source `Session.Close`. -/
def Session.Close (c : Session) : Session := { c with Text := c.Text.Close }

/-- Source `Session.cmd`: sends the (already formatted) command line and
reads the response. -/
def Session.cmd (c : Session) (expectCode : Nat) (line : String) :
    Session × Nat × String × Option Err :=
  match c.Text.Cmd line with
  | (t, some e) => ({ c with Text := t }, 0, "", some e)
  | (t, none) =>
    match t.ReadResponse expectCode with
    | (t, code, msg, err) => ({ c with Text := t }, code, msg, err)

/-- Source `Session.helo`. -/
def Session.helo (c : Session) : Session × Option Err :=
  let c := { c with ext := none }
  match c.cmd 250 ("HELO " ++ c.localName) with
  | (c, _, _, err) => (c, err)

/-- One line of an EHLO response after the first: keyword and parameter
(`strings.SplitN(line, " ", 2)`). -/
def extLine (line : List Char) : String × String :=
  match cut ' ' line with
  | some (k, p) => (String.mk k, String.mk p)
  | none => (String.mk line, "")

/-- The lines of an EHLO response that are parsed: all but the first. -/
def extLines (msg : String) : List (String × String) :=
  ((splitAll '\n' msg.data).drop 1).map extLine

/-- The map built by `Session.ehlo` from the response text. -/
def parseExt (msg : String) : ExtMap :=
  (extLines msg).foldl (fun ext kv => ext.set kv.1 kv.2) []

/-- Source `Session.ehlo`. -/
def Session.ehlo (c : Session) : Session × Option Err :=
  match c.cmd 250 ("EHLO " ++ c.localName) with
  | (c, _, _, some e) => (c, some e)
  | (c, _, msg, none) =>
    let ext := parseExt msg
    let c := match ext.get? "AUTH" with
      | some mechs => { c with auth := (splitAll ' ' mechs.data).map String.mk }
      | none => c
    ({ c with ext := some ext }, none)

/-- Source `Session.hello`: runs a hello exchange if needed. -/
def Session.hello (c : Session) : Session × Option Err :=
  if !c.didHello then
    let c := { c with didHello := true }
    match c.ehlo with
    | (c, some _) =>
      match c.helo with
      | (c, err) => ({ c with helloError := err }, err)
    | (c, none) => (c, c.helloError)
  else (c, c.helloError)

/-- Source `Session.Hello`. -/
def Session.Hello (c : Session) (localName : String) : Session × Option Err :=
  if c.didHello then (c, some (Err.other "smtp: Hello called after other methods"))
  else Session.hello { c with localName := localName }

/-- Source `Session.StartTLS`. -/
def Session.StartTLS (c : Session) : Session × Option Err :=
  match c.hello with
  | (c, some e) => (c, some e)
  | (c, none) =>
    match c.cmd 220 "STARTTLS" with
    | (c, _, _, some e) => (c, some e)
    | (c, _, _, none) =>
      let c := { c with Text := { c.Text with trace := c.Text.trace ++ [Wire.tls] }, tls := true }
      c.ehlo

/-- Source `Session.Verify`. -/
def Session.Verify (c : Session) (addr : String) : Session × Option Err :=
  match c.hello with
  | (c, some e) => (c, some e)
  | (c, none) =>
    match c.cmd 250 ("VRFY " ++ addr) with
    | (c, _, _, err) => (c, err)

/-- Source `Session.Extension`. -/
def Session.Extension (L : Lib) (c : Session) (ext : String) : Session × Bool × String :=
  match c.hello with
  | (c, some _) => (c, false, "")
  | (c, none) =>
    match c.ext with
    | none => (c, false, "")
    | some m =>
      match m.get? (ToUpper L ext) with
      | some param => (c, true, param)
      | none => (c, false, "")

/-- Source `Session.Mail`. -/
def Session.Mail (c : Session) (sender : String) : Session × Option Err :=
  match c.hello with
  | (c, some e) => (c, some e)
  | (c, none) =>
    let cmdStr := "MAIL FROM:<" ++ sender ++ ">"
    let cmdStr := match c.ext with
      | some m => if (m.get? "8BITMIME").isSome then cmdStr ++ " BODY=8BITMIME" else cmdStr
      | none => cmdStr
    match c.cmd 250 cmdStr with
    | (c, _, _, err) => (c, err)

/-- Source `Session.Rcpt`. -/
def Session.Rcpt (c : Session) (addr : String) : Session × Option Err :=
  match c.cmd 25 ("RCPT TO:<" ++ addr ++ ">") with
  | (c, _, _, err) => (c, err)

/-- Source `Session.Reset`. -/
def Session.Reset (c : Session) : Session × Option Err :=
  match c.hello with
  | (c, some e) => (c, some e)
  | (c, none) =>
    match c.cmd 250 "RSET" with
    | (c, _, _, err) => (c, err)

/-- Source `Session.Quit`. -/
def Session.Quit (c : Session) : Session × Option Err :=
  match c.hello with
  | (c, some e) => (c, some e)
  | (c, none) =>
    match c.cmd 221 "QUIT" with
    | (c, _, _, some e) => (c, some e)
    | (c, _, _, none) => ({ c with Text := c.Text.Close }, none)

/-- Source `Session.prepareForSMTPUTF8`: the address to use, whether it needs
the SMTPUTF8 extension, and an error when it needs it but cannot have it. -/
def Session.prepareForSMTPUTF8 (L : Lib) (c : Session) (addr : String) :
    Session × String × Bool × Option Err :=
  if isASCII addr then (c, addr, false, none)
  else
    match c.Extension L "SMTPUTF8" with
    | (c, true, _) => (c, addr, true, none)
    | (c, false, _) =>
      match Split addr with
      | (user, domain) =>
        if !isASCII user then
          (c, addr, true,
            some (Err.proto 599 "local part is not ASCII but server does not support SMTPUTF8"))
        else
          match L.idnaToASCII domain with
          | none => (c, addr, true, some (Err.proto 599 "non-ASCII domain is not IDNA safe"))
          | some domain => (c, user ++ "@" ++ domain, false, none)

/-- The loops of `MailAndRcpt` over `msg.To`, `msg.Cc` and `msg.Bcc`: classify
each address, append it to `recipients`, stop at the first error. -/
def Session.prepareList (L : Lib) (c : Session) :
    List EmailAddress → List String → Bool → Session × List String × Bool × Option Err
  | [], recipients, toNeeds => (c, recipients, toNeeds, none)
  | rec :: rest, recipients, toNeeds =>
    match c.prepareForSMTPUTF8 L rec.Address with
    | (c, _, _, some e) => (c, recipients, toNeeds, some e)
    | (c, addr, needs, none) =>
      Session.prepareList L c rest (recipients ++ [addr]) (toNeeds || needs)

/-- The last loop of `MailAndRcpt`: one RCPT per recipient, stop at the first
error. -/
def Session.rcptList (c : Session) : List String → Session × Option Err
  | [] => (c, none)
  | addr :: rest =>
    match c.cmd 25 ("RCPT TO:<" ++ addr ++ ">") with
    | (c, _, _, some e) => (c, some e)
    | (c, _, _, none) => Session.rcptList c rest

/-- The recipient part of `MailAndRcpt` ("prepare RCPT TO"). -/
def Session.prepareRecipients (L : Lib) (c : Session) (msg : Email) :
    Session × List String × Bool × Option Err :=
  if msg.Recipient ≠ "" then
    match c.prepareForSMTPUTF8 L msg.Recipient with
    | (c, _, _, some e) => (c, [], false, some e)
    | (c, addr, needs, none) => (c, [addr], false || needs, none)
  else
    match Session.prepareList L c msg.To [] false with
    | (c, recipients, toNeeds, some e) => (c, recipients, toNeeds, some e)
    | (c, recipients, toNeeds, none) =>
      match Session.prepareList L c msg.Cc recipients toNeeds with
      | (c, recipients, toNeeds, some e) => (c, recipients, toNeeds, some e)
      | (c, recipients, toNeeds, none) => Session.prepareList L c msg.Bcc recipients toNeeds

/-- The MAIL command line: `fmt.Sprintf(cmdStr, sender)` for
`cmdStr = "MAIL FROM:<%s>" + params`. -/
def mailLine (sender params : String) : String :=
  "MAIL FROM:<" ++ sender ++ ">" ++ params

/-- Source `Session.MailAndRcpt`. -/
def Session.MailAndRcpt (L : Lib) (c : Session) (msg : Email) : Session × Option Err :=
  match c.prepareForSMTPUTF8 L (if msg.ReturnPath ≠ "" then msg.ReturnPath else msg.From.Address) with
  | (c, _, _, some e) => (c, some e)
  | (c, sender, fromNeeds, none) =>
    match c.prepareRecipients L msg with
    | (c, _, _, some e) => (c, some e)
    | (c, recipients, toNeeds, none) =>
      let smtputf8Needed := fromNeeds || toNeeds
      let params := ""
      match c.Extension L "8BITMIME" with
      | (c, ok, _) =>
        let params := if ok then params ++ " BODY=8BITMIME" else params
        let params := if smtputf8Needed then params ++ " SMTPUTF8" else params
        match c.cmd 250 (mailLine sender params) with
        | (c, _, _, some e) => (c, some e)
        | (c, _, _, none) => c.rcptList recipients

/-! ## Authentication (client.go, `Auth`) -/

/-- Go `[]byte(s)`: the UTF-8 encoding of a string. -/
def utf8 (s : String) : List UInt8 := s.data.flatMap String.utf8EncodeChar

/-- The base64 standard alphabet. -/
def b64Alphabet : List Char :=
  "ABCDEFGHIJKLMNOPQRSTUVWXYZabcdefghijklmnopqrstuvwxyz0123456789+/".data

/-- The character of the alphabet for a six-bit value. -/
def b64Char (n : Nat) : Char := b64Alphabet.getD n 'A'

/-- Go `base64.StdEncoding.Encode`: standard alphabet, padded. -/
def b64Encode : List UInt8 → List Char
  | [] => []
  | [a] =>
    let n := a.toNat * 65536
    [b64Char (n / 262144), b64Char (n / 4096 % 64), '=', '=']
  | [a, b] =>
    let n := a.toNat * 65536 + b.toNat * 256
    [b64Char (n / 262144), b64Char (n / 4096 % 64), b64Char (n / 64 % 64), '=']
  | a :: b :: c :: rest =>
    let n := a.toNat * 65536 + b.toNat * 256 + c.toNat
    [b64Char (n / 262144), b64Char (n / 4096 % 64), b64Char (n / 64 % 64), b64Char (n % 64)]
      ++ b64Encode rest

/-- Go `unicode.IsSpace`. -/
def isSpace (c : Char) : Bool :=
  let n := c.toNat
  (decide (0x09 ≤ n) && decide (n ≤ 0x0D)) || n == 0x20 || n == 0x85 || n == 0xA0 ||
  n == 0x1680 || (decide (0x2000 ≤ n) && decide (n ≤ 0x200A)) || n == 0x2028 || n == 0x2029 ||
  n == 0x202F || n == 0x205F || n == 0x3000

/-- Go `strings.TrimSpace`. -/
def TrimSpace (s : String) : String :=
  String.mk ((s.data.dropWhile isSpace).reverse.dropWhile isSpace).reverse

/-- The part of the `for err == nil` loop of `Auth` that aborts the exchange. -/
def Session.authAbort (c : Session) (err : Err) : Session × Option Err :=
  match c.cmd 501 "*" with
  | (c, _, _, _) =>
    match c.Quit with
    | (c, _) => (c, some err)

/-- The `for err == nil` loop of `Auth`, entered with the `code` and `msg64` of
a command that returned no error. Each further turn follows a command that
consumed one exchange of the script, so `fuel` above the script length is never
used up. -/
def Session.authLoop (L : Lib) (a : Auth) : Nat → Session → Nat → String → Session × Option Err
  | 0, c, _, _ => (c, some (Err.other "authLoop: out of fuel"))
  | fuel + 1, c, code, msg64 =>
    let decoded : Except Err (List UInt8) :=
      if code = 334 then L.b64Decode msg64
      else if code = 235 then Except.ok (utf8 msg64)
      else Except.error (Err.proto code msg64)
    match decoded with
    | Except.error e => c.authAbort e
    | Except.ok msg =>
      let more := decide (code = 334)
      match a.Next c.calls msg more with
      | (_, some e) => Session.authAbort { c with calls := c.calls ++ [AuthCall.next msg more] } e
      | (none, none) => ({ c with calls := c.calls ++ [AuthCall.next msg more] }, none)
      | (some resp, none) =>
        let c := { c with calls := c.calls ++ [AuthCall.next msg more] }
        match c.cmd 0 (String.mk (b64Encode resp)) with
        | (c, _, _, some e) => (c, some e)
        | (c, code, msg64, none) => Session.authLoop L a fuel c code msg64

/-- Source `Session.Auth`. The source dereferences `c.a`; a session without a
mechanism is given an error here (the source would stop the program), and
`StartSession` never calls `Auth` on one. The command is the formatted text
itself: mechanism names are taken to hold no `%`. -/
def Session.Auth (L : Lib) (c : Session) : Session × Option Err :=
  match c.hello with
  | (c, some e) => (c, some e)
  | (c, none) =>
    match c.a with
    | none => (c, some (Err.other "nil authentication mechanism"))
    | some a =>
      let info : ServerInfo := { Name := c.serverName, TLS := c.tls, Auth := c.auth }
      match a.Start c.calls info with
      | (_, _, some e) =>
        match Session.Quit { c with calls := c.calls ++ [AuthCall.start info] } with
        | (c, _) => (c, some e)
      | (mech, resp, none) =>
        let c := { c with calls := c.calls ++ [AuthCall.start info] }
        let resp64 := String.mk (b64Encode (resp.getD []))
        match c.cmd 0 (TrimSpace ("AUTH " ++ mech ++ " " ++ resp64)) with
        | (c, _, _, some e) => (c, some e)
        | (c, code, msg64, none) =>
          Session.authLoop L a (c.Text.script.length + 1) c code msg64

/-- Source `Session.StartSession`. -/
def Session.StartSession (L : Lib) (c : Session) : Session × Option Err :=
  match c.hello with
  | (c, some e) => (c, some e)
  | (c, none) =>
    let afterTLS : Session × Option Err :=
      match c.Extension L "STARTTLS" with
      | (c, true, _) => c.StartTLS
      | (c, false, _) => (c, none)
    match afterTLS with
    | (c, some e) => (c, some e)
    | (c, none) =>
      match c.a, c.ext with
      | some _, some m =>
        if (m.get? "AUTH").isSome then c.Auth L else (c, none)
      | _, _ => (c, none)

/-! ## Writers -/

/-- An `io.Writer`: the bytes it has accepted and, when it is going to fail,
how many more `Write` calls it accepts and the error it then returns. A failed
call adds no bytes. -/
structure Writer where
  out : List UInt8
  fail : Option (Nat × Err)
  deriving DecidableEq, Repr

/-- Go `io.Writer.Write`. -/
def Writer.Write (w : Writer) (p : List UInt8) : Writer × Option Err :=
  match w.fail with
  | none => ({ w with out := w.out ++ p }, none)
  | some (0, e) => (w, some e)
  | some (k + 1, e) => ({ out := w.out ++ p, fail := some (k, e) }, none)

/-- The double quote character, as text. -/
def dquote : String := String.singleton (Char.ofNat 34)

/-! ## Addresses (address.go) -/

/-- Source `EmailAddress.String` (named `toString` here, `String` being the
name of the type of texts). -/
def EmailAddress.toString (ad : EmailAddress) : String :=
  if ad.Name ≠ "" then ad.Name ++ " <" ++ ad.Address ++ ">" else ad.Address

/-- The loop of `FormatAddress` that writes the name with a backslash before
every backslash and double quote. -/
def escapeQuoted : List Char → List Char
  | [] => []
  | b :: bs =>
    if b = Char.ofNat 92 ∨ b = Char.ofNat 34 then Char.ofNat 92 :: b :: escapeQuoted bs
    else b :: escapeQuoted bs

/-- Source `EmailAddress.FormatAddress`. -/
def EmailAddress.FormatAddress (L : Lib) (ad : EmailAddress) (charset : String) : String :=
  if ad.Name = "" then ad.Address
  else
    let enc := L.qEncode charset ad.Name
    let buf :=
      if enc = ad.Name then dquote ++ String.mk (escapeQuoted ad.Name.data) ++ dquote
      else enc
    buf ++ " <" ++ ad.Address ++ ">"

/-- The loop shared by `JoinAddresses` and `JoinFormattedAddresses`: the
items, with a comma and a blank after each one but the last. -/
def joinComma : List String → String
  | [] => ""
  | [a] => a
  | a :: b :: rest => a ++ ", " ++ joinComma (b :: rest)

/-- Source `JoinAddresses`. -/
def JoinAddresses (addrs : List EmailAddress) : String :=
  joinComma (addrs.map EmailAddress.toString)

/-- Source `JoinFormattedAddresses`. -/
def JoinFormattedAddresses (L : Lib) (addrs : List EmailAddress) (charset : String) : String :=
  joinComma (addrs.map (fun val => val.FormatAddress L charset))

/-! ## Headers (header.go) -/

/-- Source `Headers.Write`. -/
def Headers.Write (L : Lib) : Headers → Writer → String → Writer × Option Err
  | [], w, _ => w.Write (utf8 "\r\n")
  | v :: rest, w, charset =>
    let header :=
      if v.Encoded then v.Name ++ ": " ++ L.qEncode charset v.Value ++ "\r\n"
      else v.Name ++ ": " ++ v.Value ++ "\r\n"
    match w.Write (utf8 header) with
    | (w, some e) => (w, some e)
    | (w, none) => Headers.Write L rest w charset

/-- Source `Headers.Add`. -/
def Headers.Add (h : Headers) (name value : String) (encoded : Bool) : Headers :=
  h ++ [{ Name := name, Value := value, Encoded := encoded }]

/-- Source `Headers.AddHeaders`. -/
def Headers.AddHeaders (h headers : Headers) : Headers := h ++ headers

/-- Source `Headers.GetHeader`. -/
def Headers.GetHeader (L : Lib) (h : Headers) (name : String) : Option Header :=
  h.find? (fun val => ToLower L val.Name == ToLower L name)

/-- Source `Headers.GetHeaders`. -/
def Headers.GetHeaders (L : Lib) (h : Headers) (name : String) : List Header :=
  h.filter (fun val => ToLower L val.Name == ToLower L name)

/-! ## Multipart writer (package `mime/multipart`) -/

/-- Go `textproto.MIMEHeader`: keys with their values. -/
abbrev MIMEHeader := List (String × List String)

/-- Go `textproto.CanonicalMIMEHeaderKey` on a key of letters, digits and
hyphens: upper case at the start and after each hyphen, lower case elsewhere. -/
def canonicalChars : Bool → List Char → List Char
  | _, [] => []
  | up, c :: cs => (if up then c.toUpper else c.toLower) :: canonicalChars (c = '-') cs

/-- Go `textproto.CanonicalMIMEHeaderKey`. -/
def canonicalKey (key : String) : String := String.mk (canonicalChars true key.data)

/-- Go `MIMEHeader.Get`. -/
def MIMEHeader.Get (h : MIMEHeader) (key : String) : String :=
  match h.find? (fun kv => kv.1 == canonicalKey key) with
  | some (_, v :: _) => v
  | _ => ""

/-- Go `MIMEHeader.Set`. -/
def MIMEHeader.Set (h : MIMEHeader) (key value : String) : MIMEHeader :=
  if h.any (fun kv => kv.1 == canonicalKey key) then
    h.map (fun kv => if kv.1 == canonicalKey key then (kv.1, [value]) else kv)
  else h ++ [(canonicalKey key, [value])]

/-- Go `MIMEHeader.Add`. -/
def MIMEHeader.Add (h : MIMEHeader) (key value : String) : MIMEHeader :=
  if h.any (fun kv => kv.1 == canonicalKey key) then
    h.map (fun kv => if kv.1 == canonicalKey key then (kv.1, kv.2 ++ [value]) else kv)
  else h ++ [(canonicalKey key, [value])]

/-- Insertion of one entry into a header already sorted by key; keys compare
as `sort.Strings` compares them, character by character. -/
def insertByKey (kv : String × List String) : MIMEHeader → MIMEHeader
  | [] => [kv]
  | x :: xs => if kv.1.data < x.1.data then kv :: x :: xs else x :: insertByKey kv xs

/-- The keys of a header in the order of `sort.Strings`. -/
def sortByKey (h : MIMEHeader) : MIMEHeader := h.foldr insertByKey []

/-- The header lines `CreatePart` prints: each value of each key, keys sorted. -/
def headerLines : MIMEHeader → String
  | [] => ""
  | (k, vs) :: rest =>
    vs.foldr (fun v acc => k ++ ": " ++ v ++ "\r\n" ++ acc) "" ++ headerLines rest

/-- Go `multipart.Writer` without the writer it wraps, which is passed along. -/
structure MPWriter where
  boundary : String
  lastpart : Bool
  deriving DecidableEq, Repr

/-- Go `multipart.NewWriter`: a writer with a fresh boundary. -/
def NewWriter (W : World) : MPWriter × World :=
  match W.nextBoundary with
  | (b, W) => ({ boundary := b, lastpart := false }, W)

/-- Go `multipart.Writer.CreatePart`: the boundary line and the header block,
in one write. -/
def MPWriter.CreatePart (mp : MPWriter) (w : Writer) (header : MIMEHeader) :
    MPWriter × Writer × Option Err :=
  let first :=
    if mp.lastpart then "\r\n--" ++ mp.boundary ++ "\r\n" else "--" ++ mp.boundary ++ "\r\n"
  match w.Write (utf8 (first ++ headerLines (sortByKey header) ++ "\r\n")) with
  | (w, some e) => (mp, w, some e)
  | (w, none) => ({ mp with lastpart := true }, w, none)

/-- Go `multipart.Writer.Close`: the closing boundary line. -/
def MPWriter.Close (mp : MPWriter) (w : Writer) : MPWriter × Writer × Option Err :=
  match w.Write (utf8 ("\r\n--" ++ mp.boundary ++ "--\r\n")) with
  | (w, err) => ({ mp with lastpart := false }, w, err)

/-! ## Parts (part.go) -/

/-- Source `Part.contentType`. -/
def Part.contentType (L : Lib) (a : Part) : String :=
  if ToLower L a.Encoding = "base64" then "base64"
  else if ToLower L a.Encoding = "8bit" then "8bit"
  else "quoted-printable"

/-- Source `WriteEncodedBody`. The quoted-printable writer is fed and closed
in one step: its output reaches `p` as one write. -/
def WriteEncodedBody (L : Lib) (p : Writer) (body : List UInt8) (encoding : String) :
    Writer × Option Err :=
  let encoded : List UInt8 :=
    if encoding = "base64" then utf8 (String.mk (b64Encode body))
    else if encoding = "8bit" then body
    else L.qpEncode body
  match p.Write encoded with
  | (p, some e) => (p, some e)
  | (p, none) => p.Write (utf8 "\r\n")

/-- Source `Part.WriteMultipart`. -/
def Part.WriteMultipart (L : Lib) (a : Part) (mp : MPWriter) (w : Writer) :
    Part × MPWriter × Writer × Option Err :=
  let a := { a with Encoding := a.contentType L }
  let headers : MIMEHeader := []
  let headers :=
    if a.Filename ≠ "" then headers.Add "Content-Type" (a.ContentType ++ "; name=" ++ a.Filename)
    else headers.Add "Content-Type" a.ContentType
  let headers :=
    if a.CharSet ≠ "" then
      headers.Set "Content-Type"
        (headers.Get "Content-Type" ++ "; charset=" ++ dquote ++ a.CharSet ++ dquote)
    else headers
  let headers :=
    if a.ContentDisposition ≠ "" then
      headers.Add "Content-Disposition"
        (a.ContentDisposition ++ "; filename=" ++ a.Filename ++ "; size=" ++ toString a.Body.length)
    else headers
  let headers := headers.Add "Content-Transfer-Encoding" a.Encoding
  let headers :=
    if a.ContentID ≠ "" then headers.Add "Content-ID" ("<" ++ a.ContentID ++ ">") else headers
  match mp.CreatePart w headers with
  | (mp, w, some e) => (a, mp, w, some e)
  | (mp, w, none) =>
    match WriteEncodedBody L w a.Body a.Encoding with
    | (w, err) => (a, mp, w, err)

/-- The loops of `Email.Write` over the attachments and over the images: each
part is written (and keeps its normalised encoding), stop at the first error. -/
def writeParts (L : Lib) : List Part → MPWriter → Writer → List Part × MPWriter × Writer × Option Err
  | [], mp, w => ([], mp, w, none)
  | att :: rest, mp, w =>
    match att.WriteMultipart L mp w with
    | (att, mp, w, some e) => (att :: rest, mp, w, some e)
    | (att, mp, w, none) =>
      match writeParts L rest mp w with
      | (rest, mp, w, err) => (att :: rest, mp, w, err)

/-! ## Messages (message.go) -/

/-- Source `Email.IsMultiPart`. -/
def Email.IsMultiPart (e : Email) : Bool :=
  if e.AMP ≠ "" then true
  else if e.Attachments.length = 0 ∧ e.Images.length = 0 then
    if e.Text = "" ∧ e.HTML ≠ "" then false
    else if e.HTML = "" ∧ e.Text ≠ "" then false
    else true
  else true

/-- Source `Email.ContentType`. -/
def Email.ContentType (e : Email) : String :=
  if e.IsMultiPart then
    if e.AMP ≠ "" then "multipart/alternative" else "multipart/mixed"
  else if e.HTML = "" then "text/plain"
  else "text/html"

/-- Source `Email.writeHeaders`. -/
def Email.writeHeaders (L : Lib) (e : Email) (W : World) (w : Writer) (boundary : String) :
    Email × World × Writer × Option Err :=
  let (e, W) : Email × World :=
    if e.MessageID = "" then
      match W.nextNuid with
      | (id, W) => ({ e with MessageID := id ++ "@" ++ (Split e.From.Address).2 }, W)
    else (e, W)
  let headers : Mandala.Headers := []
  let headers := Headers.Add headers "Message-Id" ("<" ++ e.MessageID ++ ">") false
  let headers := Headers.Add headers "From" (e.From.FormatAddress L e.CharSet) false
  let headers :=
    if e.To.length > 0 then Headers.Add headers "To" (JoinFormattedAddresses L e.To e.CharSet) false
    else headers
  let headers :=
    if e.Cc.length > 0 then Headers.Add headers "Cc" (JoinFormattedAddresses L e.Cc e.CharSet) false
    else headers
  let headers :=
    if e.ReplyTo.Address ≠ "" then
      Headers.Add headers "Reply-To" (e.ReplyTo.FormatAddress L e.CharSet) false
    else headers
  let headers := if e.Sender ≠ "" then Headers.Add headers "Sender" e.Sender false else headers
  let headers := Headers.Add headers "Subject" e.Subject true
  match W.nextDate with
  | (date, W) =>
    let headers := Headers.Add headers "Date" date false
    let headers := Headers.Add headers "MIME-Version" "1.0" false
    let headers :=
      if e.IsMultiPart then
        Headers.Add headers "Content-Type" (e.ContentType ++ "; boundary=" ++ boundary) false
      else
        Headers.Add
          (Headers.Add headers "Content-Type"
            (e.ContentType ++ "; charset=" ++ dquote ++ e.CharSet ++ dquote) false)
          "Content-Transfer-Encoding" e.Encoding false
    let headers := Headers.AddHeaders headers e.Headers
    match Headers.Write L headers w e.CharSet with
    | (w, err) => (e, W, w, err)

/-- The text part built by `writeBody` and `writeAMPBody`. -/
def Email.bodyPart (e : Email) (contentType body : String) : Part :=
  { Filename := "", ContentType := contentType, ContentDisposition := "",
    Encoding := e.Encoding, CharSet := e.CharSet, ContentID := "", Body := utf8 body }

/-- Source `Email.writeBody`: the nested alternative container is written into
a buffer, then copied into the part created for it. -/
def Email.writeBody (L : Lib) (e : Email) (W : World) (mp : MPWriter) (w : Writer) :
    Email × World × MPWriter × Writer × Option Err :=
  let buff : Writer := { out := [], fail := none }
  match NewWriter W with
  | (altWriter, W) =>
    match mp.CreatePart w
        [("Content-Type", ["multipart/alternative; boundary=" ++ altWriter.boundary])] with
    | (mp, w, some err) => (e, W, mp, w, some err)
    | (mp, w, none) =>
      let e := if e.Text = "" ∧ e.Sanitize = true then { e with Text := L.sanitizeHTML e.HTML } else e
      match (e.bodyPart "text/plain" e.Text).WriteMultipart L altWriter buff with
      | (_, _, _, some err) => (e, W, mp, w, some err)
      | (_, altWriter, buff, none) =>
        let e := if e.HTML = "" then { e with HTML := e.Text } else e
        match (e.bodyPart "text/html" e.HTML).WriteMultipart L altWriter buff with
        | (_, _, _, some err) => (e, W, mp, w, some err)
        | (_, altWriter, buff, none) =>
          match altWriter.Close buff with
          | (_, _, some err) => (e, W, mp, w, some err)
          | (_, buff, none) =>
            match w.Write buff.out with
            | (w, err) => (e, W, mp, w, err)

/-- Source `Email.writeAMPBody`. -/
def Email.writeAMPBody (L : Lib) (e : Email) (mp : MPWriter) (w : Writer) :
    Email × MPWriter × Writer × Option Err :=
  let e :=
    if e.Text = "" ∧ e.Sanitize = true then
      if e.HTML ≠ "" then { e with Text := L.sanitizeHTML e.HTML } else e
    else e
  let written : MPWriter × Writer × Option Err :=
    if e.Text ≠ "" then
      match (e.bodyPart "text/plain" e.Text).WriteMultipart L mp w with
      | (_, mp, w, err) => (mp, w, err)
    else (mp, w, none)
  match written with
  | (mp, w, some err) => (e, mp, w, some err)
  | (mp, w, none) =>
    match (e.bodyPart "text/x-amp-html" e.AMP).WriteMultipart L mp w with
    | (_, mp, w, some err) => (e, mp, w, some err)
    | (_, mp, w, none) =>
      let e := if e.HTML = "" then { e with HTML := e.Text } else e
      match (e.bodyPart "text/html" e.HTML).WriteMultipart L mp w with
      | (_, mp, w, err) => (e, mp, w, err)

/-- Source `Email.Write`. -/
def Email.Write (L : Lib) (e : Email) (W : World) (w : Writer) :
    Email × World × Writer × Option Err :=
  if e.IsMultiPart then
    if e.AMP ≠ "" then
      match NewWriter W with
      | (mpWriter, W) =>
        match e.writeHeaders L W w mpWriter.boundary with
        | (e, W, w, some err) => (e, W, w, some err)
        | (e, W, w, none) =>
          match e.writeAMPBody L mpWriter w with
          | (e, _, w, some err) => (e, W, w, some err)
          | (e, mpWriter, w, none) =>
            match mpWriter.Close w with
            | (_, w, err) => (e, W, w, err)
    else
      match NewWriter W with
      | (mpWriter, W) =>
        match e.writeHeaders L W w mpWriter.boundary with
        | (e, W, w, some err) => (e, W, w, some err)
        | (e, W, w, none) =>
          match e.writeBody L W mpWriter w with
          | (e, W, _, w, some err) => (e, W, w, some err)
          | (e, W, mpWriter, w, none) =>
            match writeParts L e.Attachments mpWriter w with
            | (atts, _, w, some err) => ({ e with Attachments := atts }, W, w, some err)
            | (atts, mpWriter, w, none) =>
              let e := { e with Attachments := atts }
              match writeParts L e.Images mpWriter w with
              | (imgs, _, w, some err) => ({ e with Images := imgs }, W, w, some err)
              | (imgs, mpWriter, w, none) =>
                let e := { e with Images := imgs }
                match mpWriter.Close w with
                | (_, w, err) => (e, W, w, err)
  else
    match e.writeHeaders L W w "" with
    | (e, W, w, some err) => (e, W, w, some err)
    | (e, W, w, none) =>
      let body := if e.Text ≠ "" then utf8 e.Text else utf8 e.HTML
      match WriteEncodedBody L w body e.Encoding with
      | (w, err) => (e, W, w, err)

/-! ## Sending (client.go) -/

/-- Source `Session.Data`: on success the writer is the dot-writer of the
connection, with the behaviour the transport has for this DATA phase. -/
def Session.Data (c : Session) : Session × Except Err Writer :=
  match c.cmd 354 "DATA" with
  | (c, _, _, some e) => (c, Except.error e)
  | (c, _, _, none) =>
    ({ c with Text := { c.Text with sinks := c.Text.sinks.tail } },
      Except.ok { out := [], fail := (c.Text.sinks.headD none) })

/-- The bytes the dot-writer accepted are on the connection. -/
def Session.wrote (c : Session) (w : Writer) : Session :=
  { c with Text := { c.Text with trace := c.Text.trace ++ [Wire.body w.out] } }

/-- Source `dataCloser.Close`: closes the dot-writer (its error is dropped),
then reads the final response. -/
def dataCloser.Close (c : Session) : Session × Option Err :=
  let t := { c.Text with trace := c.Text.trace ++ [Wire.endData] }
  match t.ReadResponse 250 with
  | (t, _, _, err) => ({ c with Text := t }, err)

/-- Source `Session.SendSingleMessage`. -/
def Session.SendSingleMessage (L : Lib) (c : Session) (W : World) (msg : Email) :
    Session × World × Email × Option Err :=
  if msg.From.Address = "" then
    (c, W, msg, some (Err.other "From address can not be empty"))
  else if msg.Recipient = "" ∧ msg.To.length = 0 ∧ msg.Cc.length = 0 ∧ msg.Bcc.length = 0 then
    (c, W, msg, some (Err.other "Recipient addresses can not be empty"))
  else
    match c.MailAndRcpt L msg with
    | (c, some err) =>
      match c.Reset with
      | (c, _) => (c, W, msg, some err)
    | (c, none) =>
      match c.Data with
      | (c, Except.error err) =>
        match c.Reset with
        | (c, _) => (c, W, msg, some err)
      | (c, Except.ok w) =>
        match msg.Write L W w with
        | (msg, W, w, some err) => (c.wrote w, W, msg, some err)
        | (msg, W, w, none) =>
          match dataCloser.Close (c.wrote w) with
          | (c, err) => (c, W, msg, err)

/-- The messages that the pointers of a `[]*Email` refer to: one cell for each
message object. A pointer is the index of its cell, so a list that holds one
`*Email` twice holds one index twice. -/
abbrev Store (n : Nat) := Fin n → Email

/-- Assignment through a pointer: the message in cell `p` becomes `msg`. -/
def Store.assign {n : Nat} (store : Store n) (p : Fin n) (msg : Email) : Store n :=
  fun q => if q = p then msg else store q

/-- The loop of `SendMessageBulk` over the pointers `messages`: each message
is sent as it stands in the store and left there as the send changed it, and
its outcome is appended to the report. -/
def Session.sendEach (L : Lib) {n : Nat} :
    Session → World → Store n → List (Fin n) → SendBulkReport →
      Session × World × Store n × SendBulkReport
  | c, W, store, [], report => (c, W, store, report)
  | c, W, store, p :: rest, report =>
    match c.SendSingleMessage L W (store p) with
    | (c, W, msg, err) =>
      let report := report ++ [{ MessageID := msg.MessageID, Sent := err.isNone, Err := err }]
      Session.sendEach L c W (store.assign p msg) rest report

/-- Source `Session.SendMessageBulk`; the deferred `c.Close()` runs last on
both ways out. -/
def Session.SendMessageBulk (L : Lib) {n : Nat} (c : Session) (W : World) (store : Store n)
    (messages : List (Fin n)) : Session × World × Store n × SendBulkReport × Option Err :=
  let report : SendBulkReport := []
  match c.StartSession L with
  | (c, some err) => (c.Close, W, store, report, some err)
  | (c, none) =>
    match Session.sendEach L c W store messages report with
    | (c, W, store, report) =>
      match c.Quit with
      | (c, err) => (c.Close, W, store, report, err)

/-- The network collaborators of `NewSession`: `net.Dial("tcp", host)`, which
gives a connection or fails, and the host part of `net.SplitHostPort(host)`
(the source drops its error). -/
structure Net where
  Dial : String → Except Err Conn
  SplitHostPort : String → String

/-- Source `NewSessionUsingConnection`: reads the greeting; when that fails the
connection is closed and comes back with the error in place of a session. -/
def NewSessionUsingConnection (conn : Conn) (host : String) (auth : Option Auth) :
    Except (Conn × Err) Session :=
  match conn.ReadResponse 220 with
  | (text, _, _, some err) => Except.error (text.Close, err)
  | (text, _, _, none) =>
    Except.ok { Text := text, tls := false, serverName := host, ext := none, auth := [],
                localName := "localhost", didHello := false, helloError := none, a := auth,
                calls := [] }

/-- Source `NewSession`; the connection in the error is absent when the dial
itself failed. -/
def NewSession (N : Net) (host : String) (a : Option Auth) :
    Except (Option Conn × Err) Session :=
  match N.Dial host with
  | Except.error err => Except.error (none, err)
  | Except.ok conn =>
    match NewSessionUsingConnection conn (N.SplitHostPort host) a with
    | Except.error (text, err) => Except.error (some text, err)
    | Except.ok c => Except.ok c

/-- Source `SendMail`: the returned error, with the connection (if any), the
world and the message as the call leaves them; the deferred `c.Close()` runs
last on every way out once the session exists. -/
def SendMail (L : Lib) (N : Net) (W : World) (addr : String) (a : Option Auth) (msg : Email) :
    Option Conn × World × Email × Option Err :=
  match NewSession N addr a with
  | Except.error (text, err) => (text, W, msg, some err)
  | Except.ok c =>
    match c.StartSession L with
    | (c, some err) => (some c.Close.Text, W, msg, some err)
    | (c, none) =>
      match c.SendSingleMessage L W msg with
      | (c, W, msg, _) =>
        match c.Quit with
        | (c, err) => (some c.Close.Text, W, msg, err)

/-! ## Notions used in the statements -/

/-- The address `MailAndRcpt` classifies for MAIL FROM: `ReturnPath` when it is
set, `From.Address` otherwise. -/
def Email.envelopeFrom (msg : Email) : String :=
  if msg.ReturnPath ≠ "" then msg.ReturnPath else msg.From.Address

/-- The addresses `MailAndRcpt` classifies for RCPT TO, in the order it takes
them: `Recipient` alone when it is set, otherwise `To`, then `Cc`, then `Bcc`. -/
def Email.envelopeTo (msg : Email) : List String :=
  if msg.Recipient ≠ "" then [msg.Recipient]
  else (msg.To ++ msg.Cc ++ msg.Bcc).map (fun rec => rec.Address)

/-- The RCPT command line for an address. -/
def rcptLine (addr : String) : String := "RCPT TO:<" ++ addr ++ ">"

/-- A session reached from `c` by classifying addresses: `c` itself or `c`
after its hello. -/
def Around (c s : Session) : Prop := s = c ∨ s = (c.hello).1

/-- The session, the world and the store left by sending the messages the
given pointers refer to, one after the other, with `SendSingleMessage`: where
`SendMessageBulk` stands when it has handled them. -/
def Session.afterSends (L : Lib) {n : Nat} :
    Session → World → Store n → List (Fin n) → Session × World × Store n
  | c, W, store, [] => (c, W, store)
  | c, W, store, p :: rest =>
    match c.SendSingleMessage L W (store p) with
    | (c, W, msg, _) => Session.afterSends L c W (store.assign p msg) rest

/-- The report item of one send: the identifier the message has after the
send, whether the send returned no error, and the error. -/
def reportItem (r : Session × World × Email × Option Err) : SendBulkReportItem :=
  { MessageID := r.2.2.1.MessageID, Sent := r.2.2.2.isNone, Err := r.2.2.2 }

/-- The hello of the session is done and succeeded. -/
def Ready (c : Session) : Prop := c.didHello = true ∧ c.helloError = none

/-- From `c` to `c'` the connection was not closed and the hello fields did
not change. -/
def Kept (c c' : Session) : Prop :=
  c'.Text.closes = c.Text.closes ∧ c'.didHello = c.didHello ∧ c'.helloError = c.helloError

/-- Whether the characters `p` are the first characters of `l`. -/
def hasHead : List Char → List Char → Bool
  | [], _ => true
  | _ :: _, [] => false
  | p :: ps, c :: cs => p == c && hasHead ps cs

/-- An EHLO command on the trace. -/
def isEHLO : Wire → Bool
  | Wire.cmd line => hasHead "EHLO ".data line.data
  | _ => false

/-- A HELO command on the trace. -/
def isHELO : Wire → Bool
  | Wire.cmd line => hasHead "HELO ".data line.data
  | _ => false

/-- A TLS upgrade on the trace. -/
def isTLS : Wire → Bool
  | Wire.tls => true
  | _ => false

/-- The number of hello exchanges still to come from `hello`: one until the
hello is done, none afterwards. -/
def Session.pending (c : Session) : Nat := if c.didHello = true then 0 else 1

/-- What every operation keeps between the session before and after it: the
trace only grows; it grows by at most one EHLO per TLS upgrade, plus one EHLO
and one HELO if the hello was still to come; and once the hello is done it
stays done with the same outcome. -/
def Step (c c' : Session) : Prop :=
  ∃ d, c'.Text.trace = c.Text.trace ++ d ∧
    d.countP isEHLO + c'.pending ≤ d.countP isTLS + c.pending ∧
    d.countP isHELO + c'.pending ≤ c.pending ∧
    (c.didHello = true → c'.helloError = c.helloError)

/-- From `c` to `c'` only commands that are neither EHLO nor HELO were sent,
no TLS upgrade took place and the hello fields did not change. -/
def Quiet (c c' : Session) : Prop :=
  (∃ d, c'.Text.trace = c.Text.trace ++ d ∧
    ∀ w ∈ d, isEHLO w = false ∧ isHELO w = false ∧ isTLS w = false) ∧
  c'.didHello = c.didHello ∧ c'.helloError = c.helloError ∧ c'.localName = c.localName

/-- The AUTH command as it goes on the wire. -/
def authLine (mech : String) (resp : Option (List UInt8)) : Wire :=
  Wire.cmd (TrimSpace ("AUTH " ++ mech ++ " " ++ String.mk (b64Encode (resp.getD []))))

/-- A response of the mechanism as it goes on the wire. -/
def respLine (resp : List UInt8) : Wire := Wire.cmd (String.mk (b64Encode resp))

/-- The next exchange of the script fails at the transport with `e`: the write
fails, or the read does; with nothing left the read finds EOF. -/
def failsWith (script : List Exchange) (e : Err) : Prop :=
  match script with
  | [] => e = errEOF
  | x :: _ => x.sendErr = some e ∨ (x.sendErr = none ∧ x.recv = Recv.fail e)

/-- The writer `w'` holds what `w` holds and, after it, what was written since. -/
def Grows (w w' : Writer) : Prop := ∃ s, w'.out = w.out ++ s

/-- The identifier a message is written with: its own, or when it has none the
next unique token and the domain of the sender. -/
def Email.messageIDAt (e : Email) (W : World) : String :=
  if e.MessageID = "" then W.nuids.headD "" ++ "@" ++ (Split e.From.Address).2 else e.MessageID

/-- The header block as the specification lists it, each header with the text
of its value: Message-Id, From, To (if any), Cc (if any), Reply-To (if set),
Sender (if set), Subject (word-encoded), Date, MIME-Version, Content-Type (with
the boundary when multipart, else with the charset), Content-Transfer-Encoding
(single-part only), then the extended headers of the caller in their order. -/
def Email.expectedHeaders (L : Lib) (e : Email) (messageID date boundary : String) :
    List (String × String) :=
  [("Message-Id", "<" ++ messageID ++ ">"), ("From", e.From.FormatAddress L e.CharSet)] ++
    (if e.To ≠ [] then [("To", JoinFormattedAddresses L e.To e.CharSet)] else []) ++
    (if e.Cc ≠ [] then [("Cc", JoinFormattedAddresses L e.Cc e.CharSet)] else []) ++
    (if e.ReplyTo.Address ≠ "" then [("Reply-To", e.ReplyTo.FormatAddress L e.CharSet)] else []) ++
    (if e.Sender ≠ "" then [("Sender", e.Sender)] else []) ++
    [("Subject", L.qEncode e.CharSet e.Subject), ("Date", date), ("MIME-Version", "1.0")] ++
    (if e.IsMultiPart = true then [("Content-Type", e.ContentType ++ "; boundary=" ++ boundary)]
      else [("Content-Type", e.ContentType ++ "; charset=" ++ dquote ++ e.CharSet ++ dquote),
        ("Content-Transfer-Encoding", e.Encoding)]) ++
    e.Headers.map (fun h => (h.Name, if h.Encoded = true then L.qEncode e.CharSet h.Value
      else h.Value))

/-- A header block on the wire: one line `Name: value` per header, each ended
by CRLF, then one empty line. -/
def renderHeaders : List (String × String) → String
  | [] => "\r\n"
  | h :: rest => h.1 ++ ": " ++ h.2 ++ "\r\n" ++ renderHeaders rest

/-- The text of an AMP message when its body is written: the text given, or
when there is none and sanitizing is requested, the HTML body stripped of its
tags. -/
def Email.ampText (L : Lib) (e : Email) : String :=
  if e.Text = "" ∧ e.Sanitize = true ∧ e.HTML ≠ "" then L.sanitizeHTML e.HTML else e.Text

/-- The bytes one part adds to the message: its boundary line (after a line
break unless it is the first part), its header block and its encoded body, as
`WriteMultipart` writes them to an empty buffer. -/
def Part.bytes (L : Lib) (a : Part) (boundary : String) (first : Bool) : List UInt8 :=
  (a.WriteMultipart L { boundary := boundary, lastpart := !first }
    { out := [], fail := none }).2.2.1.out

/-- The body of a part as `WriteEncodedBody` transforms it for an encoding name. -/
def encodedBody (L : Lib) (encoding : String) (body : List UInt8) : List UInt8 :=
  if encoding = "base64" then utf8 (String.mk (b64Encode body))
  else if encoding = "8bit" then body
  else L.qpEncode body

/-- The header block of a part, in the order it is written (header names
sorted): Content-Disposition with the file name and the size of the raw body
when a disposition is set, Content-Id when an identifier is set,
Content-Transfer-Encoding with the normalised encoding, Content-Type with the
`name` parameter when a file name is set and the `charset` parameter when a
charset is set. -/
def Part.expectedHeaders (L : Lib) (a : Part) : List (String × String) :=
  (if a.ContentDisposition ≠ "" then
      [("Content-Disposition", a.ContentDisposition ++ "; filename=" ++ a.Filename ++
        "; size=" ++ toString a.Body.length)]
    else []) ++
    (if a.ContentID ≠ "" then [("Content-Id", "<" ++ a.ContentID ++ ">")] else []) ++
    [("Content-Transfer-Encoding", a.contentType L),
      ("Content-Type", a.ContentType ++ (if a.Filename ≠ "" then "; name=" ++ a.Filename else "") ++
        (if a.CharSet ≠ "" then "; charset=" ++ dquote ++ a.CharSet ++ dquote else ""))]

/-- The six-bit value of a character of the base64 alphabet. -/
def b64Value (c : Char) : Option Nat :=
  if c ∈ b64Alphabet then some (b64Alphabet.indexOf c) else none

/-- Decoding of standard padded base64: four characters give three bytes, a
last group ending in one or two `=` gives two bytes or one. -/
def b64DecodeStd : List Char → Option (List UInt8)
  | [] => some []
  | c1 :: c2 :: c3 :: c4 :: rest =>
    match b64Value c1, b64Value c2 with
    | some v1, some v2 =>
      if c3 = '=' then
        if c4 = '=' ∧ rest = [] then some [UInt8.ofNat ((v1 * 262144 + v2 * 4096) / 65536)]
        else none
      else
        match b64Value c3 with
        | none => none
        | some v3 =>
          if c4 = '=' then
            if rest = [] then
              some [UInt8.ofNat ((v1 * 262144 + v2 * 4096 + v3 * 64) / 65536),
                UInt8.ofNat ((v1 * 262144 + v2 * 4096 + v3 * 64) / 256 % 256)]
            else none
          else
            match b64Value c4 with
            | none => none
            | some v4 =>
              match b64DecodeStd rest with
              | none => none
              | some bytes =>
                some (UInt8.ofNat ((v1 * 262144 + v2 * 4096 + v3 * 64 + v4) / 65536) ::
                  UInt8.ofNat ((v1 * 262144 + v2 * 4096 + v3 * 64 + v4) / 256 % 256) ::
                  UInt8.ofNat ((v1 * 262144 + v2 * 4096 + v3 * 64 + v4) % 256) :: bytes)
    | _, _ => none
  | _ => none

/-- The text of a message without AMP body when its body is written: the text
given, or when there is none and sanitizing is requested, the HTML body
stripped of its tags. -/
def Email.mixedText (L : Lib) (e : Email) : String :=
  if e.Text = "" ∧ e.Sanitize = true then L.sanitizeHTML e.HTML else e.Text

/-- A part with its encoding normalised, as `WriteMultipart` leaves it. -/
def Part.normalised (L : Lib) (a : Part) : Part := { a with Encoding := a.contentType L }

/-- A part after zero or one `WriteMultipart`: as it was, or with its encoding
normalised. -/
def Touched (L : Lib) (a a' : Part) : Prop := a' = a ∨ a' = a.normalised L

/-- The fields of a message that `Write` never assigns are the same in `e'` as
in `e`. -/
def Unchanged (e e' : Email) : Prop :=
  e'.From = e.From ∧ e'.To = e.To ∧ e'.Cc = e.Cc ∧ e'.Bcc = e.Bcc ∧ e'.Subject = e.Subject ∧
    e'.Headers = e.Headers ∧ e'.AMP = e.AMP ∧ e'.Encoding = e.Encoding ∧
    e'.CharSet = e.CharSet ∧ e'.ReplyTo = e.ReplyTo ∧ e'.Recipient = e.Recipient ∧
    e'.ReturnPath = e.ReturnPath ∧ e'.Sender = e.Sender ∧ e'.Sanitize = e.Sanitize

/-- The error of the first address, in the order given, whose classification
by the session fails; none when every address is classified. -/
def Session.firstFailure (L : Lib) (c : Session) (addrs : List String) : Option Err :=
  addrs.findSome? (fun a => (c.prepareForSMTPUTF8 L a).2.2.2)

/-- The parameter of the AUTH capability in the text of an EHLO response: that
of the last line after the first whose keyword is `AUTH`, none when no line
after the first has that keyword. -/
def authParam (msg : String) : Option String :=
  ((extLines msg).reverse.find? (fun kv => kv.1 == "AUTH")).map (fun kv => kv.2)

/-- The mechanism names of an AUTH parameter: `strings.Split(mechs, " ")`. -/
def mechanisms (mechs : String) : List String := (splitAll ' ' mechs.data).map String.mk

/-- The server information `Auth` hands to the mechanism of a session. -/
def Session.serverInfo (c : Session) : ServerInfo :=
  { Name := c.serverName, TLS := c.tls, Auth := c.auth }

/-- The operations of a session that take no message to serialise. -/
inductive Op where
  | Hello (localName : String)
  | Extension (ext : String)
  | Verify (addr : String)
  | Auth
  | Mail (sender : String)
  | Rcpt (addr : String)
  | Reset
  | Quit
  | StartTLS
  | StartSession
  | MailAndRcpt (msg : Email)
  | Close

/-- The session after one operation. -/
def Session.perform (L : Lib) (c : Session) : Op → Session
  | Op.Hello localName => (c.Hello localName).1
  | Op.Extension ext => (c.Extension L ext).1
  | Op.Verify addr => (c.Verify addr).1
  | Op.Auth => (c.Auth L).1
  | Op.Mail sender => (c.Mail sender).1
  | Op.Rcpt addr => (c.Rcpt addr).1
  | Op.Reset => (c.Reset).1
  | Op.Quit => (c.Quit).1
  | Op.StartTLS => (c.StartTLS).1
  | Op.StartSession => (c.StartSession L).1
  | Op.MailAndRcpt msg => (c.MailAndRcpt L msg).1
  | Op.Close => c.Close

/-- The operations that begin with the lazy hello (`Hello` runs it itself). -/
def Op.greets : Op → Bool
  | Op.Rcpt _ => false
  | Op.Close => false
  | _ => true

/-- The session after a sequence of operations. -/
def Session.performAll (L : Lib) (c : Session) (ops : List Op) : Session :=
  ops.foldl (Session.perform L) c

/-! ## Sample values -/

/-- A library whose IDNA conversion knows one domain and whose encoders leave
their input as it is. -/
def sampleLib : Lib where
  idnaToASCII := fun d => if d = "bücher.de" then some "xn--bcher-kva.de" else none
  unicodeUpper := fun s => s
  unicodeLower := fun s => s
  qEncode := fun _ s => s
  qpEncode := fun b => b
  sanitizeHTML := fun s => s
  b64Decode := fun _ => Except.ok []

/-- An exchange in which the request is written and the response arrives. -/
def reply (code : Nat) (msg : String) : Exchange :=
  { sendErr := none, recv := Recv.resp code msg }

/-- A session just connected, before any hello, facing the given script. -/
def freshSession (script : List Exchange) : Session where
  Text := { trace := [], script := script, sinks := [], closes := 0 }
  tls := false
  serverName := "mx.example.org"
  ext := none
  auth := []
  localName := "localhost"
  didHello := false
  helloError := none
  a := none
  calls := []

/-- A plain text message from `a@x.org` to `b@y.org`. -/
def sampleEmail : Email where
  From := { Name := "A", Address := "a@x.org" }
  To := [{ Name := "B", Address := "b@y.org" }]
  Cc := []
  Bcc := []
  Subject := "hi"
  Headers := []
  Text := "hello"
  HTML := ""
  AMP := ""
  Encoding := "8bit"
  CharSet := "utf-8"
  MessageID := ""
  ReplyTo := { Name := "", Address := "" }
  Recipient := ""
  ReturnPath := ""
  Sender := ""
  Attachments := []
  Images := []
  Sanitize := false

/-- A world with a few values of each kind. -/
def sampleWorld : World where
  nuids := ["N1", "N2"]
  boundaries := ["B1", "B2", "B3"]
  dates := ["D1", "D2"]

/-- A one-step mechanism in the manner of `smtp.PlainAuth`: it starts with a
fixed response and has nothing to add afterwards. -/
def samplePlain : Auth where
  Start := fun _ _ => ("PLAIN", some (utf8 "\x00u\x00p"), none)
  Next := fun _ _ more =>
    if more then (none, some (Err.other "unexpected server challenge")) else (none, none)

/-- A mechanism that refuses to start, as `smtp.PlainAuth` does on an
unencrypted connection. -/
def sampleRefusing : Auth where
  Start := fun _ _ => ("", none, some (Err.other "unencrypted connection"))
  Next := fun _ _ _ => (none, none)

/-- A mechanism that answers every challenge with an empty response and
rejects the final text of the server. -/
def sampleStrict : Auth where
  Start := fun _ _ => ("X", none, none)
  Next := fun _ _ more =>
    if more then (some [], none) else (none, some (Err.other "server not verified"))

/-- A mechanism that answers whatever the server sends, the final text too. -/
def sampleChatty : Auth where
  Start := fun _ _ => ("X", none, none)
  Next := fun _ _ _ => (some (utf8 "ok"), none)

/-- A session just connected that will authenticate with `samplePlain`. -/
def authSession (script : List Exchange) : Session :=
  { freshSession script with a := some samplePlain }

/-- An AMP message with an HTML body and no text. -/
def ampEmail : Email :=
  { sampleEmail with Text := "", HTML := "<p>hi</p>", AMP := "<html amp4email></html>" }

/-- A buffer: an empty writer that accepts every write. -/
def emptyBuffer : Writer := { out := [], fail := none }

/-- The hexadecimal digit of a value below sixteen, in upper case. -/
def hexDigit (n : Nat) : Char := "0123456789ABCDEF".data.getD n '0'

/-- Whether a character stands for itself inside an encoded word. -/
def qPlain (c : Char) : Bool :=
  decide (32 ≤ c.toNat) && decide (c.toNat ≤ 126) && c != '=' && c != '?' && c != '_'

/-- One byte inside an encoded word. -/
def qByte (b : UInt8) : List Char :=
  if b.toNat = 32 then ['_']
  else if 33 ≤ b.toNat ∧ b.toNat ≤ 126 ∧ b.toNat ≠ 61 ∧ b.toNat ≠ 63 ∧ b.toNat ≠ 95 then
    [Char.ofNat b.toNat]
  else ['=', hexDigit (b.toNat / 16), hexDigit (b.toNat % 16)]

/-- The characters of a text inside encoded words of at most 63 characters of
content, a new word (`sep`) being opened before a character that would not fit. -/
def qSplit (sep : List Char) : Nat → List Char → List Char
  | _, [] => []
  | cur, c :: rest =>
    let bytes := String.utf8EncodeChar c
    let encLen := if qPlain c then 1 else 3 * bytes.length
    if cur + encLen > 63 then sep ++ bytes.flatMap qByte ++ qSplit sep encLen rest
    else bytes.flatMap qByte ++ qSplit sep (cur + encLen) rest

/-- A Q-encoder in the manner of Go `mime.QEncoding.Encode`: text of printable
ASCII characters and tabs is left as it is; other text becomes encoded words
`=?charset?q?...?=`, several of them with a blank between when the charset is
UTF-8 and the text is long. -/
def sampleQEncode (charset s : String) : String :=
  if s.data.any (fun c => (decide (c.toNat < 32) || decide (c.toNat > 126)) && c != '\t') then
    let opening := "=?".data ++ charset.data ++ "?q?".data
    let content :=
      if charset.data.map Char.toLower = "utf-8".data then
        qSplit ("?= ".data ++ opening) 0 s.data
      else (utf8 s).flatMap qByte
    String.mk (opening ++ content ++ "?=".data)
  else s

/-- The sample library with the Q-encoder above. -/
def wordLib : Lib := { sampleLib with qEncode := sampleQEncode }

/-- An attachment as `AddAttachment` builds it. -/
def sampleAttachment : Part where
  Filename := "testo.txt"
  ContentType := "text/plain"
  ContentDisposition := "attachment"
  Encoding := "base64"
  CharSet := ""
  ContentID := ""
  Body := utf8 "Hello world files!"

/-- An embedded image as `AddEmbeddedImage` builds it. -/
def sampleImage : Part where
  Filename := "immagine.jpg"
  ContentType := "image/jpg"
  ContentDisposition := ""
  Encoding := "base64"
  CharSet := ""
  ContentID := "IMG001"
  Body := utf8 "0909"

/-- A message with a text, an HTML body, an attachment and an embedded image. -/
def mixedEmail : Email :=
  { sampleEmail with HTML := "<p>hi</p>", Attachments := [sampleAttachment],
                     Images := [sampleImage] }

/-- A message with a text, an AMP body and no HTML body. -/
def plainAmp : Email := { sampleEmail with AMP := "<html amp4email></html>" }

/-- An attachment whose encoding is spelled in upper case. -/
def upperAttachment : Part := { sampleAttachment with Encoding := "BASE64" }

/-- A message with a text, an HTML body and the upper-case attachment. -/
def upperEmail : Email :=
  { sampleEmail with HTML := "<p>hi</p>", Attachments := [upperAttachment] }

/-- A writer that refuses every write. -/
def closedWriter : Writer := { out := [], fail := some (0, Err.other "closed") }

/-- A single-part message whose encoding is spelled in upper case. -/
def upperSingle : Email := { sampleEmail with Encoding := "BASE64" }

/-- A server that advertises STARTTLS and AUTH before the upgrade and no AUTH
after it, then accepts an authentication. -/
def staleScript : List Exchange :=
  [reply 250 "mx\nSTARTTLS\nAUTH PLAIN LOGIN", reply 220 "go", reply 250 "mx\n8BITMIME",
    reply 235 "ok"]

/-- A server that advertises another AUTH list after the upgrade. -/
def tlsScript : List Exchange :=
  [reply 250 "mx\nSTARTTLS\nAUTH PLAIN LOGIN", reply 220 "go", reply 250 "mx\nAUTH LOGIN",
    reply 235 "ok"]

/-- A message with a copy recipient whose local part is not ASCII. -/
def accentedEmail : Email := { sampleEmail with Cc := [{ Name := "C", Address := "é@z.org" }] }

/-- A network whose dial gives a connection to a server that plays `script`,
greeting first. -/
def scriptedNet (script : List Exchange) : Net where
  Dial := fun _ => Except.ok { trace := [], script := script, sinks := [], closes := 0 }
  SplitHostPort := fun host => String.mk (host.data.takeWhile (fun ch => ch != ':'))

/-- A server that, after its greeting, accepts the hello, rejects MAIL, accepts
RSET and answers QUIT. -/
def rejectingScript : List Exchange :=
  [reply 250 "mx", reply 550 "no", reply 250 "ok", reply 221 "bye"]

/-- A store with the sample message as its one message. -/
def oneMessage : Store 1 := fun _ => sampleEmail

/-- A store with two messages: the sample message with the identifier `first`,
and the sample message. -/
def twoMessages : Store 2 := fun p =>
  if p = 0 then { sampleEmail with MessageID := "first" } else sampleEmail

/-! # Theorems -/

/-! ## Text lemmas -/

theorem isASCIIChars_append (a b : List Char) :
    isASCIIChars (a ++ b) = (isASCIIChars a && isASCIIChars b) := by
  induction a with
  | nil => simp [isASCIIChars]
  | cons x xs ih =>
    by_cases hx : x.toNat > 0x7F
    · simp [isASCIIChars, hx]
    · simp [isASCIIChars, hx, ih]

theorem isASCIIChars_cons (x : Char) (xs : List Char) :
    isASCIIChars (x :: xs) = (decide (x.toNat ≤ 0x7F) && isASCIIChars xs) := by
  by_cases hx : x.toNat > 0x7F
  · have : ¬ x.toNat ≤ 0x7F := by omega
    simp [isASCIIChars, hx, this]
  · have : x.toNat ≤ 0x7F := by omega
    simp [isASCIIChars, hx, this]

theorem cut_some {sep : Char} {l a b : List Char} (h : cut sep l = some (a, b)) :
    l = a ++ sep :: b ∧ sep ∉ a := by
  induction l generalizing a b with
  | nil => simp [cut] at h
  | cons x xs ih =>
    unfold cut at h
    by_cases hx : x = sep
    · simp [hx] at h
      obtain ⟨h1, h2⟩ := h
      subst h1 h2 hx
      simp
    · simp only [hx, if_false] at h
      cases hc : cut sep xs with
      | none => simp [hc] at h
      | some p =>
        obtain ⟨a', b'⟩ := p
        simp only [hc] at h
        simp at h
        obtain ⟨h1, h2⟩ := h
        subst h1 h2
        obtain ⟨e, hn⟩ := ih hc
        refine ⟨by simp [← e], ?_⟩
        simp
        exact ⟨fun h => hx h.symm, hn⟩

theorem cut_none {sep : Char} {l : List Char} (h : cut sep l = none) : sep ∉ l := by
  induction l with
  | nil => simp
  | cons x xs ih =>
    unfold cut at h
    by_cases hx : x = sep
    · simp [hx] at h
    · simp only [hx, if_false] at h
      cases hc : cut sep xs with
      | none =>
        simp
        exact ⟨fun h => hx h.symm, ih hc⟩
      | some p => obtain ⟨a', b'⟩ := p; simp [hc] at h

theorem cut_append {sep : Char} {a : List Char} (b : List Char) (h : sep ∉ a) :
    cut sep (a ++ sep :: b) = some (a, b) := by
  induction a with
  | nil => simp [cut]
  | cons x xs ih =>
    simp at h
    have hx : ¬ x = sep := fun e => h.1 e.symm
    simp [cut, hx, ih h.2]

theorem cut_of_not_mem {sep : Char} {l : List Char} (h : sep ∉ l) : cut sep l = none := by
  cases hc : cut sep l with
  | none => rfl
  | some p =>
    obtain ⟨a, b⟩ := p
    have := (cut_some hc).1
    rw [this] at h
    simp at h

/-- Both halves of an ASCII address are ASCII. -/
theorem isASCII_Split {addr : String} (h : isASCII addr = true) :
    isASCII (Split addr).1 = true ∧ isASCII (Split addr).2 = true := by
  unfold Split
  cases hc : cut '@' addr.data with
  | none => exact ⟨h, rfl⟩
  | some p =>
    obtain ⟨a, b⟩ := p
    have e := (cut_some hc).1
    unfold isASCII at h
    rw [e, isASCIIChars_append, isASCIIChars_cons] at h
    simp at h
    exact ⟨h.1, h.2⟩

/-! ## Commands and the hello exchange -/

/-- A command changes nothing of the session but its connection: one line is
added to the trace, `Close` is not called, the DATA behaviours are untouched
and the script loses at most its first exchange. -/
theorem cmd_spec (c : Session) (expectCode : Nat) (line : String) :
    ∃ t code msg err, c.cmd expectCode line = ({ c with Text := t }, code, msg, err) ∧
      t.trace = c.Text.trace ++ [Wire.cmd line] ∧ t.closes = c.Text.closes ∧
      t.sinks = c.Text.sinks ∧ (∃ pre, c.Text.script = pre ++ t.script) ∧
      (err = none → c.Text.script = reply code msg :: t.script ∧
        codeMismatch expectCode code = false) := by
  unfold Session.cmd Conn.Cmd
  cases hs : c.Text.script with
  | nil =>
    exact ⟨{ c.Text with trace := c.Text.trace ++ [Wire.cmd line], script := [] }, 0, "",
      some errEOF, by simp [Conn.ReadResponse, hs], rfl, rfl, rfl, ⟨[], rfl⟩, by simp⟩
  | cons x rest =>
    cases hx : x.sendErr with
    | some e =>
      exact ⟨{ c.Text with trace := c.Text.trace ++ [Wire.cmd line], script := rest }, 0, "",
        some e, by simp [hs, hx], rfl, rfl, rfl, ⟨[x], rfl⟩, by simp⟩
    | none =>
      simp only [hs, hx, Conn.ReadResponse]
      cases hr : x.recv with
      | fail e =>
        exact ⟨{ c.Text with trace := c.Text.trace ++ [Wire.cmd line], script := rest }, 0, "",
          some e, by simp [hr], rfl, rfl, rfl, ⟨[x], rfl⟩, by simp⟩
      | resp code msg =>
        by_cases hm : codeMismatch expectCode code = true
        · exact ⟨{ c.Text with trace := c.Text.trace ++ [Wire.cmd line], script := rest }, code,
            msg, some (Err.proto code msg), by simp [hr, hm], rfl, rfl, rfl, ⟨[x], rfl⟩, by simp⟩
        · refine ⟨{ c.Text with trace := c.Text.trace ++ [Wire.cmd line], script := rest }, code,
            msg, none, by simp [hr, hm], rfl, rfl, rfl, ⟨[x], rfl⟩,
            fun _ => ⟨?_, by simpa using hm⟩⟩
          cases x
          simp only at hx hr
          simp [reply, hx, hr]

theorem helo_spec (c : Session) :
    ∃ t err, c.helo = ({ c with Text := t, ext := none }, err) ∧
      t.trace = c.Text.trace ++ [Wire.cmd ("HELO " ++ c.localName)] ∧ t.closes = c.Text.closes ∧
      t.sinks = c.Text.sinks ∧ (∃ pre, c.Text.script = pre ++ t.script) := by
  unfold Session.helo
  obtain ⟨t, code, msg, err, h, h1, h2, h3, h4, -⟩ :=
    cmd_spec { c with ext := none } 250 ("HELO " ++ c.localName)
  exact ⟨t, err, by simp [h], h1, h2, h3, h4⟩

theorem ehlo_spec (c : Session) :
    ∃ t ext auth err, c.ehlo = ({ c with Text := t, ext := ext, auth := auth }, err) ∧
      t.trace = c.Text.trace ++ [Wire.cmd ("EHLO " ++ c.localName)] ∧ t.closes = c.Text.closes ∧
      t.sinks = c.Text.sinks ∧ (∃ pre, c.Text.script = pre ++ t.script) ∧
      (err = none → ∃ msg, c.Text.script = reply 250 msg :: t.script ∧
        ext = some (parseExt msg)) := by
  unfold Session.ehlo
  obtain ⟨t, code, msg, err, h, h1, h2, h3, h4, h5⟩ := cmd_spec c 250 ("EHLO " ++ c.localName)
  rw [h]
  cases err with
  | some e => exact ⟨t, c.ext, c.auth, some e, rfl, h1, h2, h3, h4, by simp⟩
  | none =>
    obtain ⟨h6, h7⟩ := h5 rfl
    have hc : code = 250 := by
      simp [codeMismatch] at h7
      exact h7
    subst hc
    cases hg : (parseExt msg).get? "AUTH" with
    | none =>
      exact ⟨t, some (parseExt msg), c.auth, none, by simp [hg], h1, h2, h3, h4,
        fun _ => ⟨msg, h6, rfl⟩⟩
    | some mechs =>
      exact ⟨t, some (parseExt msg), (splitAll ' ' mechs.data).map String.mk, none, by simp [hg],
        h1, h2, h3, h4, fun _ => ⟨msg, h6, rfl⟩⟩

/-- What `hello` does to a session: only the connection, the extension map,
the mechanism list and the two hello fields can change; afterwards the hello
is marked as done and the returned error is the cached one. -/
theorem hello_spec (c : Session) :
    ∃ t ext auth err, c.hello =
        ({ c with Text := t, ext := ext, auth := auth, didHello := true, helloError := err }, err) ∧
      t.closes = c.Text.closes ∧ t.sinks = c.Text.sinks ∧
      (∃ pre, c.Text.script = pre ++ t.script) ∧
      (c.didHello = true → t = c.Text ∧ ext = c.ext ∧ auth = c.auth ∧ err = c.helloError) ∧
      (t.trace = c.Text.trace ∨
        t.trace = c.Text.trace ++ [Wire.cmd ("EHLO " ++ c.localName)] ∨
        t.trace = c.Text.trace ++
          [Wire.cmd ("EHLO " ++ c.localName), Wire.cmd ("HELO " ++ c.localName)]) := by
  unfold Session.hello
  by_cases hd : c.didHello = true
  · refine ⟨c.Text, c.ext, c.auth, c.helloError, ?_, rfl, rfl, ⟨[], rfl⟩,
      fun _ => ⟨rfl, rfl, rfl, rfl⟩, Or.inl rfl⟩
    cases c
    simp at hd
    simp [hd]
  · obtain ⟨t, ext, auth, err, h, h1, h2, h3, ⟨pre, h4⟩, -⟩ := ehlo_spec { c with didHello := true }
    have hd' : c.didHello = false := by simpa using hd
    simp only [hd', Bool.not_false, if_true]
    rw [h]
    cases err with
    | none =>
      exact ⟨t, ext, auth, c.helloError, rfl, h2, h3, ⟨pre, h4⟩, fun h => by simp [hd'] at h,
        Or.inr (Or.inl h1)⟩
    | some e =>
      obtain ⟨t', err', h', g1, g2, g3, ⟨pre', g4⟩⟩ :=
        helo_spec { c with Text := t, ext := ext, auth := auth, didHello := true }
      simp only [h']
      refine ⟨t', none, auth, err', rfl, by rw [g2]; exact h2, by rw [g3]; exact h3,
        ⟨pre ++ pre', by simp only at h4 g4; rw [h4, g4, List.append_assoc]⟩,
        fun h => by simp [hd'] at h, Or.inr (Or.inr ?_)⟩
      rw [g1]
      simp only [h1]
      simp

theorem hello_of_did {c : Session} (h : c.didHello = true) : c.hello = (c, c.helloError) := by
  unfold Session.hello
  simp [h]

theorem hello_idem (c : Session) : (c.hello).1.hello = c.hello := by
  obtain ⟨t, ext, auth, err, h, -⟩ := hello_spec c
  rw [h]
  exact hello_of_did rfl

/-- Calling `Extension` leaves the session as `hello` leaves it. -/
theorem Extension_fst (L : Lib) (c : Session) (x : String) :
    (c.Extension L x).1 = (c.hello).1 := by
  unfold Session.Extension
  rcases hh : c.hello with ⟨c1, err⟩
  cases err with
  | some e => rfl
  | none =>
    simp only
    cases c1.ext with
    | none => rfl
    | some m =>
      simp only
      cases m.get? (ToUpper L x) <;> rfl

theorem Extension_hello (L : Lib) (c : Session) (x : String) :
    (c.hello).1.Extension L x = c.Extension L x := by
  unfold Session.Extension
  rw [hello_idem]

theorem Extension_eq (L : Lib) (c : Session) (x : String) :
    c.Extension L x = ((c.hello).1, (c.Extension L x).2) := by
  rw [← Extension_fst L c x]

/-- An address with a non-ASCII half is not ASCII. -/
theorem not_isASCII_of_Split {addr : String}
    (h : isASCII (Split addr).1 = false ∨ isASCII (Split addr).2 = false) :
    isASCII addr = false := by
  cases ha : isASCII addr with
  | false => rfl
  | true =>
    obtain ⟨h1, h2⟩ := isASCII_Split ha
    rw [h1, h2] at h
    simp at h

theorem Split_join {user : String} (d : String) (h : '@' ∉ user.data) :
    Split (user ++ "@" ++ d) = (user, d) := by
  unfold Split
  have : (user ++ "@" ++ d).data = user.data ++ '@' :: d.data := by
    simp [String.data_append]
  rw [this, cut_append _ h]

theorem Split_fst_no_at (addr : String) (h : (Split addr).2 ≠ "") : '@' ∉ (Split addr).1.data := by
  unfold Split at h ⊢
  cases hc : cut '@' addr.data with
  | none => simp [hc] at h
  | some p =>
    obtain ⟨a, b⟩ := p
    simpa using (cut_some hc).2

/-- C9: for every address made of ASCII characters only, and every session
state, `prepareForSMTPUTF8` returns the address unchanged, reports that the
extension is not needed, returns no error and leaves the session as it was. -/
theorem prepareForSMTPUTF8_ascii (L : Lib) (c : Session) (addr : String)
    (h : isASCII addr = true) :
    c.prepareForSMTPUTF8 L addr = (c, addr, false, none) := by
  unfold Session.prepareForSMTPUTF8
  simp [h]

theorem prepareForSMTPUTF8_ascii_witness :
    isASCII "a@x.org" = true ∧
      (freshSession []).prepareForSMTPUTF8 sampleLib "a@x.org"
        = (freshSession [], "a@x.org", false, none) :=
  ⟨by decide, prepareForSMTPUTF8_ascii sampleLib (freshSession []) "a@x.org" (by decide)⟩

/-- What `prepareForSMTPUTF8` returns on a non-ASCII address when the session
reports no SMTPUTF8 support, by the cases of the source. -/
theorem prepare_no_ext (L : Lib) (c : Session) (addr : String)
    (hascii : isASCII addr = false) (hext : (c.Extension L "SMTPUTF8").2.1 = false) :
    c.prepareForSMTPUTF8 L addr =
      ((c.hello).1,
        if isASCII (Split addr).1 = false then
          (addr, true,
            some (Err.proto 599 "local part is not ASCII but server does not support SMTPUTF8"))
        else match L.idnaToASCII (Split addr).2 with
          | none => (addr, true, some (Err.proto 599 "non-ASCII domain is not IDNA safe"))
          | some domain => ((Split addr).1 ++ "@" ++ domain, false, none)) := by
  unfold Session.prepareForSMTPUTF8
  rw [Extension_eq L c "SMTPUTF8"]
  rcases hx : (c.Extension L "SMTPUTF8").2 with ⟨ok, p⟩
  rw [hx] at hext
  simp only at hext
  subst hext
  simp only [hascii]
  cases hu : isASCII (Split addr).1 with
  | false => simp
  | true =>
    simp
    cases L.idnaToASCII (Split addr).2 <;> rfl

/-- C7: for every address whose local part (the first component of `Split`)
is not ASCII, on every session that reports no SMTPUTF8 support,
`prepareForSMTPUTF8` returns an error, the 599 protocol error, and
`IsPermanent` of that error is true. -/
theorem prepareForSMTPUTF8_local_part (L : Lib) (c : Session) (addr : String)
    (hlocal : isASCII (Split addr).1 = false)
    (hext : (c.Extension L "SMTPUTF8").2.1 = false) :
    (c.prepareForSMTPUTF8 L addr).2.2.2 =
        some (Err.proto 599 "local part is not ASCII but server does not support SMTPUTF8") ∧
      IsPermanent (c.prepareForSMTPUTF8 L addr).2.2.2 = true := by
  have ha := not_isASCII_of_Split (Or.inl hlocal)
  rw [prepare_no_ext L c addr ha hext]
  simp [hlocal, IsPermanent]

theorem prepareForSMTPUTF8_local_part_witness :
    isASCII (Split "é@x.org").1 = false ∧
      ((freshSession [reply 250 "mx\n8BITMIME"]).Extension sampleLib "SMTPUTF8").2.1 = false ∧
      IsPermanent
        ((freshSession [reply 250 "mx\n8BITMIME"]).prepareForSMTPUTF8 sampleLib "é@x.org").2.2.2
        = true :=
  ⟨by decide, by decide,
    (prepareForSMTPUTF8_local_part sampleLib (freshSession [reply 250 "mx\n8BITMIME"]) "é@x.org"
      (by decide) (by decide)).2⟩

/-- C8: for every address whose local part is ASCII and whose domain is not,
on every session that reports no SMTPUTF8 support: when the IDNA conversion
of the domain succeeds with `d`, `prepareForSMTPUTF8` returns the local part,
an `@` and `d`, with no need of the extension and no error, and that address
splits back into the unchanged local part and `d`, which is ASCII (IDNA
conversion yielding ASCII text); when the conversion fails it returns an error
that `IsPermanent` classifies as permanent. -/
theorem prepareForSMTPUTF8_domain (L : Lib) (c : Session) (addr : String)
    (hidna : ∀ d r, L.idnaToASCII d = some r → isASCII r = true)
    (huser : isASCII (Split addr).1 = true) (hdomain : isASCII (Split addr).2 = false)
    (hext : (c.Extension L "SMTPUTF8").2.1 = false) :
    (∀ d, L.idnaToASCII (Split addr).2 = some d →
        (c.prepareForSMTPUTF8 L addr).2 = ((Split addr).1 ++ "@" ++ d, false, none) ∧
        Split ((Split addr).1 ++ "@" ++ d) = ((Split addr).1, d) ∧ isASCII d = true) ∧
      (L.idnaToASCII (Split addr).2 = none →
        (c.prepareForSMTPUTF8 L addr).2.2.2 ≠ none ∧
        IsPermanent (c.prepareForSMTPUTF8 L addr).2.2.2 = true) := by
  have ha := not_isASCII_of_Split (Or.inr hdomain)
  rw [prepare_no_ext L c addr ha hext]
  have hne : (Split addr).2 ≠ "" := by
    intro h
    rw [h] at hdomain
    simp [isASCII, isASCIIChars] at hdomain
  constructor
  · intro d hd
    refine ⟨by simp [huser, hd], Split_join d (Split_fst_no_at addr hne), hidna _ _ hd⟩
  · intro hn
    simp [huser, hn, IsPermanent]

theorem prepareForSMTPUTF8_domain_witness :
    ((freshSession [reply 250 "mx\n8BITMIME"]).prepareForSMTPUTF8 sampleLib "a@bücher.de").2
      = ("a@xn--bcher-kva.de", false, none) :=
  ((prepareForSMTPUTF8_domain sampleLib (freshSession [reply 250 "mx\n8BITMIME"]) "a@bücher.de"
    (by
      intro d r h
      simp only [sampleLib] at h
      split at h
      · cases h; decide
      · cases h)
    (by decide) (by decide) (by decide)).1 "xn--bcher-kva.de" (by decide)).1

/-- C3: for every message whose `From.Address` is empty, or whose `Recipient`
is empty while `To`, `Cc` and `Bcc` are all empty, `SendSingleMessage` returns
a validation error (not a protocol error) and performs nothing: the session,
with its transport trace and script, the world and the message come back
unchanged. -/
theorem SendSingleMessage_validation (L : Lib) (c : Session) (W : World) (msg : Email)
    (h : msg.From.Address = "" ∨
      (msg.Recipient = "" ∧ msg.To = [] ∧ msg.Cc = [] ∧ msg.Bcc = [])) :
    c.SendSingleMessage L W msg =
      (c, W, msg, some (Err.other
        (if msg.From.Address = "" then "From address can not be empty"
         else "Recipient addresses can not be empty"))) := by
  unfold Session.SendSingleMessage
  by_cases hf : msg.From.Address = ""
  · simp [hf]
  · rcases h with h | ⟨h1, h2, h3, h4⟩
    · exact absurd h hf
    · simp [hf, h1, h2, h3, h4]

theorem SendSingleMessage_validation_witness :
    (freshSession [reply 250 "mx"]).SendSingleMessage sampleLib sampleWorld
        { sampleEmail with To := [] } =
      (freshSession [reply 250 "mx"], sampleWorld, { sampleEmail with To := [] },
        some (Err.other "Recipient addresses can not be empty")) :=
  SendSingleMessage_validation sampleLib (freshSession [reply 250 "mx"]) sampleWorld
    { sampleEmail with To := [] } (Or.inr ⟨rfl, rfl, rfl, rfl⟩)

/-! ## The extension map -/

theorem find_filter_ne (m : ExtMap) (a k : String) (h : ¬ a = k) :
    (m.filter (fun p => p.1 != a)).find? (fun p => p.1 == k) = m.find? (fun p => p.1 == k) := by
  induction m with
  | nil => rfl
  | cons x xs ih =>
    by_cases hx : x.1 = a
    · have hk : ¬ x.1 = k := fun e => h (hx.symm.trans e)
      rw [List.filter_cons_of_neg (by simpa using hx), List.find?_cons_of_neg _ (by simpa using hk)]
      exact ih
    · rw [List.filter_cons_of_pos (by simpa using hx)]
      by_cases hk : x.1 = k
      · rw [List.find?_cons_of_pos _ (by simpa using hk), List.find?_cons_of_pos _ (by simpa using hk)]
      · rw [List.find?_cons_of_neg _ (by simpa using hk), List.find?_cons_of_neg _ (by simpa using hk)]
        exact ih

theorem get_set (m : ExtMap) (a v k : String) :
    (m.set a v).get? k = if a = k then some v else m.get? k := by
  unfold ExtMap.set ExtMap.get?
  by_cases h : a = k
  · rw [List.find?_cons_of_pos _ (by simpa using h)]
    simp [h]
  · rw [List.find?_cons_of_neg _ (by simpa using h), find_filter_ne m a k h]
    simp [h]

/-- Reading a key from a map after a run of writes: the value of the last
write to that key, or what the map held before when no write touched it. -/
theorem get_foldl_set (kvs : List (String × String)) (m : ExtMap) (k : String) :
    (kvs.foldl (fun ext kv => ExtMap.set ext kv.1 kv.2) m).get? k =
      match kvs.reverse.find? (fun kv => kv.1 == k) with
      | some p => some p.2
      | none => m.get? k := by
  induction kvs generalizing m with
  | nil => rfl
  | cons kv rest ih =>
    rw [List.foldl_cons, ih, List.reverse_cons, List.find?_append]
    cases hr : rest.reverse.find? (fun kv => kv.1 == k) with
    | some p => rfl
    | none =>
      rw [get_set]
      by_cases h : kv.1 = k
      · rw [List.find?_cons_of_pos _ (by simpa using h)]
        simp [h]
      · rw [List.find?_cons_of_neg _ (by simpa using h)]
        simp [h]

theorem extLine_no_space (line : List Char) (h : ' ' ∉ line) :
    extLine line = (String.mk line, "") := by
  unfold extLine
  rw [cut_of_not_mem h]

theorem extLine_space (k p : List Char) (h : ' ' ∉ k) :
    extLine (k ++ ' ' :: p) = (String.mk k, String.mk p) := by
  unfold extLine
  rw [cut_append p h]

theorem StartTLS_spec (c c' : Session) (h : c.StartTLS = (c', none)) :
    ∃ pre msg, c.Text.script = pre ++ reply 250 msg :: c'.Text.script ∧
      c'.ext = some (parseExt msg) := by
  unfold Session.StartTLS at h
  obtain ⟨t, ext, auth, err, hh, -, -, ⟨pre, hp⟩, -⟩ := hello_spec c
  rw [hh] at h
  cases err with
  | some e => simp at h
  | none =>
    simp only at h
    obtain ⟨t2, code, msg, err2, hc, -, -, -, -, hok⟩ :=
      cmd_spec { c with Text := t, ext := ext, auth := auth, didHello := true, helloError := none }
        220 "STARTTLS"
    rw [hc] at h
    cases err2 with
    | some e => simp at h
    | none =>
      simp only at h
      obtain ⟨hs, -⟩ := hok rfl
      obtain ⟨t3, ext3, auth3, err3, he, -, -, -, -, hok3⟩ := ehlo_spec
        { c with Text := { t2 with trace := t2.trace ++ [Wire.tls] }, ext := ext, auth := auth,
                 didHello := true, helloError := none, tls := true }
      rw [he] at h
      simp only [Prod.mk.injEq] at h
      obtain ⟨h1, h2⟩ := h
      subst h2
      obtain ⟨msg3, hs3, hx3⟩ := hok3 rfl
      subst h1
      refine ⟨pre ++ [reply code msg], msg3, ?_, hx3⟩
      simp only at hs hs3 hp ⊢
      rw [hp, hs, hs3]
      simp

/-- C10: after every successful extended hello, issued by `ehlo` itself or as
the re-hello that ends `StartTLS`, the session's extension map is the map
parsed from the one response that hello read (the last exchange it consumed,
the very first one for `ehlo`), whatever map the session held before. That map
is built from the lines after the first: reading a keyword gives the
parameter of the last such line with that keyword, and nothing when no such
line has it; a line is split at its first space into keyword and parameter,
and a line without a space is a keyword with the empty parameter. -/
theorem ehlo_replaces_extensions (c c' : Session)
    (h : c.ehlo = (c', none) ∨ c.StartTLS = (c', none)) :
    ∃ pre msg, c.Text.script = pre ++ reply 250 msg :: c'.Text.script ∧
      (c.ehlo = (c', none) → pre = []) ∧
      c'.ext = some (parseExt msg) ∧
      (∀ k, (parseExt msg).get? k =
        (((((splitAll '\n' msg.data).drop 1).map extLine).reverse.find?
          (fun kv => kv.1 == k)).map (fun kv => kv.2))) ∧
      (∀ line, ' ' ∉ line → extLine line = (String.mk line, "")) ∧
      (∀ k p, ' ' ∉ k → extLine (k ++ ' ' :: p) = (String.mk k, String.mk p)) := by
  have hparse : ∀ msg k, (parseExt msg).get? k =
      (((((splitAll '\n' msg.data).drop 1).map extLine).reverse.find?
        (fun kv => kv.1 == k)).map (fun kv => kv.2)) := by
    intro msg k
    unfold parseExt
    rw [get_foldl_set]
    unfold extLines
    cases (((splitAll '\n' msg.data).drop 1).map extLine).reverse.find? (fun kv => kv.1 == k)
      <;> rfl
  by_cases he : c.ehlo = (c', none)
  · obtain ⟨t, ext, auth, err, hs, -, -, -, -, hok⟩ := ehlo_spec c
    rw [hs] at he
    simp only [Prod.mk.injEq] at he
    obtain ⟨h1, h2⟩ := he
    subst h2
    obtain ⟨msg, hm, hx⟩ := hok rfl
    subst h1
    exact ⟨[], msg, hm, fun _ => rfl, hx, hparse msg, extLine_no_space, extLine_space⟩
  · rcases h with h | h
    · exact absurd h he
    · obtain ⟨pre, msg, h1, h2⟩ := StartTLS_spec c c' h
      exact ⟨pre, msg, h1, fun h => absurd h he, h2, hparse msg, extLine_no_space, extLine_space⟩

theorem ehlo_replaces_extensions_witness :
    ∃ pre msg,
      ({ freshSession [reply 250 "mx\nSIZE 100\nAUTH PLAIN\nSIZE 200"] with
          ext := some [("STARTTLS", "")] }).Text.script =
        pre ++ reply 250 msg ::
          ({ freshSession [] with
              ext := some (parseExt "mx\nSIZE 100\nAUTH PLAIN\nSIZE 200"), auth := ["PLAIN"],
              Text := { trace := [Wire.cmd "EHLO localhost"], script := [], sinks := [],
                        closes := 0 } } : Session).Text.script ∧
      (some (parseExt "mx\nSIZE 100\nAUTH PLAIN\nSIZE 200") : Option ExtMap) = some (parseExt msg) :=
  match ehlo_replaces_extensions
      { freshSession [reply 250 "mx\nSIZE 100\nAUTH PLAIN\nSIZE 200"] with
          ext := some [("STARTTLS", "")] }
      { freshSession [] with
          ext := some (parseExt "mx\nSIZE 100\nAUTH PLAIN\nSIZE 200"), auth := ["PLAIN"],
          Text := { trace := [Wire.cmd "EHLO localhost"], script := [], sinks := [],
                    closes := 0 } }
      (Or.inl (by rfl)) with
  | ⟨pre, msg, h1, _, h3, _⟩ => ⟨pre, msg, h1, h3⟩



/-! ## Classification and the MAIL/RCPT sequence -/

theorem Extension_congr (L : Lib) {s c : Session} (h : s.hello = c.hello) (x : String) :
    s.Extension L x = c.Extension L x := by
  unfold Session.Extension
  rw [h]

/-- The session after `prepareForSMTPUTF8`: untouched for an ASCII address,
as `hello` leaves it otherwise. -/
theorem prepare_fst (L : Lib) (c : Session) (addr : String) :
    (c.prepareForSMTPUTF8 L addr).1 = if isASCII addr = true then c else (c.hello).1 := by
  unfold Session.prepareForSMTPUTF8
  by_cases ha : isASCII addr = true
  · simp [ha]
  · rw [if_neg ha, if_neg ha, Extension_eq L c "SMTPUTF8"]
    rcases (c.Extension L "SMTPUTF8").2 with ⟨ok, p⟩
    cases ok
    · simp only
      cases hu : isASCII (Split addr).1
      · rfl
      · simp only [Bool.not_true, Bool.false_eq_true, if_false]
        cases L.idnaToASCII (Split addr).2 <;> rfl
    · rfl

theorem prepare_snd_congr (L : Lib) {s c : Session} (h : s.hello = c.hello) (addr : String) :
    (s.prepareForSMTPUTF8 L addr).2 = (c.prepareForSMTPUTF8 L addr).2 := by
  unfold Session.prepareForSMTPUTF8
  rw [Extension_congr L h]
  by_cases ha : isASCII addr = true
  · simp [ha]
  · rw [if_neg ha, if_neg ha]

theorem Around.same_hello {c s : Session} (h : Around c s) : s.hello = c.hello := by
  rcases h with h | h
  · rw [h]
  · rw [h, hello_idem]

theorem Around.prepare (L : Lib) {c s : Session} (h : Around c s) (addr : String) :
    Around c (s.prepareForSMTPUTF8 L addr).1 := by
  rw [prepare_fst]
  by_cases ha : isASCII addr = true
  · simpa [ha] using h
  · rw [if_neg ha]
    right
    rw [h.same_hello]

theorem prepare_ascii (L : Lib) (c : Session) {addr : String} (h : isASCII addr = true) :
    c.prepareForSMTPUTF8 L addr = (c, addr, false, none) := by
  unfold Session.prepareForSMTPUTF8
  simp [h]

/-- A classification that fails leaves the session as its hello leaves it. -/
theorem prepare_err_fst (L : Lib) {c s : Session} (hs : Around c s) {addr : String}
    (h : (s.prepareForSMTPUTF8 L addr).2.2.2 ≠ none) :
    (s.prepareForSMTPUTF8 L addr).1 = (c.hello).1 := by
  rw [prepare_fst]
  by_cases ha : isASCII addr = true
  · rw [prepare_ascii L s ha] at h
    simp at h
  · rw [if_neg ha, hs.same_hello]

theorem prepareList_spec (L : Lib) (c : Session) (addrs : List EmailAddress) :
    ∀ (s : Session) (acc : List String) (n : Bool), Around c s →
      ∃ s', Around c s' ∧
        (((∀ a ∈ addrs, (c.prepareForSMTPUTF8 L a.Address).2.2.2 = none) ∧
            Session.prepareList L s addrs acc n =
              (s', acc ++ addrs.map (fun a => (c.prepareForSMTPUTF8 L a.Address).2.1),
                n || addrs.any (fun a => (c.prepareForSMTPUTF8 L a.Address).2.2.1), none)) ∨
          ((∃ a ∈ addrs, (c.prepareForSMTPUTF8 L a.Address).2.2.2 ≠ none) ∧ s' = (c.hello).1 ∧
            ∃ rs n' e, Session.prepareList L s addrs acc n = (s', rs, n', some e))) := by
  induction addrs with
  | nil =>
    intro s acc n hs
    exact ⟨s, hs, Or.inl ⟨by simp, by simp [Session.prepareList]⟩⟩
  | cons a rest ih =>
    intro s acc n hs
    have h2 := prepare_snd_congr L hs.same_hello a.Address
    have h1 := hs.prepare L a.Address
    rcases hp : s.prepareForSMTPUTF8 L a.Address with ⟨s1, addr1, needs1, err1⟩
    rw [hp] at h1 h2
    simp only at h1 h2
    unfold Session.prepareList
    rw [hp]
    cases err1 with
    | some e =>
      refine ⟨s1, h1, Or.inr ⟨⟨a, by simp, ?_⟩, ?_, acc, n, e, rfl⟩⟩
      · rw [← h2]
        simp
      · exact prepare_err_fst L hs (by rw [hp]; simp) ▸ (by rw [hp])
    | none =>
      simp only
      obtain ⟨s', hs', hres⟩ := ih s1 (acc ++ [addr1]) (n || needs1) h1
      refine ⟨s', hs', ?_⟩
      rcases hres with ⟨hall, heq⟩ | ⟨⟨b, hb, hne⟩, hst, rs, n', e, heq⟩
      · left
        refine ⟨?_, ?_⟩
        · intro b hb
          rcases List.mem_cons.mp hb with hb | hb
          · rw [hb, ← h2]
          · exact hall b hb
        · have e1 : (c.prepareForSMTPUTF8 L a.Address).2.1 = addr1 := by rw [← h2]
          have e2 : (c.prepareForSMTPUTF8 L a.Address).2.2.1 = needs1 := by rw [← h2]
          rw [heq]
          simp [e1, e2, Bool.or_assoc]
      · right
        exact ⟨⟨b, by simp [hb], hne⟩, hst, rs, n', e, heq⟩

theorem any_map_address (p : String → Bool) (l : List EmailAddress) :
    (l.map (fun rec => rec.Address)).any p = l.any (fun a => p a.Address) := by
  induction l with
  | nil => rfl
  | cons x xs ih => simp [ih]

theorem prepareRecipients_spec (L : Lib) (c s : Session) (msg : Email) (hs : Around c s) :
    ∃ s', Around c s' ∧
      (((∀ a ∈ msg.envelopeTo, (c.prepareForSMTPUTF8 L a).2.2.2 = none) ∧
          s.prepareRecipients L msg =
            (s', msg.envelopeTo.map (fun a => (c.prepareForSMTPUTF8 L a).2.1),
              msg.envelopeTo.any (fun a => (c.prepareForSMTPUTF8 L a).2.2.1), none)) ∨
        ((∃ a ∈ msg.envelopeTo, (c.prepareForSMTPUTF8 L a).2.2.2 ≠ none) ∧ s' = (c.hello).1 ∧
          ∃ rs n' e, s.prepareRecipients L msg = (s', rs, n', some e))) := by
  unfold Session.prepareRecipients Email.envelopeTo
  by_cases hr : msg.Recipient = ""
  · simp only [hr, ne_eq, not_true_eq_false, if_false]
    obtain ⟨s1, hs1, h1⟩ := prepareList_spec L c msg.To s [] false hs
    rcases h1 with ⟨hall1, heq1⟩ | ⟨⟨b, hb, hne⟩, hst, rs, n', e, heq⟩
    · rw [heq1]
      simp only
      obtain ⟨s2, hs2, h2⟩ := prepareList_spec L c msg.Cc s1 _ _ hs1
      rcases h2 with ⟨hall2, heq2⟩ | ⟨⟨b, hb, hne⟩, hst, rs, n', e, heq⟩
      · rw [heq2]
        simp only
        obtain ⟨s3, hs3, h3⟩ := prepareList_spec L c msg.Bcc s2 _ _ hs2
        rcases h3 with ⟨hall3, heq3⟩ | ⟨⟨b, hb, hne⟩, hst, rs, n', e, heq⟩
        · refine ⟨s3, hs3, Or.inl ⟨?_, ?_⟩⟩
          · intro a ha
            simp only [List.map_append, List.mem_append, List.mem_map] at ha
            rcases ha with (⟨x, hx, rfl⟩ | ⟨x, hx, rfl⟩) | ⟨x, hx, rfl⟩
            · exact hall1 x hx
            · exact hall2 x hx
            · exact hall3 x hx
          · rw [heq3]
            simp [List.map_append, List.any_append, any_map_address, Bool.or_assoc,
              Function.comp_def]
        · refine ⟨s3, hs3, Or.inr ⟨⟨b.Address, ?_, hne⟩, hst, rs, n', e, heq⟩⟩
          simp only [List.map_append, List.mem_append, List.mem_map]
          exact Or.inr ⟨b, hb, rfl⟩
      · refine ⟨s2, hs2, Or.inr ⟨⟨b.Address, ?_, hne⟩, hst, rs, n', e, by rw [heq]⟩⟩
        simp only [List.map_append, List.mem_append, List.mem_map]
        exact Or.inl (Or.inr ⟨b, hb, rfl⟩)
    · refine ⟨s1, hs1, Or.inr ⟨⟨b.Address, ?_, hne⟩, hst, rs, n', e, by rw [heq]⟩⟩
      simp only [List.map_append, List.mem_append, List.mem_map]
      exact Or.inl (Or.inl ⟨b, hb, rfl⟩)
  · simp only [ne_eq, hr, not_false_eq_true, if_true]
    have h2 := prepare_snd_congr L hs.same_hello msg.Recipient
    have h1 := hs.prepare L msg.Recipient
    rcases hp : s.prepareForSMTPUTF8 L msg.Recipient with ⟨s1, addr1, needs1, err1⟩
    rw [hp] at h1 h2
    simp only at h1 h2
    cases err1 with
    | some e =>
      refine ⟨s1, h1, Or.inr ⟨⟨msg.Recipient, by simp, ?_⟩, ?_, [], false, e, rfl⟩⟩
      · rw [← h2]
        simp
      · exact prepare_err_fst L hs (by rw [hp]; simp) ▸ (by rw [hp])
    | none =>
      refine ⟨s1, h1, Or.inl ⟨?_, ?_⟩⟩
      · intro a ha
        simp only [List.mem_singleton] at ha
        rw [ha, ← h2]
      · have e1 : (c.prepareForSMTPUTF8 L msg.Recipient).2.1 = addr1 := by rw [← h2]
        have e2 : (c.prepareForSMTPUTF8 L msg.Recipient).2.2.1 = needs1 := by rw [← h2]
        simp [e1, e2]

theorem rcptList_spec (rs : List String) :
    ∀ c : Session, ∃ t k err, c.rcptList rs = ({ c with Text := t }, err) ∧ k ≤ rs.length ∧
      t.trace = c.Text.trace ++ (rs.take k).map (fun r => Wire.cmd (rcptLine r)) ∧
      t.closes = c.Text.closes ∧ t.sinks = c.Text.sinks ∧
      (∃ pre, c.Text.script = pre ++ t.script) ∧ (err = none → k = rs.length) := by
  induction rs with
  | nil =>
    intro c
    exact ⟨c.Text, 0, none, rfl, Nat.le_refl _, by simp, rfl, rfl, ⟨[], rfl⟩, fun _ => rfl⟩
  | cons r rest ih =>
    intro c
    obtain ⟨t, code, msg, err, h, h1, h2, h3, ⟨pre, h4⟩, -⟩ :=
      cmd_spec c 25 ("RCPT TO:<" ++ r ++ ">")
    unfold Session.rcptList
    rw [h]
    cases err with
    | some e =>
      exact ⟨t, 1, some e, rfl, by simp, by simp [h1, rcptLine], h2, h3, ⟨pre, h4⟩, by simp⟩
    | none =>
      obtain ⟨t', k, err', g, g0, g1, g2, g3, ⟨pre', g4⟩, g5⟩ := ih { c with Text := t }
      refine ⟨t', k + 1, err', by simp only [g], by simp [g0], ?_, by rw [g2]; exact h2,
        by rw [g3]; exact h3, ⟨pre ++ pre', ?_⟩, fun e => by simp [g5 e]⟩
      · rw [g1]
        simp [h1, rcptLine]
      · simp only at g4
        rw [h4, g4, List.append_assoc]

/-- The parameters `MailAndRcpt` appends to the MAIL command. -/
theorem mail_params (ok needed : Bool) :
    (if needed = true then (if ok = true then "" ++ " BODY=8BITMIME" else "") ++ " SMTPUTF8"
      else (if ok = true then "" ++ " BODY=8BITMIME" else "")) =
    (if ok = true then " BODY=8BITMIME" else "") ++ (if needed = true then " SMTPUTF8" else "") := by
  cases ok <;> cases needed <;> decide

/-- What `MailAndRcpt` does. When an envelope address cannot be classified it
returns an error from a session that is the given one or the given one after
its hello. Otherwise it performs the hello if needed, sends MAIL with the
classified sender, then RCPT for the classified recipients in order up to the
first failure. -/
theorem MailAndRcpt_spec (L : Lib) (c : Session) (msg : Email) :
    ((∃ a ∈ msg.envelopeFrom :: msg.envelopeTo, (c.prepareForSMTPUTF8 L a).2.2.2 ≠ none) ∧
        ∃ e, c.MailAndRcpt L msg = ((c.hello).1, some e)) ∨
      ((∀ a ∈ msg.envelopeFrom :: msg.envelopeTo, (c.prepareForSMTPUTF8 L a).2.2.2 = none) ∧
        ∃ t k err, c.MailAndRcpt L msg = ({ (c.hello).1 with Text := t }, err) ∧
          k ≤ msg.envelopeTo.length ∧
          t.trace = (c.hello).1.Text.trace ++
            Wire.cmd (mailLine (c.prepareForSMTPUTF8 L msg.envelopeFrom).2.1
              ((if (c.Extension L "8BITMIME").2.1 = true then " BODY=8BITMIME" else "") ++
                (if (msg.envelopeFrom :: msg.envelopeTo).any
                    (fun a => (c.prepareForSMTPUTF8 L a).2.2.1) = true
                  then " SMTPUTF8" else ""))) ::
            ((msg.envelopeTo.map (fun a => (c.prepareForSMTPUTF8 L a).2.1)).take k).map
              (fun r => Wire.cmd (rcptLine r)) ∧
          t.closes = (c.hello).1.Text.closes ∧ t.sinks = (c.hello).1.Text.sinks ∧
          (∃ pre, (c.hello).1.Text.script = pre ++ t.script) ∧
          (err = none → k = msg.envelopeTo.length)) := by
  unfold Session.MailAndRcpt
  have hfrom : (if msg.ReturnPath ≠ "" then msg.ReturnPath else msg.From.Address)
      = msg.envelopeFrom := rfl
  rw [hfrom]
  have hc : Around c c := Or.inl rfl
  have h1 := hc.prepare L msg.envelopeFrom
  rcases hp : c.prepareForSMTPUTF8 L msg.envelopeFrom with ⟨s1, sender, fromNeeds, err1⟩
  rw [hp] at h1
  simp only at h1
  cases err1 with
  | some e =>
    left
    refine ⟨⟨msg.envelopeFrom, by simp, by simp [hp]⟩, e, ?_⟩
    have := @prepare_err_fst L c c hc msg.envelopeFrom (by rw [hp]; simp)
    rw [hp] at this
    simp only at this
    rw [this]
  | none =>
    simp only
    obtain ⟨s2, hs2, h2⟩ := prepareRecipients_spec L c s1 msg h1
    rcases h2 with ⟨hall, heq⟩ | ⟨⟨b, hb, hne⟩, hst, rs, n', e, heq⟩
    · right
      refine ⟨?_, ?_⟩
      · intro a ha
        rcases List.mem_cons.mp ha with ha | ha
        · rw [ha, hp]
        · exact hall a ha
      · rw [heq]
        simp only
        rw [Extension_congr L hs2.same_hello "8BITMIME", Extension_eq L c "8BITMIME"]
        simp only
        obtain ⟨t, code, m, err, h, g1, g2, g3, ⟨pre, g4⟩, -⟩ := cmd_spec (c.hello).1 250
          (mailLine sender
            (if (fromNeeds || msg.envelopeTo.any (fun a => (c.prepareForSMTPUTF8 L a).2.2.1)) = true
              then (if (c.Extension L "8BITMIME").2.1 = true then "" ++ " BODY=8BITMIME" else "")
                ++ " SMTPUTF8"
              else (if (c.Extension L "8BITMIME").2.1 = true then "" ++ " BODY=8BITMIME" else ""))) 
        rw [h]
        rw [mail_params] at g1
        have hany : (msg.envelopeFrom :: msg.envelopeTo).any
            (fun a => (c.prepareForSMTPUTF8 L a).2.2.1) =
            (fromNeeds || msg.envelopeTo.any (fun a => (c.prepareForSMTPUTF8 L a).2.2.1)) := by
          simp [hp]
        cases err with
        | some e =>
          refine ⟨t, 0, some e, rfl, Nat.zero_le _, ?_, g2, g3, ⟨pre, g4⟩, by simp⟩
          rw [g1, hany]
          simp
        | none =>
          simp only
          obtain ⟨t', k, err', r0, r1, r2, r3, r4, ⟨pre', r5⟩, r6⟩ :=
            rcptList_spec (msg.envelopeTo.map (fun a => (c.prepareForSMTPUTF8 L a).2.1))
              { (c.hello).1 with Text := t }
          rw [r0]
          refine ⟨t', k, err', rfl, by simpa using r1, ?_, by rw [r3]; exact g2,
            by rw [r4]; exact g3, ⟨pre ++ pre', ?_⟩, fun e => by simpa using r6 e⟩
          · rw [r2]
            simp only
            rw [g1, hany]
            simp
          · simp only at r5
            rw [g4, r5, List.append_assoc]
    · left
      refine ⟨⟨b, by simp [hb], hne⟩, e, ?_⟩
      rw [heq, hst]

/-- On an address that classifies without error, the extension is reported as
needed exactly when the address is not ASCII and the session reports SMTPUTF8
support. -/
theorem prepare_needs (L : Lib) (c : Session) (a : String)
    (h : (c.prepareForSMTPUTF8 L a).2.2.2 = none) :
    (c.prepareForSMTPUTF8 L a).2.2.1 = true ↔
      (isASCII a = false ∧ (c.Extension L "SMTPUTF8").2.1 = true) := by
  unfold Session.prepareForSMTPUTF8 at h ⊢
  by_cases ha : isASCII a = true
  · simp [ha]
  · rw [if_neg ha] at h ⊢
    have ha' : isASCII a = false := by simpa using ha
    rcases hx : c.Extension L "SMTPUTF8" with ⟨c', ok, p⟩
    rw [hx] at h
    cases ok
    · simp only at h ⊢
      cases hu : isASCII (Split a).1
      · simp [hu] at h
      · simp only [hu, Bool.not_true, Bool.false_eq_true, if_false] at h ⊢
        cases hi : L.idnaToASCII (Split a).2
        · simp [hi] at h
        · simp
    · simp [ha']

theorem not_suffix_of_last {l t : List Char} {x y : Char} (hxy : x ≠ y) :
    ¬ (t ++ [y]) <:+ (l ++ [x]) := by
  rintro ⟨u, hu⟩
  have := congrArg List.reverse hu
  simp at this
  exact hxy this.1.symm

/-- The MAIL command line ends with the SMTPUTF8 parameter exactly when the
flag is set. -/
theorem mailLine_suffix (sender : String) (ok needed : Bool) :
    " SMTPUTF8".data <:+
        (mailLine sender ((if ok = true then " BODY=8BITMIME" else "") ++
          (if needed = true then " SMTPUTF8" else ""))).data ↔ needed = true := by
  unfold mailLine
  cases needed
  · simp only [Bool.false_eq_true, if_false, iff_false]
    cases ok
    · have e : ("MAIL FROM:<" ++ sender ++ ">" ++ ((if false = true then " BODY=8BITMIME" else "") ++ "")).data
          = ("MAIL FROM:<".data ++ sender.data) ++ ['>'] := by
        simp [String.data_append]
      rw [e]
      exact not_suffix_of_last (t := " SMTPUTF".data) (by decide)
    · have e : ("MAIL FROM:<" ++ sender ++ ">" ++ ((if true = true then " BODY=8BITMIME" else "") ++ "")).data
          = ("MAIL FROM:<".data ++ sender.data ++ "> BODY=8BITMIM".data) ++ ['E'] := by
        simp [String.data_append]
      rw [e]
      exact not_suffix_of_last (t := " SMTPUTF".data) (by decide)
  · simp only [if_true, iff_true]
    refine ⟨("MAIL FROM:<" ++ sender ++ ">" ++ (if ok = true then " BODY=8BITMIME" else "")).data, ?_⟩
    simp [String.data_append]

/-- C5: whenever `MailAndRcpt` returns no error (the server accepted every
command and every envelope address was classified), what it sent after the
hello exchange (nothing, when the hello was already done) is exactly one MAIL
command, whose address is the classified `ReturnPath` when `ReturnPath` is
non-empty and the classified `From.Address` otherwise, followed by RCPT
commands only: one for the classified `Recipient` when `Recipient` is
non-empty, otherwise one per classified address of `To`, then `Cc`, then
`Bcc`, each list in its own order. -/
theorem MailAndRcpt_commands (L : Lib) (c : Session) (msg : Email)
    (h : (c.MailAndRcpt L msg).2 = none) :
    (∃ params, (c.MailAndRcpt L msg).1.Text.trace =
      (c.hello).1.Text.trace ++
        Wire.cmd (mailLine
          (c.prepareForSMTPUTF8 L
            (if msg.ReturnPath ≠ "" then msg.ReturnPath else msg.From.Address)).2.1 params) ::
        (if msg.Recipient ≠ "" then [msg.Recipient]
          else (msg.To ++ msg.Cc ++ msg.Bcc).map (fun rec => rec.Address)).map
          (fun a => Wire.cmd ("RCPT TO:<" ++ (c.prepareForSMTPUTF8 L a).2.1 ++ ">"))) ∧
      (c.didHello = true → (c.hello).1.Text.trace = c.Text.trace) := by
  constructor
  · rcases MailAndRcpt_spec L c msg with ⟨-, e, he⟩ | ⟨-, t, k, err, he, hk, ht, -, -, -, hok⟩
    · rw [he] at h
      simp at h
    · rw [he] at h ⊢
      simp only at h
      have hk' := hok h
      refine ⟨(if (c.Extension L "8BITMIME").2.1 = true then " BODY=8BITMIME" else "") ++
        (if (msg.envelopeFrom :: msg.envelopeTo).any
            (fun a => (c.prepareForSMTPUTF8 L a).2.2.1) = true then " SMTPUTF8" else ""), ?_⟩
      simp only
      rw [ht, hk']
      have hl : (msg.envelopeTo.map (fun a => (c.prepareForSMTPUTF8 L a).2.1)).take
          msg.envelopeTo.length = msg.envelopeTo.map (fun a => (c.prepareForSMTPUTF8 L a).2.1) := by
        apply List.take_of_length_le
        simp
      rw [hl, List.map_map]
      rfl
  · intro hd
    rw [hello_of_did hd]

theorem MailAndRcpt_commands_witness :
    ((freshSession [reply 250 "mx\n8BITMIME", reply 250 "ok", reply 251 "ok"]).MailAndRcpt
        sampleLib sampleEmail).1.Text.trace =
      [Wire.cmd "EHLO localhost", Wire.cmd "MAIL FROM:<a@x.org> BODY=8BITMIME",
        Wire.cmd "RCPT TO:<b@y.org>"] ∧
    ∃ params,
      ((freshSession [reply 250 "mx\n8BITMIME", reply 250 "ok", reply 251 "ok"]).MailAndRcpt
        sampleLib sampleEmail).1.Text.trace =
      ((freshSession [reply 250 "mx\n8BITMIME", reply 250 "ok", reply 251 "ok"]).hello).1.Text.trace
        ++ Wire.cmd (mailLine "a@x.org" params) :: [Wire.cmd "RCPT TO:<b@y.org>"] :=
  ⟨by decide,
    (MailAndRcpt_commands sampleLib
      (freshSession [reply 250 "mx\n8BITMIME", reply 250 "ok", reply 251 "ok"]) sampleEmail
      (by decide)).1⟩

/-- C6: for every message whose envelope addresses (the sender and the
recipients actually used) all classify without error, `MailAndRcpt` sends,
right after the hello exchange, a MAIL command that carries the SMTPUTF8
parameter (as its last parameter) if and only if at least one of those
addresses was classified as needing the extension, which is the case exactly
for an address that has a non-ASCII character while the session reports
SMTPUTF8 support. -/
theorem MailAndRcpt_smtputf8 (L : Lib) (c : Session) (msg : Email)
    (hcls : ∀ a ∈ msg.envelopeFrom :: msg.envelopeTo, (c.prepareForSMTPUTF8 L a).2.2.2 = none) :
    ∃ line rest,
      (c.MailAndRcpt L msg).1.Text.trace = (c.hello).1.Text.trace ++ Wire.cmd line :: rest ∧
      (∃ params, line = mailLine (c.prepareForSMTPUTF8 L msg.envelopeFrom).2.1 params) ∧
      (" SMTPUTF8".data <:+ line.data ↔
        ∃ a ∈ msg.envelopeFrom :: msg.envelopeTo, (c.prepareForSMTPUTF8 L a).2.2.1 = true) ∧
      (∀ a ∈ msg.envelopeFrom :: msg.envelopeTo,
        ((c.prepareForSMTPUTF8 L a).2.2.1 = true ↔
          (isASCII a = false ∧ (c.Extension L "SMTPUTF8").2.1 = true))) := by
  rcases MailAndRcpt_spec L c msg with ⟨⟨a, ha, hne⟩, -⟩ | ⟨-, t, k, err, he, hk, ht, -⟩
  · exact absurd (hcls a ha) hne
  · refine ⟨_, _, by rw [he]; exact ht, ⟨_, rfl⟩, ?_, fun a ha => prepare_needs L c a (hcls a ha)⟩
    rw [mailLine_suffix]
    simp only [List.any_eq_true]

theorem MailAndRcpt_smtputf8_witness :
    ∃ line rest,
      ((freshSession [reply 250 "mx\nSMTPUTF8", reply 250 "ok", reply 250 "ok"]).MailAndRcpt
        sampleLib { sampleEmail with Recipient := "é@y.org" }).1.Text.trace =
      ((freshSession [reply 250 "mx\nSMTPUTF8", reply 250 "ok", reply 250 "ok"]).hello).1.Text.trace
        ++ Wire.cmd line :: rest ∧
      (" SMTPUTF8".data <:+ line.data ↔
        ∃ a ∈ ({ sampleEmail with Recipient := "é@y.org" } : Email).envelopeFrom ::
            ({ sampleEmail with Recipient := "é@y.org" } : Email).envelopeTo,
          ((freshSession [reply 250 "mx\nSMTPUTF8", reply 250 "ok", reply 250 "ok"]).prepareForSMTPUTF8
            sampleLib a).2.2.1 = true) :=
  match MailAndRcpt_smtputf8 sampleLib
      (freshSession [reply 250 "mx\nSMTPUTF8", reply 250 "ok", reply 250 "ok"])
      { sampleEmail with Recipient := "é@y.org" } (by decide) with
  | ⟨line, rest, h1, _, h3, _⟩ => ⟨line, rest, h1, h3⟩

/-! ## A failed MAIL/RCPT sequence -/

theorem ne_of_first_char {a b : Char} (h : a ≠ b) (as bs : List Char) (x : String) :
    String.mk (a :: as) ++ x ≠ String.mk (b :: bs) := by
  intro e
  have := congrArg String.data e
  simp [String.data_append] at this
  exact h this.1

theorem hello_no_data (c : Session) :
    ∃ d, (c.hello).1.Text.trace = c.Text.trace ++ d ∧ Wire.cmd "DATA" ∉ d := by
  obtain ⟨t, ext, auth, err, h, -, -, -, -, ht⟩ := hello_spec c
  rw [h]
  have h1 : "EHLO " ++ c.localName ≠ "DATA" :=
    ne_of_first_char (a := 'E') (b := 'D') (by decide) _ ['A', 'T', 'A'] _
  have h2 : "HELO " ++ c.localName ≠ "DATA" :=
    ne_of_first_char (a := 'H') (b := 'D') (by decide) _ ['A', 'T', 'A'] _
  rcases ht with ht | ht | ht
  · exact ⟨[], by simp [ht], by simp⟩
  · exact ⟨_, ht, by simp [h1.symm]⟩
  · exact ⟨_, ht, by simp [h1.symm, h2.symm]⟩

theorem mailLine_ne_data (sender params : String) : mailLine sender params ≠ "DATA" := by
  unfold mailLine
  intro e
  have := congrArg String.data e
  simp [String.data_append] at this

theorem rcptLine_ne_data (r : String) : rcptLine r ≠ "DATA" := by
  unfold rcptLine
  intro e
  have := congrArg String.data e
  simp [String.data_append] at this

/-- What `MailAndRcpt` leaves: a session whose hello is done, with the outcome
of the hello of the session it started from, and a trace that grew by commands
none of which is DATA. -/
theorem MailAndRcpt_after (L : Lib) (c : Session) (msg : Email) :
    (c.MailAndRcpt L msg).1.didHello = true ∧
      (c.MailAndRcpt L msg).1.helloError = (c.hello).2 ∧
      ∃ d, (c.MailAndRcpt L msg).1.Text.trace = c.Text.trace ++ d ∧ Wire.cmd "DATA" ∉ d := by
  obtain ⟨t0, ext, auth, err0, hh, -⟩ := hello_spec c
  obtain ⟨d0, hd0, hn0⟩ := hello_no_data c
  rcases MailAndRcpt_spec L c msg with ⟨-, e', he⟩ | ⟨-, t, k, err, he, hk, ht, -⟩
  · rw [he]
    refine ⟨by rw [hh], by rw [hh], d0, hd0, hn0⟩
  · rw [he]
    refine ⟨by rw [hh], by rw [hh], ?_⟩
    refine ⟨d0 ++ _, by simp only; rw [ht, hd0, List.append_assoc], ?_⟩
    simp only [List.mem_append, List.mem_cons, List.mem_map, not_or]
    refine ⟨hn0, ?_, ?_⟩
    · intro hw
      injection hw with hw
      exact mailLine_ne_data _ _ hw.symm
    · rintro ⟨r, -, hw⟩
      injection hw with hw
      exact rcptLine_ne_data _ hw

/-- C4 (amended): for every message that passes validation, if `MailAndRcpt`
fails then `SendSingleMessage` returns that error unchanged, whatever the
outcome of the reset, with the message and the world untouched, and sends no
DATA command; it sends RSET as its last command when the hello of the session
had succeeded, and sends nothing after `MailAndRcpt` when the hello had
failed (`Reset` then returns before sending). -/
theorem SendSingleMessage_mail_failure (L : Lib) (c : Session) (W : World) (msg : Email)
    (e : Err) (hfrom : msg.From.Address ≠ "")
    (hrcpt : ¬ (msg.Recipient = "" ∧ msg.To = [] ∧ msg.Cc = [] ∧ msg.Bcc = []))
    (hfail : (c.MailAndRcpt L msg).2 = some e) :
    (c.SendSingleMessage L W msg).2 = (W, msg, some e) ∧
      (∃ d, (c.SendSingleMessage L W msg).1.Text.trace = c.Text.trace ++ d ∧
        Wire.cmd "DATA" ∉ d) ∧
      ((c.hello).2 = none →
        (c.SendSingleMessage L W msg).1.Text.trace =
          (c.MailAndRcpt L msg).1.Text.trace ++ [Wire.cmd "RSET"]) ∧
      ((c.hello).2 ≠ none → (c.SendSingleMessage L W msg).1 = (c.MailAndRcpt L msg).1) := by
  obtain ⟨hd, hhe, d, htr, hnd⟩ := MailAndRcpt_after L c msg
  have hv : ¬ (msg.Recipient = "" ∧ msg.To.length = 0 ∧ msg.Cc.length = 0 ∧
      msg.Bcc.length = 0) := by
    simpa [List.length_eq_zero] using hrcpt
  unfold Session.SendSingleMessage
  rw [if_neg hfrom, if_neg hv]
  rcases hm : c.MailAndRcpt L msg with ⟨c1, err1⟩
  rw [hm] at hfail hd hhe htr
  simp only at hfail hd hhe htr
  subst hfail
  simp only
  unfold Session.Reset
  rw [hello_of_did hd, hhe]
  cases hh : (c.hello).2 with
  | some e0 =>
    refine ⟨trivial, ⟨d, htr, hnd⟩, fun h => by simp at h, fun _ => rfl⟩
  | none =>
    obtain ⟨t, code, m, err, hc, h1, -⟩ := cmd_spec c1 250 "RSET"
    simp only [hc]
    refine ⟨trivial, ⟨d ++ [Wire.cmd "RSET"], by rw [h1, htr, List.append_assoc], ?_⟩,
      fun _ => h1, fun h => by simp at h⟩
    simp only [List.mem_append, List.mem_singleton, not_or]
    exact ⟨hnd, by decide⟩

theorem SendSingleMessage_mail_failure_witness :
    ((freshSession [reply 250 "mx", reply 550 "no"]).SendSingleMessage sampleLib sampleWorld
        sampleEmail).2 = (sampleWorld, sampleEmail, some (Err.proto 550 "no")) ∧
      ((freshSession [reply 250 "mx", reply 550 "no"]).SendSingleMessage sampleLib sampleWorld
        sampleEmail).1.Text.trace =
        ((freshSession [reply 250 "mx", reply 550 "no"]).MailAndRcpt sampleLib
          sampleEmail).1.Text.trace ++ [Wire.cmd "RSET"] :=
  ⟨(SendSingleMessage_mail_failure sampleLib (freshSession [reply 250 "mx", reply 550 "no"])
      sampleWorld sampleEmail (Err.proto 550 "no") (by decide) (by decide) (by decide)).1,
    (SendSingleMessage_mail_failure sampleLib (freshSession [reply 250 "mx", reply 550 "no"])
      sampleWorld sampleEmail (Err.proto 550 "no") (by decide) (by decide) (by decide)).2.2.1
      (by decide)⟩

/-- C4 (counterexample): on a fresh session whose server rejects both EHLO and
HELO and then rejects MAIL, the sample message passes validation and
`MailAndRcpt` fails, yet `SendSingleMessage` sends no RSET. -/
theorem SendSingleMessage_no_reset :
    sampleEmail.From.Address ≠ "" ∧ sampleEmail.To ≠ [] ∧
      ((freshSession [reply 500 "no", reply 500 "no", reply 550 "no"]).MailAndRcpt sampleLib
        sampleEmail).2 = some (Err.proto 550 "no") ∧
      ((freshSession [reply 500 "no", reply 500 "no", reply 550 "no"]).SendSingleMessage
        sampleLib sampleWorld sampleEmail).1.Text.trace =
        [Wire.cmd "EHLO localhost", Wire.cmd "HELO localhost", Wire.cmd "MAIL FROM:<a@x.org>"] ∧
      Wire.cmd "RSET" ∉
        ((freshSession [reply 500 "no", reply 500 "no", reply 550 "no"]).SendSingleMessage
          sampleLib sampleWorld sampleEmail).1.Text.trace := by
  decide

/-! ## Bulk sending -/

theorem sendEach_acc (L : Lib) {n : Nat} (msgs : List (Fin n)) :
    ∀ (c : Session) (W : World) (store : Store n) (report : SendBulkReport),
      Session.sendEach L c W store msgs report =
        ((Session.sendEach L c W store msgs []).1, (Session.sendEach L c W store msgs []).2.1,
          (Session.sendEach L c W store msgs []).2.2.1,
          report ++ (Session.sendEach L c W store msgs []).2.2.2) := by
  induction msgs with
  | nil => intro c W store report; simp [Session.sendEach]
  | cons p rest ih =>
    intro c W store report
    unfold Session.sendEach
    rcases c.SendSingleMessage L W (store p) with ⟨c1, W1, m1, err⟩
    simp only
    rw [ih c1 W1 _ (report ++ _), ih c1 W1 _ ([] ++ _)]
    simp

theorem sendEach_state (L : Lib) {n : Nat} (msgs : List (Fin n)) :
    ∀ (c : Session) (W : World) (store : Store n),
      ((Session.sendEach L c W store msgs []).1, (Session.sendEach L c W store msgs []).2.1,
          (Session.sendEach L c W store msgs []).2.2.1) =
        Session.afterSends L c W store msgs := by
  induction msgs with
  | nil => intro c W store; rfl
  | cons p rest ih =>
    intro c W store
    unfold Session.sendEach Session.afterSends
    rcases c.SendSingleMessage L W (store p) with ⟨c1, W1, m1, err⟩
    simp only
    rw [sendEach_acc, ← ih c1 W1]

theorem sendEach_length (L : Lib) {n : Nat} (msgs : List (Fin n)) :
    ∀ (c : Session) (W : World) (store : Store n),
      (Session.sendEach L c W store msgs []).2.2.2.length = msgs.length := by
  induction msgs with
  | nil => intro c W store; rfl
  | cons p rest ih =>
    intro c W store
    unfold Session.sendEach
    rcases c.SendSingleMessage L W (store p) with ⟨c1, W1, m1, err⟩
    simp only
    rw [sendEach_acc]
    simp [ih c1 W1]

theorem sendEach_item (L : Lib) {n : Nat} (msgs : List (Fin n)) :
    ∀ (c : Session) (W : World) (store : Store n) (i : Nat) (p : Fin n), msgs[i]? = some p →
      (Session.sendEach L c W store msgs []).2.2.2[i]? =
        some (reportItem
          ((Session.afterSends L c W store (msgs.take i)).1.SendSingleMessage L
            (Session.afterSends L c W store (msgs.take i)).2.1
            ((Session.afterSends L c W store (msgs.take i)).2.2 p))) := by
  induction msgs with
  | nil => intro c W store i p h; simp at h
  | cons p0 rest ih =>
    intro c W store i p h
    unfold Session.sendEach
    rcases hs : c.SendSingleMessage L W (store p0) with ⟨c1, W1, m1, err⟩
    simp only
    rw [sendEach_acc]
    simp only
    cases i with
    | zero =>
      simp only [List.getElem?_cons_zero, Option.some.injEq] at h
      subst h
      simp [Session.afterSends, reportItem, hs]
    | succ j =>
      simp only [List.getElem?_cons_succ] at h
      have := ih c1 W1 (store.assign p0 m1) j p h
      simp only [List.nil_append, List.singleton_append, List.getElem?_cons_succ,
        List.take_succ_cons]
      rw [this]
      simp [Session.afterSends, hs]

theorem writeHeaders_id (L : Lib) (e : Email) (W : World) (w : Writer) (b : String)
    (h : e.MessageID ≠ "") : (e.writeHeaders L W w b).1.MessageID = e.MessageID := by
  unfold Email.writeHeaders
  simp only [h, if_false]

theorem writeBody_id (L : Lib) (e : Email) (W : World) (mp : MPWriter) (w : Writer) :
    (e.writeBody L W mp w).1.MessageID = e.MessageID := by
  unfold Email.writeBody
  simp only
  repeat' split
  all_goals rfl

theorem writeAMPBody_id (L : Lib) (e : Email) (mp : MPWriter) (w : Writer) :
    (e.writeAMPBody L mp w).1.MessageID = e.MessageID := by
  unfold Email.writeAMPBody
  simp only
  repeat' split
  all_goals rfl

/-- Serialising a message that has an identifier leaves the identifier as it is. -/
theorem Write_id (L : Lib) (e : Email) (W : World) (w : Writer) (h : e.MessageID ≠ "") :
    (e.Write L W w).1.MessageID = e.MessageID := by
  unfold Email.Write
  have hh := fun W' b => writeHeaders_id L e W' w b h
  split
  · split
    · rcases NewWriter W with ⟨mp, W1⟩
      simp only
      have h1 := hh W1 mp.boundary
      rcases hw : e.writeHeaders L W1 w mp.boundary with ⟨e1, W2, w1, err1⟩
      rw [hw] at h1
      simp only at h1
      cases err1 with
      | some x => exact h1
      | none =>
        simp only
        have h2 := writeAMPBody_id L e1 mp w1
        rcases ha : e1.writeAMPBody L mp w1 with ⟨e2, mp2, w2, err2⟩
        rw [ha] at h2
        simp only at h2
        cases err2 with
        | some x => exact h2.trans h1
        | none => exact h2.trans h1
    · rcases NewWriter W with ⟨mp, W1⟩
      simp only
      have h1 := hh W1 mp.boundary
      rcases hw : e.writeHeaders L W1 w mp.boundary with ⟨e1, W2, w1, err1⟩
      rw [hw] at h1
      simp only at h1
      cases err1 with
      | some x => exact h1
      | none =>
        simp only
        have h2 := writeBody_id L e1 W2 mp w1
        rcases ha : e1.writeBody L W2 mp w1 with ⟨e2, W3, mp2, w2, err2⟩
        rw [ha] at h2
        simp only at h2
        cases err2 with
        | some x => exact h2.trans h1
        | none =>
          simp only
          rcases writeParts L e2.Attachments mp2 w2 with ⟨atts, mp3, w3, err3⟩
          cases err3 with
          | some x => exact h2.trans h1
          | none =>
            simp only
            rcases writeParts L e2.Images mp3 w3 with ⟨imgs, mp4, w4, err4⟩
            cases err4 with
            | some x => exact h2.trans h1
            | none => exact h2.trans h1
  · have h1 := hh W ""
    rcases hw : e.writeHeaders L W w "" with ⟨e1, W2, w1, err1⟩
    rw [hw] at h1
    simp only at h1
    cases err1 with
    | some x => exact h1
    | none => exact h1

/-- A send leaves the identifier of a message that has one as it is. -/
theorem SendSingleMessage_id (L : Lib) (c : Session) (W : World) (m : Email)
    (h : m.MessageID ≠ "") : (c.SendSingleMessage L W m).2.2.1.MessageID = m.MessageID := by
  unfold Session.SendSingleMessage
  split
  · rfl
  · split
    · rfl
    · rcases c.MailAndRcpt L m with ⟨c1, err1⟩
      cases err1 with
      | some x => rfl
      | none =>
        simp only
        rcases c1.Data with ⟨c2, ow⟩
        cases ow with
        | error x => rfl
        | ok w =>
          simp only
          have h1 := Write_id L m W w h
          rcases hw : m.Write L W w with ⟨m1, W1, w1, err3⟩
          rw [hw] at h1
          cases err3 with
          | some x => exact h1
          | none => exact h1

/-- A message that has an identifier keeps it through the sends of a list of
messages, whether or not it is one of them. -/
theorem afterSends_id (L : Lib) {n : Nat} (msgs : List (Fin n)) :
    ∀ (c : Session) (W : World) (store : Store n) (q : Fin n), (store q).MessageID ≠ "" →
      ((Session.afterSends L c W store msgs).2.2 q).MessageID = (store q).MessageID := by
  induction msgs with
  | nil => intro c W store q _; rfl
  | cons p rest ih =>
    intro c W store q hq
    unfold Session.afterSends
    have hid := SendSingleMessage_id L c W (store p)
    rcases hs : c.SendSingleMessage L W (store p) with ⟨c1, W1, m1, err⟩
    rw [hs] at hid
    simp only at hid ⊢
    have hcell : (Store.assign store p m1 q).MessageID = (store q).MessageID := by
      unfold Store.assign
      by_cases hqp : q = p
      · rw [if_pos hqp, hqp]
        exact hid (by rw [← hqp]; exact hq)
      · rw [if_neg hqp]
    rw [ih c1 W1 (store.assign p m1) q (by rw [hcell]; exact hq), hcell]

/-- C1: when session start-up succeeds, the report `SendMessageBulk` returns
has exactly one item per entry of the message list, in input order, also when
the list holds one message more than once. Item `i` is the outcome of
`SendSingleMessage` on the message entry `i` refers to, as the sends of the
entries before it left that message, run in the session and world those sends
left: it carries the identifier the message has after that send (the input
identifier itself whenever that is non-empty), `Sent` is true exactly when
that send returned no error, and `Err` is that error. Whether earlier sends
failed plays no part: every message is attempted and reported. -/
theorem SendMessageBulk_report (L : Lib) {n : Nat} (c : Session) (W : World) (store : Store n)
    (msgs : List (Fin n)) (hstart : (c.StartSession L).2 = none) :
    (c.SendMessageBulk L W store msgs).2.2.2.1.length = msgs.length ∧
      ∀ (i : Nat) (p : Fin n), msgs[i]? = some p →
        ∃ item, (c.SendMessageBulk L W store msgs).2.2.2.1[i]? = some item ∧
          item = reportItem
            ((Session.afterSends L (c.StartSession L).1 W store (msgs.take i)).1.SendSingleMessage
              L (Session.afterSends L (c.StartSession L).1 W store (msgs.take i)).2.1
              ((Session.afterSends L (c.StartSession L).1 W store (msgs.take i)).2.2 p)) ∧
          (item.Sent = true ↔ item.Err = none) ∧
          ((store p).MessageID ≠ "" → item.MessageID = (store p).MessageID) := by
  unfold Session.SendMessageBulk
  rcases hs : c.StartSession L with ⟨c0, err0⟩
  rw [hs] at hstart
  simp only at hstart
  subst hstart
  simp only
  refine ⟨sendEach_length L msgs c0 W store, ?_⟩
  intro i p hp
  refine ⟨_, sendEach_item L msgs c0 W store i p hp, rfl, ?_, ?_⟩
  · simp [reportItem]
  · intro hne
    have h1 := afterSends_id L (msgs.take i) c0 W store p hne
    rw [← h1]
    exact SendSingleMessage_id L _ _ _ (by rw [h1]; exact hne)

/-! ## Closing the connection -/

theorem Kept.refl (c : Session) : Kept c c := ⟨rfl, rfl, rfl⟩

theorem Kept.trans {a b c : Session} (h1 : Kept a b) (h2 : Kept b c) : Kept a c :=
  ⟨h2.1.trans h1.1, h2.2.1.trans h1.2.1, h2.2.2.trans h1.2.2⟩

theorem Kept.ready {c c' : Session} (h : Kept c c') (hr : Ready c) : Ready c' :=
  ⟨h.2.1.trans hr.1, h.2.2.trans hr.2⟩

theorem Ready.cached {c : Session} (h : Ready c) : c.hello = (c, none) := by
  rw [hello_of_did h.1, h.2]

theorem cmd_kept (c : Session) (expectCode : Nat) (line : String) :
    Kept c (c.cmd expectCode line).1 := by
  obtain ⟨t, code, msg, err, h, -, h2, -⟩ := cmd_spec c expectCode line
  rw [h]
  exact ⟨h2, rfl, rfl⟩

theorem cmd_kept_of {c c1 : Session} {expectCode code : Nat} {line msg : String}
    {err : Option Err} (h : c.cmd expectCode line = (c1, code, msg, err)) : Kept c c1 := by
  have := cmd_kept c expectCode line
  rw [h] at this
  exact this

theorem hello_ok_ready (c : Session) (h : (c.hello).2 = none) :
    Ready (c.hello).1 ∧ (c.hello).1.Text.closes = c.Text.closes := by
  obtain ⟨t, ext, auth, err, hh, h1, -⟩ := hello_spec c
  rw [hh] at h ⊢
  simp only at h
  subst h
  exact ⟨⟨rfl, rfl⟩, h1⟩

theorem ehlo_kept (c : Session) : Kept c (c.ehlo).1 := by
  obtain ⟨t, ext, auth, err, h, -, h2, -⟩ := ehlo_spec c
  rw [h]
  exact ⟨h2, rfl, rfl⟩

theorem StartTLS_kept (c : Session) (hr : Ready c) : Kept c (c.StartTLS).1 := by
  unfold Session.StartTLS
  rw [hr.cached]
  simp only
  have h1 := cmd_kept c 220 "STARTTLS"
  rcases hc : c.cmd 220 "STARTTLS" with ⟨c1, code, msg, err⟩
  rw [hc] at h1
  cases err with
  | some e => exact h1
  | none =>
    simp only
    have hmid : Kept c { c1 with
        Text := { c1.Text with trace := c1.Text.trace ++ [Wire.tls] }, tls := true } :=
      ⟨h1.1, h1.2.1, h1.2.2⟩
    exact hmid.trans (ehlo_kept _)

theorem authAbort_snd (c : Session) (e : Err) : (c.authAbort e).2 = some e := by
  unfold Session.authAbort
  rcases c.cmd 501 "*" with ⟨c1, code, msg, err⟩
  rfl

/-- An authentication exchange that ends without error has not closed the
connection. -/
theorem authLoop_kept (L : Lib) (a : Auth) (fuel : Nat) :
    ∀ (c : Session) (code : Nat) (msg64 : String) (c' : Session),
      Session.authLoop L a fuel c code msg64 = (c', none) → Kept c c' := by
  induction fuel with
  | zero =>
    intro c code msg64 c' h
    simp [Session.authLoop] at h
  | succ n ih =>
    intro c code msg64 c' h
    unfold Session.authLoop at h
    simp only at h
    split at h
    · have := authAbort_snd c ‹Err›
      rw [h] at this
      simp at this
    · rename_i msg hd
      rcases hn : a.Next c.calls msg (decide (code = 334)) with ⟨resp, err⟩
      rw [hn] at h
      cases err with
      | some e =>
        simp only at h
        have := authAbort_snd { c with calls := c.calls ++ [AuthCall.next msg (decide (code = 334))] } e
        rw [h] at this
        simp at this
      | none =>
        cases resp with
        | none =>
          simp only [Prod.mk.injEq, and_true] at h
          rw [← h]
          exact ⟨rfl, rfl, rfl⟩
        | some r =>
          simp only at h
          have hk := cmd_kept { c with calls := c.calls ++ [AuthCall.next msg (decide (code = 334))] }
            0 (String.mk (b64Encode r))
          rcases hc : Session.cmd
            { c with calls := c.calls ++ [AuthCall.next msg (decide (code = 334))] }
            0 (String.mk (b64Encode r)) with ⟨c1, code1, msg1, err1⟩
          rw [hc] at h hk
          cases err1 with
          | some e => simp at h
          | none =>
            simp only at h
            exact Kept.trans ⟨hk.1, hk.2.1, hk.2.2⟩ (ih c1 code1 msg1 c' h)

theorem Auth_kept (L : Lib) (c c' : Session) (hr : Ready c) (h : c.Auth L = (c', none)) :
    Kept c c' := by
  unfold Session.Auth at h
  rw [hr.cached] at h
  simp only at h
  split at h
  · simp at h
  · split at h
    · simp at h
    · split at h
      · simp at h
      · rename_i c1 code1 msg1 hc
        have hk := cmd_kept_of hc
        exact Kept.trans ⟨hk.1, hk.2.1, hk.2.2⟩ (authLoop_kept L _ _ c1 code1 msg1 c' h)

/-- A session start-up that succeeds leaves a session whose hello is done and
succeeded, and has not closed the connection. -/
theorem StartSession_ok (L : Lib) (c c' : Session) (h : c.StartSession L = (c', none)) :
    Ready c' ∧ c'.Text.closes = c.Text.closes := by
  unfold Session.StartSession at h
  have hh := hello_ok_ready c
  rcases hc : c.hello with ⟨c1, err1⟩
  rw [hc] at h hh
  cases err1 with
  | some e => simp at h
  | none =>
    simp only at h hh
    obtain ⟨hr1, hcl1⟩ := hh trivial
    have hx : c1.Extension L "STARTTLS" = (c1, (c1.Extension L "STARTTLS").2) := by
      rw [Extension_eq L c1 "STARTTLS", hr1.cached]
    rw [hx] at h
    rcases hx2 : (c1.Extension L "STARTTLS").2 with ⟨ok, p⟩
    rw [hx2] at h
    have key : ∀ c2 : Session, Kept c1 c2 →
        (match c2.a, c2.ext with
          | some _, some m => if (m.get? "AUTH").isSome = true then c2.Auth L else (c2, none)
          | _, _ => (c2, none)) = (c', none) → Ready c' ∧ c'.Text.closes = c.Text.closes := by
      intro c2 hk h2
      have hr2 := hk.ready hr1
      have fin : ∀ c3, Kept c2 c3 → Ready c3 ∧ c3.Text.closes = c.Text.closes :=
        fun c3 h3 => ⟨h3.ready hr2, h3.1.trans (hk.1.trans hcl1)⟩
      split at h2
      · split at h2
        · exact fin c' (Auth_kept L c2 c' hr2 h2)
        · simp only [Prod.mk.injEq, and_true] at h2
          rw [← h2]
          exact fin c2 (Kept.refl c2)
      · simp only [Prod.mk.injEq, and_true] at h2
        rw [← h2]
        exact fin c2 (Kept.refl c2)
    cases ok with
    | false => exact key c1 (Kept.refl c1) h
    | true =>
      simp only at h
      have hk := StartTLS_kept c1 hr1
      rcases ht : c1.StartTLS with ⟨c2, err2⟩
      rw [ht] at h hk
      cases err2 with
      | some e => simp at h
      | none =>
        simp only at h
        exact key c2 hk h

theorem MailAndRcpt_kept (L : Lib) (c : Session) (msg : Email) (hr : Ready c) :
    Kept c (c.MailAndRcpt L msg).1 := by
  have hh : (c.hello).1 = c := by rw [hr.cached]
  rcases MailAndRcpt_spec L c msg with ⟨-, e, he⟩ | ⟨-, t, k, err, he, -, -, hcl, -⟩
  · rw [he, hh]
    exact Kept.refl c
  · rw [he]
    rw [hh] at hcl ⊢
    exact ⟨hcl, rfl, rfl⟩

theorem Reset_kept (c : Session) (hr : Ready c) : Kept c (c.Reset).1 := by
  unfold Session.Reset
  rw [hr.cached]
  exact cmd_kept c 250 "RSET"

theorem Data_kept (c : Session) : Kept c (c.Data).1 := by
  unfold Session.Data
  have hk := cmd_kept c 354 "DATA"
  rcases hc : c.cmd 354 "DATA" with ⟨c1, code, msg, err⟩
  rw [hc] at hk
  cases err with
  | some e => exact hk
  | none => exact ⟨hk.1, hk.2.1, hk.2.2⟩

theorem dataCloser_kept (c : Session) : Kept c (dataCloser.Close c).1 := by
  unfold dataCloser.Close Conn.ReadResponse
  simp only
  split
  · exact ⟨rfl, rfl, rfl⟩
  · split
    · exact ⟨rfl, rfl, rfl⟩
    · split <;> exact ⟨rfl, rfl, rfl⟩

/-- A send on a session whose hello succeeded does not close the connection
and leaves the hello as it is. -/
theorem SendSingleMessage_kept (L : Lib) (c : Session) (W : World) (msg : Email)
    (hr : Ready c) : Kept c (c.SendSingleMessage L W msg).1 := by
  unfold Session.SendSingleMessage
  split
  · exact Kept.refl c
  · split
    · exact Kept.refl c
    · have h1 := MailAndRcpt_kept L c msg hr
      rcases hm : c.MailAndRcpt L msg with ⟨c1, err1⟩
      rw [hm] at h1
      cases err1 with
      | some e => exact h1.trans (Reset_kept c1 (h1.ready hr))
      | none =>
        simp only
        have h2 := Data_kept c1
        rcases hd : c1.Data with ⟨c2, ow⟩
        rw [hd] at h2
        have h12 : Kept c c2 := h1.trans h2
        cases ow with
        | error e => exact h12.trans (Reset_kept c2 (h12.ready hr))
        | ok w =>
          simp only
          rcases msg.Write L W w with ⟨m1, W1, w1, err3⟩
          have h3 : Kept c (c2.wrote w1) := ⟨h12.1, h12.2.1, h12.2.2⟩
          cases err3 with
          | some e => exact h3
          | none => exact h3.trans (dataCloser_kept _)

theorem afterSends_kept (L : Lib) {n : Nat} (msgs : List (Fin n)) :
    ∀ (c : Session) (W : World) (store : Store n), Ready c →
      Kept c (Session.afterSends L c W store msgs).1 := by
  induction msgs with
  | nil => intro c W store _; exact Kept.refl c
  | cons p rest ih =>
    intro c W store hr
    unfold Session.afterSends
    have h1 := SendSingleMessage_kept L c W (store p) hr
    rcases hs : c.SendSingleMessage L W (store p) with ⟨c1, W1, m1, err⟩
    rw [hs] at h1
    exact h1.trans (ih c1 W1 _ (h1.ready hr))

/-- What `Quit` does on a session whose hello succeeded: QUIT is sent, and the
connection is closed when it is accepted. -/
theorem Quit_ready (c : Session) (hr : Ready c) :
    (c.Quit).1.Text.trace = c.Text.trace ++ [Wire.cmd "QUIT"] ∧
      (c.Quit).1.Text.closes = c.Text.closes + (if (c.Quit).2 = none then 1 else 0) := by
  unfold Session.Quit
  rw [hr.cached]
  simp only
  obtain ⟨t, code, msg, err, hc, htr, hcl, -⟩ := cmd_spec c 221 "QUIT"
  simp only [hc]
  cases err with
  | some e => exact ⟨htr, by simp [hcl]⟩
  | none => exact ⟨htr, by simp [Conn.Close, hcl]⟩

/-- C2 (amended): when session start-up fails, `SendMessageBulk` attempts no
message and issues no QUIT of its own: it returns the empty report with the
start-up error, after the one deferred `Close`. When start-up succeeds, after
the last message the session issues QUIT as its last command, the error
returned alongside the report is the error of that quit, and `Close` is
invoked on the connection by the deferred call and, when the quit succeeded,
once more by `Quit` itself: twice in all when the quit succeeds, once when
it fails. -/
theorem SendMessageBulk_quit (L : Lib) {n : Nat} (c : Session) (W : World) (store : Store n)
    (msgs : List (Fin n)) :
    (∀ e, (c.StartSession L).2 = some e →
        c.SendMessageBulk L W store msgs = ((c.StartSession L).1.Close, W, store, [], some e)) ∧
      ((c.StartSession L).2 = none →
        (c.SendMessageBulk L W store msgs).2.2.2.2 =
            ((Session.afterSends L (c.StartSession L).1 W store msgs).1.Quit).2 ∧
          (c.SendMessageBulk L W store msgs).1.Text.trace =
            (Session.afterSends L (c.StartSession L).1 W store msgs).1.Text.trace ++
              [Wire.cmd "QUIT"] ∧
          (c.SendMessageBulk L W store msgs).1.Text.closes =
            c.Text.closes +
              (if (c.SendMessageBulk L W store msgs).2.2.2.2 = none then 2 else 1)) := by
  unfold Session.SendMessageBulk
  rcases hs : c.StartSession L with ⟨c0, err0⟩
  constructor
  · intro e he
    simp only at he
    subst he
    rfl
  · intro he
    simp only at he
    subst he
    obtain ⟨hr0, hcl0⟩ := StartSession_ok L c c0 hs
    have hst := sendEach_state L msgs c0 W store
    have hk := afterSends_kept L msgs c0 W store hr0
    rw [← hst] at hk ⊢
    simp only at hk ⊢
    obtain ⟨q1, q2⟩ := Quit_ready _ (hk.ready hr0)
    refine ⟨trivial, q1, ?_⟩
    simp only [Session.Close, Conn.Close]
    rw [q2, hk.1, hcl0]
    split <;> simp

theorem SendMessageBulk_quit_witness :
    ((freshSession [reply 250 "mx", reply 250 "ok", reply 250 "ok", reply 354 "go",
        reply 250 "queued", reply 421 "busy"]).SendMessageBulk sampleLib sampleWorld
        oneMessage [0]).2.2.2.2 = some (Err.proto 421 "busy") ∧
      ((freshSession [reply 250 "mx", reply 250 "ok", reply 250 "ok", reply 354 "go",
        reply 250 "queued", reply 421 "busy"]).SendMessageBulk sampleLib sampleWorld
        oneMessage [0]).1.Text.closes = 1 :=
  ⟨by decide,
    ((SendMessageBulk_quit sampleLib (freshSession [reply 250 "mx", reply 250 "ok",
      reply 250 "ok", reply 354 "go", reply 250 "queued", reply 421 "busy"]) sampleWorld
      oneMessage [0]).2 (by decide)).2.2.trans (by decide)⟩

/-- C2 (counterexample): a run over one message in which every command is
accepted, QUIT included, invokes `Close` on the connection twice. -/
theorem SendMessageBulk_closes_twice :
    ((freshSession [reply 250 "mx", reply 250 "ok", reply 250 "ok", reply 354 "go",
        reply 250 "queued", reply 221 "bye"]).SendMessageBulk sampleLib sampleWorld
        oneMessage [0]).2.2.2 =
        ([{ MessageID := "N1@x.org", Sent := true, Err := none }], none) ∧
      (freshSession [reply 250 "mx", reply 250 "ok", reply 250 "ok", reply 354 "go",
        reply 250 "queued", reply 221 "bye"]).Text.closes = 0 ∧
      ((freshSession [reply 250 "mx", reply 250 "ok", reply 250 "ok", reply 354 "go",
        reply 250 "queued", reply 221 "bye"]).SendMessageBulk sampleLib sampleWorld
        oneMessage [0]).1.Text.closes = 2 := by
  decide

/-- Two messages, the first with an identifier and rejected at MAIL, the second
accepted: both are reported, in order. One message listed twice: two items. -/
theorem SendMessageBulk_report_witness :
    ((freshSession [reply 250 "mx", reply 250 "ok", reply 550 "no", reply 250 "reset",
        reply 250 "ok", reply 250 "ok", reply 354 "go", reply 250 "queued",
        reply 221 "bye"]).SendMessageBulk sampleLib sampleWorld twoMessages [0, 1]).2.2.2.1 =
        [{ MessageID := "first", Sent := false, Err := some (Err.proto 550 "no") },
          { MessageID := "N1@x.org", Sent := true, Err := none }] ∧
      ((freshSession [reply 250 "mx", reply 250 "ok", reply 550 "no", reply 250 "reset",
        reply 250 "ok", reply 250 "ok", reply 354 "go", reply 250 "queued",
        reply 221 "bye"]).SendMessageBulk sampleLib sampleWorld twoMessages
        [0, 1]).2.2.2.1.length = 2 ∧
      ((freshSession [reply 250 "mx", reply 250 "ok", reply 250 "ok", reply 354 "go",
        reply 250 "queued", reply 250 "ok", reply 250 "ok", reply 354 "go", reply 250 "queued",
        reply 221 "bye"]).SendMessageBulk sampleLib sampleWorld oneMessage
        [0, 0]).2.2.2.1.length = 2 :=
  ⟨by decide,
    (SendMessageBulk_report sampleLib (freshSession [reply 250 "mx", reply 250 "ok",
      reply 550 "no", reply 250 "reset", reply 250 "ok", reply 250 "ok", reply 354 "go",
      reply 250 "queued", reply 221 "bye"]) sampleWorld twoMessages [0, 1] (by decide)).1,
    (SendMessageBulk_report sampleLib (freshSession [reply 250 "mx", reply 250 "ok",
      reply 250 "ok", reply 354 "go", reply 250 "queued", reply 250 "ok", reply 250 "ok",
      reply 354 "go", reply 250 "queued", reply 221 "bye"]) sampleWorld oneMessage [0, 0]
      (by decide)).1⟩

/-- One message listed twice and accepted twice: the first send generates its
identifier, and both items of the report carry it. -/
theorem SendMessageBulk_same_message_twice :
    ((freshSession [reply 250 "mx", reply 250 "ok", reply 250 "ok", reply 354 "go",
        reply 250 "queued", reply 250 "ok", reply 250 "ok", reply 354 "go", reply 250 "queued",
        reply 221 "bye"]).SendMessageBulk sampleLib sampleWorld oneMessage [0, 0]).2.2.2.1 =
      [{ MessageID := "N1@x.org", Sent := true, Err := none },
        { MessageID := "N1@x.org", Sent := true, Err := none }] := by
  decide

/-! ## The authentication loop -/

/-- The fuel of the authentication loop is immaterial once it exceeds the
length of the script: every further turn follows a command that consumed one
exchange. -/
theorem authLoop_fuel (L : Lib) (a : Auth) (fuel : Nat) :
    ∀ (fuel' : Nat) (c : Session) (code : Nat) (msg64 : String),
      c.Text.script.length < fuel → c.Text.script.length < fuel' →
      Session.authLoop L a fuel c code msg64 = Session.authLoop L a fuel' c code msg64 := by
  induction fuel with
  | zero => intro fuel' c code msg64 h; omega
  | succ n ih =>
    intro fuel' c code msg64 h h'
    cases fuel' with
    | zero => omega
    | succ m =>
      unfold Session.authLoop
      simp only
      split
      · rfl
      · rename_i msg hd
        rcases hn : a.Next c.calls msg (decide (code = 334)) with ⟨resp, err⟩
        cases err with
        | some e => cases resp <;> rfl
        | none =>
          cases resp with
          | none => rfl
          | some r =>
            simp only
            obtain ⟨t, code1, msg1, err1, hc, -, -, -, -, hok⟩ := cmd_spec
              { c with calls := c.calls ++ [AuthCall.next msg (decide (code = 334))] }
              0 (String.mk (b64Encode r))
            rw [hc]
            cases err1 with
            | some e => rfl
            | none =>
              simp only
              obtain ⟨hs, -⟩ := hok rfl
              simp only at hs
              have hl : t.script.length + 1 = c.Text.script.length := by
                rw [hs]
                simp
              exact ih m _ code1 msg1 (by simp only; omega) (by simp only; omega)

/-! ## Permanent errors, message kind and content type -/

/-- C16: for every error value (`nil` included), `IsPermanent` is true if and
only if the error is a protocol error whose code `c` satisfies
`500 ≤ c ≤ 599`; it is false for every other code and for every error that is
not a protocol error. -/
theorem IsPermanent_iff (err : Option Err) :
    (IsPermanent err = true ↔ ∃ c msg, err = some (Err.proto c msg) ∧ 500 ≤ c ∧ c ≤ 599) ∧
      (IsPermanent err = false ↔ ¬ ∃ c msg, err = some (Err.proto c msg) ∧ 500 ≤ c ∧ c ≤ 599) := by
  have key : IsPermanent err = true ↔
      ∃ c msg, err = some (Err.proto c msg) ∧ 500 ≤ c ∧ c ≤ 599 := by
    cases err with
    | none => simp [IsPermanent]
    | some e =>
      cases e with
      | other m => simp [IsPermanent]
      | proto code m =>
        simp only [IsPermanent]
        constructor
        · intro h
          by_cases hc : code ≥ 500 ∧ code < 600
          · exact ⟨code, m, rfl, hc.1, by omega⟩
          · simp [hc] at h
        · rintro ⟨c, msg, he, h1, h2⟩
          simp only [Option.some.injEq, Err.proto.injEq] at he
          obtain ⟨rfl, rfl⟩ := he
          have hc : code ≥ 500 ∧ code < 600 := ⟨h1, by omega⟩
          simp [hc]
  refine ⟨key, ?_⟩
  rw [← key]
  cases IsPermanent err <;> simp

/-- C17: for every message, `IsMultiPart` is false if and only if the AMP body
is empty, there are no attachments and no images, and exactly one of `Text`
and `HTML` is non-empty; in every other case, both bodies empty included, it
is true. -/
theorem IsMultiPart_false_iff (e : Email) :
    (e.IsMultiPart = false ↔
        (e.AMP = "" ∧ e.Attachments = [] ∧ e.Images = [] ∧
          ((e.Text ≠ "" ∧ e.HTML = "") ∨ (e.Text = "" ∧ e.HTML ≠ "")))) ∧
      (e.AMP = "" → e.Attachments = [] → e.Images = [] → e.Text = "" → e.HTML = "" →
        e.IsMultiPart = true) := by
  unfold Email.IsMultiPart
  by_cases ha : e.AMP = ""
  · by_cases hat : e.Attachments = []
    · by_cases hi : e.Images = []
      · by_cases ht : e.Text = "" <;> by_cases hh : e.HTML = "" <;> simp [ha, hat, hi, ht, hh]
      · have : e.Images.length ≠ 0 := fun h => hi (List.length_eq_zero.mp h)
        simp [ha, hat, hi, this]
    · have : e.Attachments.length ≠ 0 := fun h => hat (List.length_eq_zero.mp h)
      simp [ha, hat, this]
  · simp [ha]

theorem IsMultiPart_false_iff_witness :
    ({ sampleEmail with Text := "" } : Email).IsMultiPart = true :=
  (IsMultiPart_false_iff { sampleEmail with Text := "" }).2 rfl rfl rfl rfl rfl

/-- C18: for every message, `ContentType` is `multipart/alternative` when the
AMP body is non-empty, otherwise `multipart/mixed` when `IsMultiPart` holds,
otherwise `text/plain` when only `Text` is set and `text/html` when only `HTML`
is set; it starts with `multipart/` exactly when `IsMultiPart` is true. -/
theorem ContentType_cases (e : Email) :
    (e.AMP ≠ "" → e.ContentType = "multipart/alternative") ∧
      (e.AMP = "" → e.IsMultiPart = true → e.ContentType = "multipart/mixed") ∧
      (e.IsMultiPart = false → e.Text ≠ "" → e.HTML = "" → e.ContentType = "text/plain") ∧
      (e.IsMultiPart = false → e.Text = "" → e.HTML ≠ "" → e.ContentType = "text/html") ∧
      ("multipart/".data <+: e.ContentType.data ↔ e.IsMultiPart = true) := by
  have hamp : e.AMP ≠ "" → e.IsMultiPart = true := by
    intro h
    unfold Email.IsMultiPart
    simp [h]
  refine ⟨?_, ?_, ?_, ?_, ?_⟩
  · intro h
    unfold Email.ContentType
    simp [hamp h, h]
  · intro h hm
    unfold Email.ContentType
    simp [hm, h]
  · intro hm _ hh
    unfold Email.ContentType
    simp [hm, hh]
  · intro hm _ hh
    unfold Email.ContentType
    simp [hm, hh]
  · unfold Email.ContentType
    cases hm : e.IsMultiPart
    · by_cases hh : e.HTML = ""
      · simp only [Bool.false_eq_true, if_false, hh, if_true, iff_false]
        decide
      · simp only [Bool.false_eq_true, if_false, hh, iff_false]
        decide
    · by_cases ha : e.AMP = ""
      · simp only [if_true, ha, ne_eq, not_true_eq_false, if_false, iff_true]
        decide
      · simp only [if_true, ne_eq, ha, not_false_eq_true, iff_true]
        decide

theorem ContentType_cases_witness :
    sampleEmail.ContentType = "text/plain" ∧
      ({ sampleEmail with AMP := "<html amp4email></html>" } : Email).ContentType =
        "multipart/alternative" ∧
      ({ sampleEmail with HTML := "<p>hi</p>" } : Email).ContentType = "multipart/mixed" ∧
      ({ sampleEmail with Text := "", HTML := "<p>hi</p>" } : Email).ContentType = "text/html" :=
  ⟨(ContentType_cases sampleEmail).2.2.1 (by decide) (by decide) (by decide),
    (ContentType_cases { sampleEmail with AMP := "<html amp4email></html>" }).1 (by decide),
    (ContentType_cases { sampleEmail with HTML := "<p>hi</p>" }).2.1 (by decide) (by decide),
    (ContentType_cases { sampleEmail with Text := "", HTML := "<p>hi</p>" }).2.2.2.1
      (by decide) (by decide) (by decide)⟩

/-! ## Quit -/

theorem hello_closes (c : Session) : (c.hello).1.Text.closes = c.Text.closes := by
  obtain ⟨t, ext, auth, err, h, h1, -⟩ := hello_spec c
  rw [h]
  exact h1

/-- C15 (amended): `Quit` closes the connection exactly when it returns no
error, that is when the hello outcome is success and QUIT is answered with
221. When the hello outcome is an error `Quit` returns it, leaving the session
as `hello` leaves it, without sending QUIT and without closing; when the QUIT
command fails (a code other than 221 included) it returns that error without
closing. -/
theorem Quit_closes (c : Session) :
    (c.Quit).1.Text.closes = c.Text.closes + (if (c.Quit).2 = none then 1 else 0) ∧
      (∀ e, (c.hello).2 = some e → c.Quit = ((c.hello).1, some e)) ∧
      ((c.hello).2 = none →
        (c.Quit).1.Text.trace = (c.hello).1.Text.trace ++ [Wire.cmd "QUIT"] ∧
        (c.Quit).2 = ((c.hello).1.cmd 221 "QUIT").2.2.2) := by
  have hcl := hello_closes c
  unfold Session.Quit
  rcases hh : c.hello with ⟨c1, err1⟩
  rw [hh] at hcl
  simp only at hcl
  cases err1 with
  | some e =>
    refine ⟨by simp [hcl], ?_, by simp⟩
    intro e' he
    simp only [Option.some.injEq] at he
    rw [he]
  | none =>
    obtain ⟨t, code, msg, err, hc, htr, hcl2, -⟩ := cmd_spec c1 221 "QUIT"
    simp only [hc]
    cases err with
    | some e => exact ⟨by simp [hcl2, hcl], by simp, fun _ => ⟨htr, rfl⟩⟩
    | none => exact ⟨by simp [Conn.Close, hcl2, hcl], by simp, fun _ => ⟨htr, rfl⟩⟩

theorem Quit_closes_witness :
    ((freshSession [reply 250 "mx", reply 221 "bye"]).Quit).1.Text.trace =
        ((freshSession [reply 250 "mx", reply 221 "bye"]).hello).1.Text.trace ++
          [Wire.cmd "QUIT"] ∧
      (freshSession [reply 500 "no", reply 500 "no"]).Quit =
        (((freshSession [reply 500 "no", reply 500 "no"]).hello).1,
          some (Err.proto 500 "no")) :=
  ⟨((Quit_closes (freshSession [reply 250 "mx", reply 221 "bye"])).2.2 (by decide)).1,
    (Quit_closes (freshSession [reply 500 "no", reply 500 "no"])).2.1 (Err.proto 500 "no")
      (by decide)⟩

/-- C15 (counterexample): when the server answers QUIT with 500, and when EHLO
and HELO were both rejected, `Quit` returns an error and `Close` has not been
called on the connection. -/
theorem Quit_leaves_open :
    ((freshSession [reply 250 "mx", reply 500 "no"]).Quit).2 = some (Err.proto 500 "no") ∧
      ((freshSession [reply 250 "mx", reply 500 "no"]).Quit).1.Text.closes = 0 ∧
      ((freshSession [reply 500 "no", reply 500 "no"]).Quit).2 = some (Err.proto 500 "no") ∧
      ((freshSession [reply 500 "no", reply 500 "no"]).Quit).1.Text.trace =
        [Wire.cmd "EHLO localhost", Wire.cmd "HELO localhost"] ∧
      ((freshSession [reply 500 "no", reply 500 "no"]).Quit).1.Text.closes = 0 := by
  decide

/-! ## Hello exchanges on the trace -/

/-- A command line that is neither an EHLO nor a HELO. -/
theorem plain_first (x : Char) (rest : List Char) {line : String}
    (h : line.data = x :: rest) (hE : x ≠ 'E') (hH : x ≠ 'H') :
    isEHLO (Wire.cmd line) = false ∧ isHELO (Wire.cmd line) = false := by
  have e1 : "EHLO ".data = ['E', 'H', 'L', 'O', ' '] := rfl
  have e2 : "HELO ".data = ['H', 'E', 'L', 'O', ' '] := rfl
  simp [isEHLO, isHELO, h, e1, e2, hasHead, Ne.symm hE, Ne.symm hH]

theorem hasHead_mem {p l : List Char} (h : hasHead p l = true) : ∀ c ∈ p, c ∈ l := by
  induction p generalizing l with
  | nil => intro c hc; simp at hc
  | cons x xs ih =>
    cases l with
    | nil => simp [hasHead] at h
    | cons y ys =>
      simp only [hasHead, Bool.and_eq_true, beq_iff_eq] at h
      intro c hc
      rcases List.mem_cons.mp hc with hc | hc
      · rw [hc, h.1]
        exact List.mem_cons_self _ _
      · exact List.mem_cons_of_mem _ (ih h.2 c hc)

theorem plain_no_space {line : String} (h : ' ' ∉ line.data) :
    isEHLO (Wire.cmd line) = false ∧ isHELO (Wire.cmd line) = false := by
  constructor
  · cases hh : isEHLO (Wire.cmd line) with
    | false => rfl
    | true => exact absurd (hasHead_mem hh ' ' (by decide)) h
  · cases hh : isHELO (Wire.cmd line) with
    | false => rfl
    | true => exact absurd (hasHead_mem hh ' ' (by decide)) h

theorem b64Char_ne_space (n : Nat) : b64Char n ≠ ' ' := by
  unfold b64Char
  by_cases h : n < 64
  · interval_cases n <;> decide
  · have hl : b64Alphabet.length ≤ n := by
      have : b64Alphabet.length = 64 := by decide
      omega
    rw [List.getD_eq_default _ _ hl]
    decide

theorem b64Encode_no_space : ∀ r : List UInt8, ' ' ∉ b64Encode r
  | [] => by simp [b64Encode]
  | [a] => by
    simp only [b64Encode, List.mem_cons, List.mem_singleton, not_or, List.not_mem_nil,
      not_false_eq_true, and_true]
    exact ⟨(b64Char_ne_space _).symm, (b64Char_ne_space _).symm, by decide, by decide⟩
  | [a, b] => by
    simp only [b64Encode, List.mem_cons, List.mem_singleton, not_or, List.not_mem_nil,
      not_false_eq_true, and_true]
    exact ⟨(b64Char_ne_space _).symm, (b64Char_ne_space _).symm, (b64Char_ne_space _).symm,
      by decide⟩
  | a :: b :: c :: rest => by
    have ih := b64Encode_no_space rest
    simp only [b64Encode, List.mem_append, List.mem_cons, List.not_mem_nil, or_false, not_or]
    exact ⟨⟨(b64Char_ne_space _).symm, (b64Char_ne_space _).symm, (b64Char_ne_space _).symm,
      (b64Char_ne_space _).symm⟩, ih⟩

theorem dropWhile_append_last {p : Char → Bool} {a : Char} (l : List Char) (h : p a = false) :
    (l ++ [a]).dropWhile p = l.dropWhile p ++ [a] := by
  induction l with
  | nil => simp [List.dropWhile, h]
  | cons x xs ih =>
    by_cases hx : p x = true
    · simp [List.dropWhile, hx, ih]
    · simp [List.dropWhile, hx]

/-- Trimming a text that starts with a character that is not a space keeps
that character first. -/
theorem TrimSpace_first {x : Char} (rest : List Char) (hx : isSpace x = false) :
    ∃ rest', (TrimSpace (String.mk (x :: rest))).data = x :: rest' := by
  unfold TrimSpace
  simp only [List.dropWhile, hx, List.reverse_cons]
  rw [dropWhile_append_last _ hx]
  exact ⟨(rest.reverse.dropWhile isSpace).reverse, by simp⟩
theorem Quiet.same (c : Session) : Quiet c c :=
  ⟨⟨[], by simp, by simp⟩, rfl, rfl, rfl⟩

theorem Quiet.andThen {a b c : Session} (h1 : Quiet a b) (h2 : Quiet b c) : Quiet a c := by
  obtain ⟨⟨d1, e1, p1⟩, f1, g1, n1⟩ := h1
  obtain ⟨⟨d2, e2, p2⟩, f2, g2, n2⟩ := h2
  refine ⟨⟨d1 ++ d2, by rw [e2, e1, List.append_assoc], ?_⟩, f2.trans f1, g2.trans g1,
    n2.trans n1⟩
  intro w hw
  rcases List.mem_append.mp hw with hw | hw
  · exact p1 w hw
  · exact p2 w hw

theorem cmd_quiet (c : Session) (expectCode : Nat) (line : String)
    (hp : isEHLO (Wire.cmd line) = false ∧ isHELO (Wire.cmd line) = false) :
    Quiet c (c.cmd expectCode line).1 := by
  obtain ⟨t, code, msg, err, h, htr, -⟩ := cmd_spec c expectCode line
  rw [h]
  refine ⟨⟨[Wire.cmd line], htr, ?_⟩, rfl, rfl, rfl⟩
  intro w hw
  simp only [List.mem_singleton] at hw
  rw [hw]
  exact ⟨hp.1, hp.2, rfl⟩

theorem cmd_quiet_of {c c1 : Session} {expectCode code : Nat} {line msg : String}
    {err : Option Err} (h : c.cmd expectCode line = (c1, code, msg, err))
    (hp : isEHLO (Wire.cmd line) = false ∧ isHELO (Wire.cmd line) = false) : Quiet c c1 := by
  have := cmd_quiet c expectCode line hp
  rw [h] at this
  exact this

theorem Quiet.step {c c' : Session} (h : Quiet c c') : Step c c' := by
  obtain ⟨⟨d, e, p⟩, f, g, -⟩ := h
  have hE : d.countP isEHLO = 0 := List.countP_eq_zero.mpr (fun w hw => by simp [(p w hw).1])
  have hH : d.countP isHELO = 0 := List.countP_eq_zero.mpr (fun w hw => by simp [(p w hw).2.1])
  refine ⟨d, e, ?_, ?_, fun _ => g⟩
  · rw [hE]
    simp [Session.pending, f]
  · rw [hH]
    simp [Session.pending, f]

theorem Step.stay (c : Session) : Step c c := (Quiet.same c).step

theorem Step.did {a b : Session} (h : Step a b) (ha : a.didHello = true) : b.didHello = true := by
  obtain ⟨d, -, -, h2, -⟩ := h
  unfold Session.pending at h2
  by_cases hb : b.didHello = true
  · exact hb
  · simp [ha, hb] at h2

theorem Step.followedBy {a b c : Session} (h1 : Step a b) (h2 : Step b c) : Step a c := by
  have hd := h1.did
  obtain ⟨d1, e1, p1, q1, g1⟩ := h1
  obtain ⟨d2, e2, p2, q2, g2⟩ := h2
  refine ⟨d1 ++ d2, by rw [e2, e1, List.append_assoc], ?_, ?_, ?_⟩
  · simp only [List.countP_append]
    omega
  · simp only [List.countP_append]
    omega
  · intro ha
    rw [g2 (hd ha), g1 ha]

theorem ehlo_line (n : String) :
    isEHLO (Wire.cmd ("EHLO " ++ n)) = true ∧ isHELO (Wire.cmd ("EHLO " ++ n)) = false ∧
      isEHLO (Wire.cmd ("HELO " ++ n)) = false ∧ isHELO (Wire.cmd ("HELO " ++ n)) = true := by
  have e1 : "EHLO ".data = ['E', 'H', 'L', 'O', ' '] := rfl
  have e2 : "HELO ".data = ['H', 'E', 'L', 'O', ' '] := rfl
  simp [isEHLO, isHELO, String.data_append, e1, e2, hasHead]

/-- The hello exchange as a step: it marks the hello as done. -/
theorem hello_step (c : Session) : Step c (c.hello).1 ∧ (c.hello).1.didHello = true ∧
    (c.hello).1.localName = c.localName := by
  obtain ⟨t, ext, auth, err, h, -, -, -, hdid, htr⟩ := hello_spec c
  rw [h]
  refine ⟨?_, rfl, rfl⟩
  by_cases hd : c.didHello = true
  · obtain ⟨ht, -, -, he⟩ := hdid hd
    exact ⟨[], by simp [ht], by simp [Session.pending, hd], by simp [Session.pending, hd],
      fun _ => he⟩
  · have hp : c.pending = 1 := by simp [Session.pending, hd]
    obtain ⟨l1, l2, l3, l4⟩ := ehlo_line c.localName
    rcases htr with htr | htr | htr
    · exact ⟨[], by simp [htr], by simp [Session.pending], by simp [Session.pending],
        fun h => absurd h hd⟩
    · exact ⟨_, htr, by simp [Session.pending, hd, l1, isTLS],
        by simp [Session.pending, hd, l2], fun h => absurd h hd⟩
    · exact ⟨_, htr, by simp [Session.pending, hd, l1, l3, isTLS],
        by simp [Session.pending, hd, l2, l4], fun h => absurd h hd⟩

theorem plain_lit :
    (isEHLO (Wire.cmd "STARTTLS") = false ∧ isHELO (Wire.cmd "STARTTLS") = false) ∧
      (isEHLO (Wire.cmd "QUIT") = false ∧ isHELO (Wire.cmd "QUIT") = false) ∧
      (isEHLO (Wire.cmd "RSET") = false ∧ isHELO (Wire.cmd "RSET") = false) ∧
      (isEHLO (Wire.cmd "*") = false ∧ isHELO (Wire.cmd "*") = false) := by
  decide

theorem Quit_quiet (c : Session) (hd : c.didHello = true) : Quiet c (c.Quit).1 := by
  unfold Session.Quit
  rw [hello_of_did hd]
  cases c.helloError with
  | some e => exact Quiet.same c
  | none =>
    simp only
    have hq := cmd_quiet c 221 "QUIT" plain_lit.2.1
    rcases hc : c.cmd 221 "QUIT" with ⟨c1, code, msg, err⟩
    rw [hc] at hq
    cases err with
    | some e => exact hq
    | none => exact hq.andThen ⟨⟨[], by simp [Conn.Close], by simp⟩, rfl, rfl, rfl⟩

theorem Reset_quiet (c : Session) (hd : c.didHello = true) : Quiet c (c.Reset).1 := by
  unfold Session.Reset
  rw [hello_of_did hd]
  cases c.helloError with
  | some e => exact Quiet.same c
  | none => exact cmd_quiet c 250 "RSET" plain_lit.2.2.1

theorem Verify_quiet (c : Session) (addr : String) (hd : c.didHello = true) :
    Quiet c (c.Verify addr).1 := by
  unfold Session.Verify
  rw [hello_of_did hd]
  cases c.helloError with
  | some e => exact Quiet.same c
  | none =>
    refine cmd_quiet c 250 _ (plain_first 'V' ("RFY ".data ++ addr.data) ?_
      (by decide) (by decide))
    simp [String.data_append]

theorem Mail_quiet (c : Session) (sender : String) (hd : c.didHello = true) :
    Quiet c (c.Mail sender).1 := by
  unfold Session.Mail
  rw [hello_of_did hd]
  cases c.helloError with
  | some e => exact Quiet.same c
  | none =>
    simp only
    have hm : ∀ suffix : String, isEHLO (Wire.cmd ("MAIL FROM:<" ++ sender ++ ">" ++ suffix)) = false ∧
        isHELO (Wire.cmd ("MAIL FROM:<" ++ sender ++ ">" ++ suffix)) = false := by
      intro suffix
      refine plain_first 'M'
        ("AIL FROM:<".data ++ sender.data ++ ">".data ++ suffix.data) ?_
        (by decide) (by decide)
      simp [String.data_append]
    have h0 : isEHLO (Wire.cmd ("MAIL FROM:<" ++ sender ++ ">")) = false ∧
        isHELO (Wire.cmd ("MAIL FROM:<" ++ sender ++ ">")) = false := by
      have := hm ""
      simpa using this
    cases c.ext with
    | none => exact cmd_quiet c 250 _ h0
    | some m =>
      simp only
      split
      · exact cmd_quiet c 250 _ (hm _)
      · exact cmd_quiet c 250 _ h0

theorem Rcpt_quiet (c : Session) (addr : String) : Quiet c (c.Rcpt addr).1 := by
  unfold Session.Rcpt
  refine cmd_quiet c 25 _ (plain_first 'R'
    ("CPT TO:<".data ++ addr.data ++ ">".data) ?_ (by decide) (by decide))
  simp [String.data_append]

/-! ## Authentication on the trace -/

theorem cmd_failsWith {c c1 : Session} {line msg : String} {code : Nat} {e : Err}
    (h : c.cmd 0 line = (c1, code, msg, some e)) :
    failsWith c.Text.script e ∧ c1.Text.script = c.Text.script.tail := by
  unfold Session.cmd Conn.Cmd at h
  cases hs : c.Text.script with
  | nil =>
    simp [hs, Conn.ReadResponse] at h
    obtain ⟨h1, -, -, h2⟩ := h
    rw [← h1]
    exact ⟨h2.symm, rfl⟩
  | cons x rest =>
    cases hx : x.sendErr with
    | some e1 =>
      simp [hs, hx] at h
      obtain ⟨h1, -, -, h2⟩ := h
      rw [← h1, ← h2]
      exact ⟨Or.inl hx, rfl⟩
    | none =>
      cases hr : x.recv with
      | fail e1 =>
        simp [hs, hx, hr, Conn.ReadResponse] at h
        obtain ⟨h1, -, -, h2⟩ := h
        rw [← h1, ← h2]
        exact ⟨Or.inr ⟨hx, hr⟩, rfl⟩
      | resp code1 msg1 =>
        simp [hs, hx, hr, Conn.ReadResponse, codeMismatch] at h

theorem Quit_trace (c : Session) (hd : c.didHello = true) (he : c.helloError = none) :
    ∃ t err, c.Quit = ({ c with Text := t }, err) ∧
      t.trace = c.Text.trace ++ [Wire.cmd "QUIT"] := by
  unfold Session.Quit
  rw [hello_of_did hd]
  obtain ⟨T, tls, sn, ext, auth, ln, dh, hE, a, calls⟩ := c
  simp only at he
  subst he
  simp only
  obtain ⟨t, code, msg, err, h, htr, -⟩ := cmd_spec
    (Session.mk T tls sn ext auth ln dh none a calls) 221 "QUIT"
  rw [h]
  cases err with
  | some e => exact ⟨t, some e, rfl, htr⟩
  | none => exact ⟨t.Close, none, rfl, htr⟩

theorem authAbort_trace (c : Session) (e : Err) (hd : c.didHello = true)
    (he : c.helloError = none) :
    ∃ t, c.authAbort e = ({ c with Text := t }, some e) ∧
      t.trace = c.Text.trace ++ [Wire.cmd "*", Wire.cmd "QUIT"] := by
  unfold Session.authAbort
  obtain ⟨t, code, msg, err, h, htr, -⟩ := cmd_spec c 501 "*"
  rw [h]
  obtain ⟨t2, err2, h2, htr2⟩ := Quit_trace { c with Text := t } hd he
  simp only
  rw [h2]
  refine ⟨t2, rfl, ?_⟩
  rw [htr2]
  simp [htr]

theorem authLoop_trace (L : Lib) (a : Auth) (fuel : Nat) :
    ∀ (c : Session) (code : Nat) (msg64 : String), c.didHello = true → c.helloError = none →
      c.Text.script.length < fuel →
      ∃ t calls r, ∃ rs : List (List UInt8), Session.authLoop L a fuel c code msg64 =
          ({ c with Text := t, calls := calls }, r) ∧
        ((r ≠ none ∧
            t.trace = c.Text.trace ++ rs.map respLine ++ [Wire.cmd "*", Wire.cmd "QUIT"]) ∨
          (t.trace = c.Text.trace ++ rs.map respLine ∧ t.closes = c.Text.closes ∧
            ∀ e, r = some e → ∃ pre rest, c.Text.script = pre ++ rest ∧ failsWith rest e ∧
              t.script = rest.tail)) := by
  induction fuel with
  | zero => intro c code msg64 _ _ h; omega
  | succ n ih =>
    intro c code msg64 hd he hf
    unfold Session.authLoop
    simp only
    split
    · rename_i e0 _
      obtain ⟨t, h, htr⟩ := authAbort_trace c e0 hd he
      exact ⟨t, c.calls, some e0, [], by rw [h], Or.inl ⟨by simp, by simp [htr]⟩⟩
    · rename_i msg _
      rcases hn : a.Next c.calls msg (decide (code = 334)) with ⟨resp, err⟩
      cases err with
      | some e =>
        simp only
        obtain ⟨t, h, htr⟩ := authAbort_trace
          { c with calls := c.calls ++ [AuthCall.next msg (decide (code = 334))] } e hd he
        exact ⟨t, _, some e, [], by rw [h], Or.inl ⟨by simp, by simp [htr]⟩⟩
      | none =>
        cases resp with
        | none =>
          exact ⟨c.Text, _, none, [], rfl, Or.inr ⟨by simp, rfl, by simp⟩⟩
        | some r =>
          simp only
          obtain ⟨t1, code1, msg1, err1, hc, htr1, hcl1, -, -, hok⟩ := cmd_spec
            { c with calls := c.calls ++ [AuthCall.next msg (decide (code = 334))] }
            0 (String.mk (b64Encode r))
          cases err1 with
          | some e =>
            obtain ⟨f1, f2⟩ := cmd_failsWith hc
            rw [hc]
            exact ⟨t1, _, some e, [r], rfl, Or.inr ⟨by simp [htr1, respLine], hcl1,
              fun e' he' => ⟨[], c.Text.script, rfl, by cases he'; exact f1, f2⟩⟩⟩
          | none =>
            rw [hc]
            simp only
            obtain ⟨hs1, -⟩ := hok rfl
            simp only at hs1
            have hlen : t1.script.length < n := by
              have := congrArg List.length hs1
              simp only [List.length_cons] at this
              omega
            obtain ⟨t2, calls2, r2, rs, h2, hsh⟩ := ih
              { c with Text := t1,
                       calls := c.calls ++ [AuthCall.next msg (decide (code = 334))] }
              code1 msg1 hd he hlen
            rw [h2]
            refine ⟨t2, calls2, r2, r :: rs, rfl, ?_⟩
            rcases hsh with ⟨hr, htr2⟩ | ⟨htr2, hcl2, hev⟩
            · exact Or.inl ⟨hr, by simp [htr2, htr1, respLine]⟩
            · refine Or.inr ⟨by simp [htr2, htr1, respLine], by rw [hcl2, hcl1], ?_⟩
              intro e he2
              obtain ⟨pre, rest, hp, hfw2, hts⟩ := hev e he2
              exact ⟨reply code1 msg1 :: pre, rest, by simp only at hp; simp [hs1, hp], hfw2, hts⟩

theorem Auth_trace (L : Lib) (c : Session) (a : Auth) (hd : c.didHello = true)
    (he : c.helloError = none) (ha : c.a = some a) :
    ∃ t calls r, c.Auth L = ({ c with Text := t, calls := calls }, r) ∧
      ((∃ e, (a.Start c.calls { Name := c.serverName, TLS := c.tls, Auth := c.auth }).2.2 = some e ∧
          r = some e ∧ t.trace = c.Text.trace ++ [Wire.cmd "QUIT"]) ∨
        ((a.Start c.calls { Name := c.serverName, TLS := c.tls, Auth := c.auth }).2.2 = none ∧
          ∃ rs : List (List UInt8),
            (r ≠ none ∧ t.trace = c.Text.trace ++
              authLine (a.Start c.calls { Name := c.serverName, TLS := c.tls, Auth := c.auth }).1
                (a.Start c.calls { Name := c.serverName, TLS := c.tls, Auth := c.auth }).2.1 ::
              rs.map respLine ++ [Wire.cmd "*", Wire.cmd "QUIT"]) ∨
            (t.trace = c.Text.trace ++
              authLine (a.Start c.calls { Name := c.serverName, TLS := c.tls, Auth := c.auth }).1
                (a.Start c.calls { Name := c.serverName, TLS := c.tls, Auth := c.auth }).2.1 ::
              rs.map respLine ∧ t.closes = c.Text.closes ∧
              ∀ e, r = some e → ∃ pre rest, c.Text.script = pre ++ rest ∧ failsWith rest e ∧
                t.script = rest.tail))) := by
  unfold Session.Auth
  rw [hello_of_did hd]
  obtain ⟨T, tls, sn, ext, auth, ln, dh, hE, a0, calls⟩ := c
  simp only at he ha hd
  subst he ha hd
  simp only
  rcases hs : a.Start calls { Name := sn, TLS := tls, Auth := auth } with ⟨mech, resp, err⟩
  cases err with
  | some e =>
    simp only
    obtain ⟨t, err2, h2, htr2⟩ := Quit_trace
      (Session.mk T tls sn ext auth ln true none (some a)
        (calls ++ [AuthCall.start { Name := sn, TLS := tls, Auth := auth }])) rfl rfl
    rw [h2]
    exact ⟨t, _, some e, rfl, Or.inl ⟨e, rfl, rfl, htr2⟩⟩
  | none =>
    simp only
    obtain ⟨t1, code1, msg1, err1, hc, htr1, hcl1, -, -, hok⟩ := cmd_spec
      (Session.mk T tls sn ext auth ln true none (some a)
        (calls ++ [AuthCall.start { Name := sn, TLS := tls, Auth := auth }]))
      0 (TrimSpace ("AUTH " ++ mech ++ " " ++ String.mk (b64Encode (resp.getD []))))
    cases err1 with
    | some e =>
      obtain ⟨f1, f2⟩ := cmd_failsWith hc
      rw [hc]
      exact ⟨t1, _, some e, rfl, Or.inr ⟨trivial, [], Or.inr ⟨by simp [htr1, authLine], hcl1,
        fun e' he' => ⟨[], T.script, rfl, by cases he'; exact f1, f2⟩⟩⟩⟩
    | none =>
      rw [hc]
      simp only
      obtain ⟨hs1, -⟩ := hok rfl
      simp only at hs1
      obtain ⟨t2, calls2, r2, rs, h2, hsh⟩ := authLoop_trace L a (t1.script.length + 1)
        (Session.mk t1 tls sn ext auth ln true none (some a)
          (calls ++ [AuthCall.start { Name := sn, TLS := tls, Auth := auth }]))
        code1 msg1 rfl rfl (Nat.lt_succ_self _)
      rw [h2]
      refine ⟨t2, calls2, r2, rfl, Or.inr ⟨trivial, rs, ?_⟩⟩
      rcases hsh with ⟨hr, htr2⟩ | ⟨htr2, hcl2, hev⟩
      · exact Or.inl ⟨hr, by simp [htr2, htr1, authLine]⟩
      · refine Or.inr ⟨by simp [htr2, htr1, authLine], by rw [hcl2, hcl1], ?_⟩
        intro e he2
        obtain ⟨pre, rest, hp, hfw2, hts⟩ := hev e he2
        exact ⟨reply code1 msg1 :: pre, rest, by simp only at hp; simp [hs1, hp], hfw2, hts⟩

theorem hello_fields (c : Session) :
    (c.hello).1.helloError = (c.hello).2 ∧ (c.hello).1.a = c.a ∧
      (c.hello).1.calls = c.calls ∧ (c.hello).1.serverName = c.serverName ∧
      (c.hello).1.tls = c.tls := by
  obtain ⟨t, ext, auth, err, h, -⟩ := hello_spec c
  rw [h]
  exact ⟨rfl, rfl, rfl, rfl, rfl⟩

theorem Auth_hello (L : Lib) (c : Session) : (c.hello).1.Auth L = c.Auth L := by
  unfold Session.Auth
  rw [hello_idem]

/-- The ways a run of `Auth` fails after a successful hello. When the mechanism
does not start, QUIT is the one command sent. Otherwise `Auth` sent its AUTH
line and response lines and then either aborted with `*` followed by QUIT, or
returned the transport error of the last line sent, with no QUIT and the
connection not closed. -/
theorem Auth_failure_quit (L : Lib) (c : Session) (a : Auth) (e : Err)
    (hh : (c.hello).2 = none) (ha : c.a = some a) (h : (c.Auth L).2 = some e) :
    (∀ e0, (a.Start c.calls
          { Name := c.serverName, TLS := c.tls, Auth := (c.hello).1.auth }).2.2 = some e0 →
        e = e0 ∧ (c.Auth L).1.Text.trace = (c.hello).1.Text.trace ++ [Wire.cmd "QUIT"]) ∧
      ((a.Start c.calls
          { Name := c.serverName, TLS := c.tls, Auth := (c.hello).1.auth }).2.2 = none →
        ∃ rs : List (List UInt8),
          (c.Auth L).1.Text.trace = (c.hello).1.Text.trace ++
              authLine
                (a.Start c.calls
                  { Name := c.serverName, TLS := c.tls, Auth := (c.hello).1.auth }).1
                (a.Start c.calls
                  { Name := c.serverName, TLS := c.tls, Auth := (c.hello).1.auth }).2.1 ::
              rs.map respLine ++ [Wire.cmd "*", Wire.cmd "QUIT"] ∨
            ((c.Auth L).1.Text.trace = (c.hello).1.Text.trace ++
              authLine
                (a.Start c.calls
                  { Name := c.serverName, TLS := c.tls, Auth := (c.hello).1.auth }).1
                (a.Start c.calls
                  { Name := c.serverName, TLS := c.tls, Auth := (c.hello).1.auth }).2.1 ::
              rs.map respLine ∧
              (c.Auth L).1.Text.closes = (c.hello).1.Text.closes ∧
              ∃ pre rest, (c.hello).1.Text.script = pre ++ rest ∧ failsWith rest e ∧
                (c.Auth L).1.Text.script = rest.tail)) := by
  obtain ⟨f1, f2, f3, f4, f5⟩ := hello_fields c
  obtain ⟨t, calls, r, hA, hsh⟩ := Auth_trace L (c.hello).1 a (hello_step c).2.1
    (by rw [f1, hh]) (by rw [f2, ha])
  rw [Auth_hello] at hA
  rw [f3, f4, f5] at hsh
  rw [hA] at h ⊢
  simp only at h
  subst h
  rcases hsh with ⟨e0, hs, hr, htr⟩ | ⟨hs, rs, hcase⟩
  · refine ⟨fun e1 h1 => ?_, fun h1 => ?_⟩
    · rw [hs] at h1
      cases h1
      cases hr
      exact ⟨rfl, htr⟩
    · rw [hs] at h1
      cases h1
  · refine ⟨fun e1 h1 => ?_, fun _ => ⟨rs, ?_⟩⟩
    · rw [hs] at h1
      cases h1
    · rcases hcase with ⟨-, htr⟩ | ⟨htr, hcl, hev⟩
      · exact Or.inl htr
      · exact Or.inr ⟨htr, hcl, hev e rfl⟩

/-- C14 fails on the code: the server accepts the hello and the write of the
AUTH command fails; `Auth` returns that error, and neither has QUIT been sent
nor the connection been closed, whereas the doc comment of `Auth` says that a
failed authentication closes the connection and every other failure of `Auth`
sends QUIT. -/
theorem Auth_failure_without_quit :
    ((authSession [reply 250 "mx\nAUTH PLAIN",
        { sendErr := some (Err.other "broken pipe"), recv := Recv.fail errEOF }]).hello).2 = none ∧
      ((authSession [reply 250 "mx\nAUTH PLAIN",
        { sendErr := some (Err.other "broken pipe"), recv := Recv.fail errEOF }]).Auth sampleLib).2
        = some (Err.other "broken pipe") ∧
      ((authSession [reply 250 "mx\nAUTH PLAIN",
        { sendErr := some (Err.other "broken pipe"), recv := Recv.fail errEOF }]).Auth
          sampleLib).1.Text.trace
        = [Wire.cmd "EHLO localhost", Wire.cmd "AUTH PLAIN AHUAcA=="] ∧
      ((authSession [reply 250 "mx\nAUTH PLAIN",
        { sendErr := some (Err.other "broken pipe"), recv := Recv.fail errEOF }]).Auth
          sampleLib).1.Text.closes = 0 := by
  decide

theorem Auth_failure_quit_witness :
    (Session.Auth sampleLib
        { freshSession [reply 250 "mx", reply 221 "bye"] with a := some sampleRefusing }).1.Text.trace
        = (Session.hello
            { freshSession [reply 250 "mx", reply 221 "bye"] with
              a := some sampleRefusing }).1.Text.trace ++ [Wire.cmd "QUIT"] ∧
    ((authSession [reply 250 "mx\nAUTH PLAIN", reply 535 "bad credentials",
        reply 501 "cancelled", reply 221 "bye"]).Auth sampleLib).1.Text.trace
      = [Wire.cmd "EHLO localhost", Wire.cmd "AUTH PLAIN AHUAcA==", Wire.cmd "*",
          Wire.cmd "QUIT"] ∧
      ∃ rs : List (List UInt8),
        ((authSession [reply 250 "mx\nAUTH PLAIN", reply 535 "bad credentials",
            reply 501 "cancelled", reply 221 "bye"]).Auth sampleLib).1.Text.trace
          = ((authSession [reply 250 "mx\nAUTH PLAIN", reply 535 "bad credentials",
              reply 501 "cancelled", reply 221 "bye"]).hello).1.Text.trace ++
            authLine "PLAIN" (some (utf8 "\x00u\x00p")) :: rs.map respLine ++
              [Wire.cmd "*", Wire.cmd "QUIT"] ∨
          (((authSession [reply 250 "mx\nAUTH PLAIN", reply 535 "bad credentials",
              reply 501 "cancelled", reply 221 "bye"]).Auth sampleLib).1.Text.trace
            = ((authSession [reply 250 "mx\nAUTH PLAIN", reply 535 "bad credentials",
                reply 501 "cancelled", reply 221 "bye"]).hello).1.Text.trace ++
              authLine "PLAIN" (some (utf8 "\x00u\x00p")) :: rs.map respLine ∧
            ((authSession [reply 250 "mx\nAUTH PLAIN", reply 535 "bad credentials",
              reply 501 "cancelled", reply 221 "bye"]).Auth sampleLib).1.Text.closes
              = ((authSession [reply 250 "mx\nAUTH PLAIN", reply 535 "bad credentials",
                reply 501 "cancelled", reply 221 "bye"]).hello).1.Text.closes ∧
            ∃ pre rest, ((authSession [reply 250 "mx\nAUTH PLAIN", reply 535 "bad credentials",
                reply 501 "cancelled", reply 221 "bye"]).hello).1.Text.script = pre ++ rest ∧
              failsWith rest (Err.proto 535 "bad credentials") ∧
              ((authSession [reply 250 "mx\nAUTH PLAIN", reply 535 "bad credentials",
                reply 501 "cancelled", reply 221 "bye"]).Auth sampleLib).1.Text.script
                = rest.tail) :=
  ⟨((Auth_failure_quit sampleLib
      { freshSession [reply 250 "mx", reply 221 "bye"] with a := some sampleRefusing }
      sampleRefusing (Err.other "unencrypted connection") (by decide) rfl (by decide)).1
      (Err.other "unencrypted connection") rfl).2,
    by decide,
    (Auth_failure_quit sampleLib
      (authSession [reply 250 "mx\nAUTH PLAIN", reply 535 "bad credentials",
        reply 501 "cancelled", reply 221 "bye"])
      samplePlain (Err.proto 535 "bad credentials") (by decide) rfl (by decide)).2 rfl⟩

/-! ## Every operation as a step -/

theorem authLine_plain (mech : String) (resp : Option (List UInt8)) :
    isEHLO (authLine mech resp) = false ∧ isHELO (authLine mech resp) = false ∧
      isTLS (authLine mech resp) = false := by
  obtain ⟨rest, hr⟩ := TrimSpace_first (x := 'A')
    ("UTH ".data ++ mech.data ++ " ".data ++ (String.mk (b64Encode (resp.getD []))).data)
    (by decide)
  have hl : "AUTH " ++ mech ++ " " ++ String.mk (b64Encode (resp.getD [])) =
      String.mk ('A' :: ("UTH ".data ++ mech.data ++ " ".data ++
        (String.mk (b64Encode (resp.getD []))).data)) := by
    apply String.ext
    simp [String.data_append]
  unfold authLine
  rw [hl]
  obtain ⟨p1, p2⟩ := plain_first 'A' rest hr (by decide) (by decide)
  exact ⟨p1, p2, rfl⟩

theorem respLine_plain (r : List UInt8) :
    isEHLO (respLine r) = false ∧ isHELO (respLine r) = false ∧ isTLS (respLine r) = false := by
  obtain ⟨p1, p2⟩ := @plain_no_space (String.mk (b64Encode r)) (b64Encode_no_space r)
  exact ⟨p1, p2, rfl⟩

theorem Quiet.of_trace {c : Session} {t : Conn} {calls : List AuthCall} {d : List Wire}
    (h : t.trace = c.Text.trace ++ d)
    (hp : ∀ w ∈ d, isEHLO w = false ∧ isHELO w = false ∧ isTLS w = false) :
    Quiet c { c with Text := t, calls := calls } :=
  ⟨⟨d, h, hp⟩, rfl, rfl, rfl⟩

theorem Auth_quiet (L : Lib) (c : Session) (hd : c.didHello = true) :
    Quiet c (c.Auth L).1 := by
  cases he : c.helloError with
  | some e =>
    unfold Session.Auth
    rw [hello_of_did hd, he]
    exact Quiet.same c
  | none =>
    cases ha : c.a with
    | none =>
      unfold Session.Auth
      rw [hello_of_did hd, he]
      simp only [ha]
      exact Quiet.same c
    | some a =>
      obtain ⟨t, calls, r, hA, hsh⟩ := Auth_trace L c a hd he ha
      rw [hA]
      have lit := plain_lit
      rcases hsh with ⟨e0, -, -, htr⟩ | ⟨-, rs, ⟨-, htr⟩ | ⟨htr, -, -⟩⟩
      · refine Quiet.of_trace htr ?_
        intro w hw
        simp only [List.mem_singleton] at hw
        rw [hw]
        exact ⟨lit.2.1.1, lit.2.1.2, rfl⟩
      · rw [List.append_assoc] at htr
        refine Quiet.of_trace htr ?_
        intro w hw
        simp only [List.mem_append, List.mem_cons, List.mem_map, List.mem_singleton,
          List.not_mem_nil, or_false] at hw
        rcases hw with (hw | ⟨r0, -, hw⟩) | hw | hw
        · rw [hw]; exact authLine_plain _ _
        · rw [← hw]; exact respLine_plain r0
        · rw [hw]; exact ⟨lit.2.2.2.1, lit.2.2.2.2, rfl⟩
        · rw [hw]; exact ⟨lit.2.1.1, lit.2.1.2, rfl⟩
      · refine Quiet.of_trace htr ?_
        intro w hw
        simp only [List.mem_cons, List.mem_map] at hw
        rcases hw with hw | ⟨r0, -, hw⟩
        · rw [hw]; exact authLine_plain _ _
        · rw [← hw]; exact respLine_plain r0

theorem StartTLS_after (c : Session) (hd : c.didHello = true) : Step c (c.StartTLS).1 := by
  unfold Session.StartTLS
  rw [hello_of_did hd]
  cases c.helloError with
  | some e => exact Step.stay c
  | none =>
    simp only
    have hq := cmd_quiet c 220 "STARTTLS" plain_lit.1
    rcases hc : c.cmd 220 "STARTTLS" with ⟨c1, code, msg, err⟩
    rw [hc] at hq
    cases err with
    | some e => exact hq.step
    | none =>
      simp only
      refine hq.step.followedBy ?_
      obtain ⟨t, ext, auth, err, h, htr, -⟩ := ehlo_spec
        { c1 with Text := { c1.Text with trace := c1.Text.trace ++ [Wire.tls] }, tls := true }
      rw [h]
      obtain ⟨l1, l2, -, -⟩ := ehlo_line c1.localName
      refine ⟨[Wire.tls, Wire.cmd ("EHLO " ++ c1.localName)], by simp [htr], ?_, ?_, fun _ => rfl⟩
      · have t1 : isEHLO Wire.tls = false := rfl
        have t3 : isTLS Wire.tls = true := rfl
        have t4 : isTLS (Wire.cmd ("EHLO " ++ c1.localName)) = false := rfl
        simp [Session.pending, List.countP_cons, l1, t1, t3, t4]
      · have t2 : isHELO Wire.tls = false := rfl
        simp [Session.pending, List.countP_cons, l2, t2]

theorem StartSession_after (L : Lib) (c : Session) (hd : c.didHello = true) :
    Step c (c.StartSession L).1 := by
  unfold Session.StartSession
  rw [hello_of_did hd]
  cases c.helloError with
  | some e => exact Step.stay c
  | none =>
    simp only
    have hx : c.Extension L "STARTTLS" = (c, (c.Extension L "STARTTLS").2) := by
      rw [Extension_eq L c "STARTTLS", hello_of_did hd]
    rw [hx]
    have key : ∀ (c2 : Session) (err2 : Option Err), Step c c2 →
        Step c (match (c2, err2) with
          | (c, some e) => (c, some e)
          | (c, none) =>
            match c.a, c.ext with
            | some _, some m => if (m.get? "AUTH").isSome = true then c.Auth L else (c, none)
            | _, _ => (c, none)).1 := by
      intro c2 err2 hs
      cases err2 with
      | some e => exact hs
      | none =>
        simp only
        split
        · split
          · exact hs.followedBy (Auth_quiet L c2 (hs.did hd)).step
          · exact hs
        · exact hs
    rcases (c.Extension L "STARTTLS").2 with ⟨ok, p⟩
    cases ok with
    | false => exact key c none (Step.stay c)
    | true =>
      simp only
      have := key (c.StartTLS).1 (c.StartTLS).2 (StartTLS_after c hd)
      exact this

theorem cmd_did (c : Session) (expectCode : Nat) (line : String) :
    Session.cmd { c with didHello := true } expectCode line =
      ({ (c.cmd expectCode line).1 with didHello := true }, (c.cmd expectCode line).2) := by
  unfold Session.cmd
  simp only
  rcases c.Text.Cmd line with ⟨t, err⟩
  cases err with
  | some e => rfl
  | none => rfl

theorem ehlo_did (c : Session) :
    (Session.ehlo { c with didHello := true }).2 = (c.ehlo).2 := by
  unfold Session.ehlo
  simp only
  rw [cmd_did]
  rcases c.cmd 250 ("EHLO " ++ c.localName) with ⟨c1, code, msg, err⟩
  cases err with
  | some e => rfl
  | none => rfl

theorem hello_first (c : Session) (hd : c.didHello = false) :
    ((c.ehlo).2 = none →
        (c.hello).1.Text.trace = c.Text.trace ++ [Wire.cmd ("EHLO " ++ c.localName)]) ∧
      ((c.ehlo).2 ≠ none →
        (c.hello).1.Text.trace = c.Text.trace ++
          [Wire.cmd ("EHLO " ++ c.localName), Wire.cmd ("HELO " ++ c.localName)]) := by
  rw [← ehlo_did]
  unfold Session.hello
  simp only [hd, Bool.not_false, if_true]
  obtain ⟨t, ext, auth, err, h, htr, -⟩ := ehlo_spec { c with didHello := true }
  rw [h]
  cases err with
  | none => exact ⟨fun _ => htr, fun h => absurd rfl h⟩
  | some e =>
    refine ⟨fun h => (by cases h), fun _ => ?_⟩
    simp only
    obtain ⟨t2, err2, h2, htr2, -⟩ := helo_spec
      { c with Text := t, ext := ext, auth := auth, didHello := true }
    rw [h2]
    simp only [htr2, htr]
    simp

theorem Verify_hello (c : Session) (addr : String) :
    (c.hello).1.Verify addr = c.Verify addr := by
  unfold Session.Verify
  rw [hello_idem]

theorem Mail_hello (c : Session) (sender : String) :
    (c.hello).1.Mail sender = c.Mail sender := by
  unfold Session.Mail
  rw [hello_idem]

theorem Reset_hello (c : Session) : (c.hello).1.Reset = c.Reset := by
  unfold Session.Reset
  rw [hello_idem]

theorem Quit_hello (c : Session) : (c.hello).1.Quit = c.Quit := by
  unfold Session.Quit
  rw [hello_idem]

theorem StartTLS_hello (c : Session) : (c.hello).1.StartTLS = c.StartTLS := by
  unfold Session.StartTLS
  rw [hello_idem]

theorem StartSession_hello (L : Lib) (c : Session) :
    (c.hello).1.StartSession L = c.StartSession L := by
  unfold Session.StartSession
  rw [hello_idem]

theorem MailAndRcpt_after_hello (L : Lib) (c : Session) (msg : Email) :
    Quiet (c.hello).1 (c.MailAndRcpt L msg).1 := by
  rcases MailAndRcpt_spec L c msg with ⟨-, e, h⟩ | ⟨-, t, k, err, h, -, htr, -⟩
  · rw [h]
    exact Quiet.same _
  · rw [h]
    refine ⟨⟨_, htr, ?_⟩, rfl, rfl, rfl⟩
    intro w hw
    simp only [List.mem_cons, List.mem_map] at hw
    rcases hw with hw | ⟨r, -, hw⟩
    · rw [hw]
      obtain ⟨p1, p2⟩ := @plain_first 'M'
        ("AIL FROM:<".data ++ (c.prepareForSMTPUTF8 L msg.envelopeFrom).2.1.data ++
          ">".data ++ ((if (c.Extension L "8BITMIME").2.1 = true then " BODY=8BITMIME" else "") ++
          (if (msg.envelopeFrom :: msg.envelopeTo).any
              (fun a => (c.prepareForSMTPUTF8 L a).2.2.1) = true
            then " SMTPUTF8" else "")).data)
        (mailLine (c.prepareForSMTPUTF8 L msg.envelopeFrom).2.1
          ((if (c.Extension L "8BITMIME").2.1 = true then " BODY=8BITMIME" else "") ++
            (if (msg.envelopeFrom :: msg.envelopeTo).any
                (fun a => (c.prepareForSMTPUTF8 L a).2.2.1) = true
              then " SMTPUTF8" else "")))
        (by simp [mailLine, String.data_append]) (by decide) (by decide)
      exact ⟨p1, p2, rfl⟩
    · rw [← hw]
      obtain ⟨p1, p2⟩ := @plain_first 'R' ("CPT TO:<".data ++ r.data ++ ">".data) (rcptLine r)
        (by simp [rcptLine, String.data_append]) (by decide) (by decide)
      exact ⟨p1, p2, rfl⟩

theorem Hello_step (c : Session) (localName : String) :
    Step c (c.Hello localName).1 ∧ (c.Hello localName).1.didHello = true := by
  unfold Session.Hello
  by_cases hd : c.didHello = true
  · rw [if_pos hd]
    exact ⟨Step.stay c, hd⟩
  · rw [if_neg hd]
    obtain ⟨hs, hdid, -⟩ := hello_step { c with localName := localName }
    refine ⟨Step.followedBy ?_ hs, hdid⟩
    exact ⟨[], by simp, by simp [Session.pending], by simp [Session.pending], fun _ => rfl⟩

/-- Each operation that begins with the lazy hello is the hello followed by a
step of a session whose hello is done. -/
theorem perform_after (L : Lib) (c : Session) (op : Op) (hg : op.greets = true) :
    (c.perform L op).didHello = true ∧ Step c (c.perform L op) := by
  have hh := hello_step c
  have key : ∀ c', Step (c.hello).1 c' → c'.didHello = true ∧ Step c c' :=
    fun c' h => ⟨h.did hh.2.1, hh.1.followedBy h⟩
  cases op with
  | Hello n => exact ⟨(Hello_step c n).2, (Hello_step c n).1⟩
  | Extension x =>
    simp only [Session.perform]
    rw [Extension_fst]
    exact key _ (Step.stay _)
  | Verify addr =>
    simp only [Session.perform]
    rw [← Verify_hello]
    exact key _ (Verify_quiet _ addr hh.2.1).step
  | Auth =>
    simp only [Session.perform]
    rw [← Auth_hello]
    exact key _ (Auth_quiet L _ hh.2.1).step
  | Mail sender =>
    simp only [Session.perform]
    rw [← Mail_hello]
    exact key _ (Mail_quiet _ sender hh.2.1).step
  | Rcpt addr => simp [Op.greets] at hg
  | Reset =>
    simp only [Session.perform]
    rw [← Reset_hello]
    exact key _ (Reset_quiet _ hh.2.1).step
  | Quit =>
    simp only [Session.perform]
    rw [← Quit_hello]
    exact key _ (Quit_quiet _ hh.2.1).step
  | StartTLS =>
    simp only [Session.perform]
    rw [← StartTLS_hello]
    exact key _ (StartTLS_after _ hh.2.1)
  | StartSession =>
    simp only [Session.perform]
    rw [← StartSession_hello]
    exact key _ (StartSession_after L _ hh.2.1)
  | MailAndRcpt msg =>
    simp only [Session.perform]
    exact key _ (MailAndRcpt_after_hello L c msg).step
  | Close => simp [Op.greets] at hg

theorem perform_step (L : Lib) (c : Session) (op : Op) : Step c (c.perform L op) := by
  cases hg : op.greets with
  | true => exact (perform_after L c op hg).2
  | false =>
    cases op with
    | Rcpt addr => exact (Rcpt_quiet c addr).step
    | Close => exact Quiet.step ⟨⟨[], by simp [Session.perform, Session.Close, Conn.Close],
        by simp⟩, rfl, rfl, rfl⟩
    | _ => simp [Op.greets] at hg

theorem performAll_step (L : Lib) (ops : List Op) :
    ∀ c : Session, Step c (c.performAll L ops) := by
  induction ops with
  | nil => exact fun c => Step.stay c
  | cons op rest ih =>
    intro c
    exact (perform_step L c op).followedBy (ih (c.perform L op))

/-- C12: once any operation that performs the hello has run (`Hello`,
`Extension`, `Mail`, `Verify`, `Reset`, `Quit`, `StartTLS`, `Auth`,
`StartSession`), whatever operations follow, `Hello` returns its sequencing
error and hands back the session as it was: nothing is sent and the local name
stays. -/
theorem Hello_after_hello (L : Lib) (c : Session) (op : Op) (ops : List Op)
    (localName : String) (hg : op.greets = true) :
    ((c.perform L op).performAll L ops).Hello localName =
      ((c.perform L op).performAll L ops,
        some (Err.other "smtp: Hello called after other methods")) := by
  have hd : ((c.perform L op).performAll L ops).didHello = true :=
    (performAll_step L ops (c.perform L op)).did (perform_after L c op hg).1
  unfold Session.Hello
  rw [if_pos hd]

theorem Hello_after_hello_witness :
    (Op.Extension "AUTH").greets = true ∧
      (((freshSession [reply 250 "mx"]).perform sampleLib (Op.Extension "AUTH")).performAll
          sampleLib [Op.Rcpt "b@y.org"]).Hello "me" =
        (((freshSession [reply 250 "mx"]).perform sampleLib (Op.Extension "AUTH")).performAll
          sampleLib [Op.Rcpt "b@y.org"],
          some (Err.other "smtp: Hello called after other methods")) :=
  ⟨rfl, Hello_after_hello sampleLib (freshSession [reply 250 "mx"]) (Op.Extension "AUTH")
    [Op.Rcpt "b@y.org"] "me" rfl⟩

/-- C13: the first `hello` of a session sends EHLO, and HELO after it exactly
when EHLO fails. After it, whatever operations follow, `hello` returns the
session unchanged with the outcome of the first call. Over any sequence of
operations the EHLO commands on the trace number at most the TLS upgrades plus
the one pending hello, and there is at most one HELO, none when the hello was
already done. -/
theorem hello_idempotent (L : Lib) (c : Session) :
    (c.didHello = false → (c.ehlo).2 = none →
        (c.hello).1.Text.trace = c.Text.trace ++ [Wire.cmd ("EHLO " ++ c.localName)]) ∧
      (c.didHello = false → (c.ehlo).2 ≠ none →
        (c.hello).1.Text.trace = c.Text.trace ++
          [Wire.cmd ("EHLO " ++ c.localName), Wire.cmd ("HELO " ++ c.localName)]) ∧
      (∀ ops : List Op, ((c.hello).1.performAll L ops).hello =
        ((c.hello).1.performAll L ops, (c.hello).2)) ∧
      (∀ ops : List Op, ∃ d, (c.performAll L ops).Text.trace = c.Text.trace ++ d ∧
        d.countP isEHLO ≤ d.countP isTLS + c.pending ∧ d.countP isHELO ≤ c.pending) := by
  refine ⟨fun hd => (hello_first c hd).1, fun hd => (hello_first c hd).2, ?_, ?_⟩
  · intro ops
    have hs := performAll_step L ops (c.hello).1
    have hd := (hello_step c).2.1
    rw [hello_of_did (hs.did hd)]
    obtain ⟨d, -, -, -, he⟩ := hs
    rw [he hd, (hello_fields c).1]
  · intro ops
    obtain ⟨d, htr, h1, h2, -⟩ := performAll_step L ops c
    exact ⟨d, htr, by omega, by omega⟩

theorem hello_idempotent_witness :
    ((freshSession [reply 250 "mx"]).hello).1.Text.trace = [Wire.cmd "EHLO localhost"] ∧
      ((freshSession [reply 502 "no", reply 250 "mx"]).hello).1.Text.trace =
        [Wire.cmd "EHLO localhost", Wire.cmd "HELO localhost"] :=
  ⟨(hello_idempotent sampleLib (freshSession [reply 250 "mx"])).1 rfl (by decide),
    (hello_idempotent sampleLib (freshSession [reply 502 "no", reply 250 "mx"])).2.1 rfl
      (by decide)⟩

/-! ## Extension lookup -/

/-- C11 fails on the code: the server advertises the keyword `starttls` in lower
case; the hello succeeds and the map holds that keyword, yet `Extension`
reports no support for `STARTTLS`, nor for `starttls`, although the names are
equal when letter case is ignored and the doc comment of `Extension` says that
the extension name is case-insensitive. -/
theorem Extension_misses_lower_case_keyword :
    ((freshSession [reply 250 "mx\nstarttls"]).hello).2 = none ∧
      ((freshSession [reply 250 "mx\nstarttls"]).hello).1.ext = some [("starttls", "")] ∧
      ToUpper sampleLib "starttls" = "STARTTLS" ∧
      ((freshSession [reply 250 "mx\nstarttls"]).Extension sampleLib "STARTTLS").2 = (false, "") ∧
      ((freshSession [reply 250 "mx\nstarttls"]).Extension sampleLib "starttls").2 = (false, "") := by
  decide

/-- What the lookup of `Extension` finds: on a session whose hello succeeded,
`Extension e` looks up the upper-case form of `e` among the keywords as the
server sent them. It reports support, with the parameter, when the map holds
that key, no support when it does not, and two names with the same upper-case
form get the same result. -/
theorem Extension_upper_case (L : Lib) (c : Session) (e : String) (hh : (c.hello).2 = none) :
    (∀ m p, (c.hello).1.ext = some m → m.get? (ToUpper L e) = some p →
        c.Extension L e = ((c.hello).1, true, p)) ∧
      (∀ m, (c.hello).1.ext = some m → m.get? (ToUpper L e) = none →
        c.Extension L e = ((c.hello).1, false, "")) ∧
      (∀ e2, ToUpper L e2 = ToUpper L e → c.Extension L e2 = c.Extension L e) := by
  refine ⟨?_, ?_, ?_⟩
  · intro m p hm hp
    unfold Session.Extension
    rcases hc : c.hello with ⟨c1, err⟩
    rw [hc] at hh hm
    simp only at hh hm
    subst hh
    simp only [hm, hp]
  · intro m hm hp
    unfold Session.Extension
    rcases hc : c.hello with ⟨c1, err⟩
    rw [hc] at hh hm
    simp only at hh hm
    subst hh
    simp only [hm, hp]
  · intro e2 h2
    unfold Session.Extension
    rw [h2]

theorem Extension_upper_case_witness :
    ((freshSession [reply 250 "mx\nSIZE 100"]).hello).2 = none ∧
      (freshSession [reply 250 "mx\nSIZE 100"]).Extension sampleLib "size" =
        (((freshSession [reply 250 "mx\nSIZE 100"]).hello).1, true, "100") ∧
      (freshSession [reply 250 "mx\nSIZE 100"]).Extension sampleLib "pipelining" =
        (((freshSession [reply 250 "mx\nSIZE 100"]).hello).1, false, "") ∧
      (freshSession [reply 250 "mx\nSIZE 100"]).Extension sampleLib "Size" =
        (freshSession [reply 250 "mx\nSIZE 100"]).Extension sampleLib "size" :=
  ⟨by decide,
    (Extension_upper_case sampleLib (freshSession [reply 250 "mx\nSIZE 100"]) "size"
      (by decide)).1 [("SIZE", "100")] "100" (by decide) (by decide),
    (Extension_upper_case sampleLib (freshSession [reply 250 "mx\nSIZE 100"]) "pipelining"
      (by decide)).2.1 [("SIZE", "100")] (by decide) (by decide),
    (Extension_upper_case sampleLib (freshSession [reply 250 "mx\nSIZE 100"]) "size"
      (by decide)).2.2 "Size" (by decide)⟩

/-! ## What serialising a message writes -/

theorem utf8_append (a b : String) : utf8 (a ++ b) = utf8 a ++ utf8 b := by
  simp [utf8, String.data_append, List.flatMap_append]

theorem Grows.unchanged (w : Writer) : Grows w w := ⟨[], by simp⟩

theorem Grows.further {a b c : Writer} (h1 : Grows a b) (h2 : Grows b c) : Grows a c := by
  obtain ⟨s1, e1⟩ := h1
  obtain ⟨s2, e2⟩ := h2
  exact ⟨s1 ++ s2, by rw [e2, e1, List.append_assoc]⟩

theorem Write_grows (w : Writer) (p : List UInt8) : Grows w (w.Write p).1 := by
  unfold Writer.Write
  split
  · exact ⟨p, rfl⟩
  · exact Grows.unchanged w
  · exact ⟨p, rfl⟩

theorem WriteEncodedBody_grows (L : Lib) (w : Writer) (body : List UInt8) (encoding : String) :
    Grows w (WriteEncodedBody L w body encoding).1 := by
  unfold WriteEncodedBody
  simp only
  generalize (if encoding = "base64" then utf8 (String.mk (b64Encode body))
    else if encoding = "8bit" then body else L.qpEncode body) = encoded
  have h1 := Write_grows w encoded
  rcases hw : w.Write encoded with ⟨w1, err⟩
  rw [hw] at h1
  cases err with
  | some e => exact h1
  | none => exact h1.further (Write_grows w1 _)

theorem CreatePart_grows (mp : MPWriter) (w : Writer) (header : MIMEHeader) :
    Grows w (mp.CreatePart w header).2.1 := by
  unfold MPWriter.CreatePart
  simp only
  generalize utf8 ((if mp.lastpart = true then "\r\n--" ++ mp.boundary ++ "\r\n"
    else "--" ++ mp.boundary ++ "\r\n") ++ headerLines (sortByKey header) ++ "\r\n") = bytes
  have h1 := Write_grows w bytes
  rcases hw : w.Write bytes with ⟨w1, err⟩
  rw [hw] at h1
  cases err with
  | some e => exact h1
  | none => exact h1

theorem Close_grows (mp : MPWriter) (w : Writer) : Grows w (mp.Close w).2.1 := by
  unfold MPWriter.Close
  exact Write_grows w _

theorem WriteMultipart_grows (L : Lib) (a : Part) (mp : MPWriter) (w : Writer) :
    Grows w (a.WriteMultipart L mp w).2.2.1 := by
  unfold Part.WriteMultipart
  simp only
  generalize (MIMEHeader.Add _ "Content-Transfer-Encoding" _ : MIMEHeader) = h0
  generalize (if a.ContentID ≠ "" then MIMEHeader.Add h0 "Content-ID" ("<" ++ a.ContentID ++ ">")
    else h0) = headers
  have h1 := CreatePart_grows mp w headers
  rcases hc : mp.CreatePart w headers with ⟨mp1, w1, err⟩
  rw [hc] at h1
  cases err with
  | some e => exact h1
  | none => exact h1.further (WriteEncodedBody_grows L w1 _ _)

theorem writeParts_grows (L : Lib) (parts : List Part) :
    ∀ (mp : MPWriter) (w : Writer), Grows w (writeParts L parts mp w).2.2.1 := by
  induction parts with
  | nil => exact fun mp w => Grows.unchanged w
  | cons att rest ih =>
    intro mp w
    unfold writeParts
    have h1 := WriteMultipart_grows L att mp w
    rcases hc : att.WriteMultipart L mp w with ⟨att1, mp1, w1, err⟩
    rw [hc] at h1
    cases err with
    | some e => exact h1
    | none => exact h1.further (ih mp1 w1)

theorem writeBody_grows (L : Lib) (e : Email) (W : World) (mp : MPWriter) (w : Writer) :
    Grows w (e.writeBody L W mp w).2.2.2.1 := by
  unfold Email.writeBody
  simp only
  rcases NewWriter W with ⟨alt, W1⟩
  simp only
  have h1 := CreatePart_grows mp w
    [("Content-Type", ["multipart/alternative; boundary=" ++ alt.boundary])]
  rcases hc : mp.CreatePart w
    [("Content-Type", ["multipart/alternative; boundary=" ++ alt.boundary])] with ⟨mp1, w1, err⟩
  rw [hc] at h1
  cases err with
  | some x => exact h1
  | none =>
    simp only
    split
    · exact h1
    · split
      · exact h1
      · split
        · exact h1
        · exact h1.further (Write_grows w1 _)

theorem writeAMPBody_grows (L : Lib) (e : Email) (mp : MPWriter) (w : Writer) :
    Grows w (e.writeAMPBody L mp w).2.2.1 := by
  unfold Email.writeAMPBody
  simp only
  generalize (if e.Text = "" ∧ e.Sanitize = true then
    if e.HTML ≠ "" then { e with Text := L.sanitizeHTML e.HTML } else e else e) = e1
  have key : ∀ (mp1 : MPWriter) (w1 : Writer) (err : Option Err), Grows w w1 →
      Grows w (match (mp1, w1, err) with
        | (mp, w, some err) => (e1, mp, w, some err)
        | (mp, w, none) =>
          match (e1.bodyPart "text/x-amp-html" e1.AMP).WriteMultipart L mp w with
          | (_, mp, w, some err) => (e1, mp, w, some err)
          | (_, mp, w, none) =>
            match ((if e1.HTML = "" then { e1 with HTML := e1.Text } else e1).bodyPart "text/html"
                (if e1.HTML = "" then { e1 with HTML := e1.Text } else e1).HTML).WriteMultipart
                L mp w with
            | (_, mp, w, err) =>
              (if e1.HTML = "" then { e1 with HTML := e1.Text } else e1, mp, w, err)).2.2.1 := by
    intro mp1 w1 err hg
    cases err with
    | some x => exact hg
    | none =>
      simp only
      have h2 := WriteMultipart_grows L (e1.bodyPart "text/x-amp-html" e1.AMP) mp1 w1
      rcases hc : (e1.bodyPart "text/x-amp-html" e1.AMP).WriteMultipart L mp1 w1 with
        ⟨a2, mp2, w2, err2⟩
      rw [hc] at h2
      cases err2 with
      | some x => exact hg.further h2
      | none => exact (hg.further h2).further (WriteMultipart_grows L _ mp2 w2)
  by_cases ht : e1.Text ≠ ""
  · rw [if_pos ht]
    exact key _ _ _ (WriteMultipart_grows L _ mp w)
  · rw [if_neg ht]
    exact key mp w none (Grows.unchanged w)

theorem Headers_Write_ok (L : Lib) (charset : String) (hs : Mandala.Headers) :
    ∀ w : Writer, w.fail = none →
      Headers.Write L hs w charset =
        ({ w with out := w.out ++ utf8 (renderHeaders (hs.map (fun h =>
          (h.Name, if h.Encoded = true then L.qEncode charset h.Value else h.Value)))) },
          none) := by
  induction hs with
  | nil =>
    intro w hw
    simp [Headers.Write, Writer.Write, hw, renderHeaders]
  | cons v rest ih =>
    intro w hw
    unfold Headers.Write
    simp only [Writer.Write, hw]
    rw [ih _ rfl]
    simp only [List.map_cons, renderHeaders, utf8_append, List.append_assoc]
    cases v.Encoded <;> simp [utf8_append]

theorem length_pos_iff_ne_nil {α : Type} (l : List α) : l.length > 0 ↔ l ≠ [] := by
  cases l <;> simp

theorem writeHeaders_ok (L : Lib) (e : Email) (W : World) (w : Writer) (boundary : String)
    (hw : w.fail = none) :
    (e.writeHeaders L W w boundary).1 = { e with MessageID := e.messageIDAt W } ∧
      (e.writeHeaders L W w boundary).2.2 =
        ({ w with out := w.out ++ utf8 (renderHeaders
          (e.expectedHeaders L (e.messageIDAt W) (W.dates.headD "") boundary)) }, none) := by
  unfold Email.writeHeaders
  by_cases hid : e.MessageID = ""
  · simp only [hid, if_true, World.nextNuid, World.nextDate]
    rw [Headers_Write_ok L _ _ w hw]
    refine ⟨by simp [Email.messageIDAt, hid], ?_⟩
    have hm : Email.IsMultiPart
        { e with MessageID := W.nuids.headD "" ++ "@" ++ (Split e.From.Address).2 } =
        e.IsMultiPart := rfl
    have hc : Email.ContentType
        { e with MessageID := W.nuids.headD "" ++ "@" ++ (Split e.From.Address).2 } =
        e.ContentType := rfl
    simp only [Email.messageIDAt, hid, if_true, Email.expectedHeaders, Headers.Add,
      Headers.AddHeaders, length_pos_iff_ne_nil, hm, hc]
    by_cases h1 : e.To = [] <;> by_cases h2 : e.Cc = [] <;>
      by_cases h3 : e.ReplyTo.Address = "" <;> by_cases h4 : e.Sender = "" <;>
      cases h5 : e.IsMultiPart <;> simp [h1, h2, h3, h4]
  · simp only [hid, if_false, World.nextDate]
    rw [Headers_Write_ok L _ _ w hw]
    refine ⟨by simp [Email.messageIDAt, hid], ?_⟩
    simp only [Email.messageIDAt, hid, if_false, Email.expectedHeaders, Headers.Add,
      Headers.AddHeaders, length_pos_iff_ne_nil]
    by_cases h1 : e.To = [] <;> by_cases h2 : e.Cc = [] <;>
      by_cases h3 : e.ReplyTo.Address = "" <;> by_cases h4 : e.Sender = "" <;>
      cases h5 : e.IsMultiPart <;> simp [h1, h2, h3, h4]

theorem expectedHeaders_single (L : Lib) (e : Email) (messageID date b1 b2 : String)
    (h : e.IsMultiPart = false) :
    e.expectedHeaders L messageID date b1 = e.expectedHeaders L messageID date b2 := by
  simp [Email.expectedHeaders, h]

theorem Write_block (L : Lib) (e : Email) (W : World) (w : Writer) (hw : w.fail = none) :
    ∃ body, (e.Write L W w).2.2.1.out = w.out ++ utf8 (renderHeaders
      (e.expectedHeaders L (e.messageIDAt W) (W.dates.headD "") (W.boundaries.headD ""))) ++
        body := by
  have fin : ∀ (w1 w2 : Writer) (blk : List UInt8), w1.out = w.out ++ blk → Grows w1 w2 →
      ∃ body, w2.out = w.out ++ blk ++ body := by
    intro w1 w2 blk h1 ⟨s, hs⟩
    exact ⟨s, by rw [hs, h1]⟩
  unfold Email.Write
  cases hm : e.IsMultiPart with
  | false =>
    simp only [Bool.false_eq_true, if_false]
    obtain ⟨-, h2⟩ := writeHeaders_ok L e W w "" hw
    rcases hwh : e.writeHeaders L W w "" with ⟨e1, W1, w1, err1⟩
    rw [hwh] at h2
    simp only [Prod.mk.injEq] at h2
    obtain ⟨rfl, rfl⟩ := h2
    simp only
    rw [expectedHeaders_single L e _ _ (W.boundaries.headD "") "" hm]
    exact fin _ _ _ rfl (WriteEncodedBody_grows L _ _ _)
  | true =>
    simp only [if_true]
    have hN : NewWriter W = ({ boundary := W.boundaries.headD "", lastpart := false },
        { W with boundaries := W.boundaries.tail }) := rfl
    rw [hN]
    simp only
    obtain ⟨-, h2⟩ := writeHeaders_ok L e { W with boundaries := W.boundaries.tail } w
      (W.boundaries.headD "") hw
    rcases hwh : e.writeHeaders L { W with boundaries := W.boundaries.tail } w
      (W.boundaries.headD "") with ⟨e1, W1, w1, err1⟩
    rw [hwh] at h2
    simp only [Prod.mk.injEq] at h2
    obtain ⟨rfl, rfl⟩ := h2
    have hid : e.messageIDAt { W with boundaries := W.boundaries.tail } = e.messageIDAt W := rfl
    rw [hid]
    by_cases ha : e.AMP ≠ ""
    · rw [if_pos ha]
      simp only
      have g1 := writeAMPBody_grows L e1 { boundary := W.boundaries.headD "", lastpart := false }
        { w with out := w.out ++ utf8 (renderHeaders (e.expectedHeaders L (e.messageIDAt W)
          (W.dates.headD "") (W.boundaries.headD ""))) }
      rcases hb : e1.writeAMPBody L { boundary := W.boundaries.headD "", lastpart := false }
        { w with out := w.out ++ utf8 (renderHeaders (e.expectedHeaders L (e.messageIDAt W)
          (W.dates.headD "") (W.boundaries.headD ""))) } with ⟨e2, mp2, w2, err2⟩
      rw [hb] at g1
      cases err2 with
      | some x => exact fin _ _ _ rfl g1
      | none => exact fin _ _ _ rfl (g1.further (Close_grows mp2 w2))
    · rw [if_neg ha]
      simp only
      have g1 := writeBody_grows L e1 W1 { boundary := W.boundaries.headD "", lastpart := false }
        { w with out := w.out ++ utf8 (renderHeaders (e.expectedHeaders L (e.messageIDAt W)
          (W.dates.headD "") (W.boundaries.headD ""))) }
      rcases hb : e1.writeBody L W1 { boundary := W.boundaries.headD "", lastpart := false }
        { w with out := w.out ++ utf8 (renderHeaders (e.expectedHeaders L (e.messageIDAt W)
          (W.dates.headD "") (W.boundaries.headD ""))) } with ⟨e2, W2, mp2, w2, err2⟩
      rw [hb] at g1
      cases err2 with
      | some x => exact fin _ _ _ rfl g1
      | none =>
        simp only
        have g2 := writeParts_grows L e2.Attachments mp2 w2
        rcases hp : writeParts L e2.Attachments mp2 w2 with ⟨atts, mp3, w3, err3⟩
        rw [hp] at g2
        cases err3 with
        | some x => exact fin _ _ _ rfl (g1.further g2)
        | none =>
          simp only
          have g3 := writeParts_grows L e2.Images mp3 w3
          rcases hq : writeParts L e2.Images mp3 w3 with ⟨imgs, mp4, w4, err4⟩
          rw [hq] at g3
          cases err4 with
          | some x => exact fin _ _ _ rfl ((g1.further g2).further g3)
          | none => exact fin _ _ _ rfl (((g1.further g2).further g3).further (Close_grows mp4 w4))

/-- C19: written to a writer that accepts it, a message starts with the header
block in the order Message-Id, From, To (if any), Cc (if any), Reply-To (if
set), Sender (if set), Subject, Date, MIME-Version, Content-Type (with the
boundary when multipart, with the charset otherwise), Content-Transfer-Encoding
(single-part only), the extended headers of the caller in their order, and one
empty line; the body follows. The block is the same whatever the Bcc
recipients are: none of them is written. -/
theorem Write_header_block (L : Lib) (e : Email) (W : World) (w : Writer)
    (bcc : List EmailAddress) (hw : w.fail = none) :
    ∃ body, (Email.Write L { e with Bcc := bcc } W w).2.2.1.out =
      w.out ++ utf8 (renderHeaders
        (e.expectedHeaders L (e.messageIDAt W) (W.dates.headD "") (W.boundaries.headD ""))) ++
        body :=
  Write_block L { e with Bcc := bcc } W w hw

/-! ## The parts of an AMP message -/

theorem Write_ok (w : Writer) (p : List UInt8) (hw : w.fail = none) :
    w.Write p = ({ w with out := w.out ++ p }, none) := by
  simp [Writer.Write, hw]

theorem WriteEncodedBody_ok (L : Lib) (w : Writer) (body : List UInt8) (encoding : String)
    (hw : w.fail = none) :
    WriteEncodedBody L w body encoding =
      ({ w with out := w.out ++
        (WriteEncodedBody L { out := [], fail := none } body encoding).1.out }, none) := by
  unfold WriteEncodedBody
  simp only
  generalize (if encoding = "base64" then utf8 (String.mk (b64Encode body))
    else if encoding = "8bit" then body else L.qpEncode body) = encoded
  simp [Writer.Write, hw]

/-- A part written to an accepting writer adds the bytes it adds to an empty one. -/
theorem WriteMultipart_ok (L : Lib) (a : Part) (mp : MPWriter) (w : Writer)
    (hw : w.fail = none) :
    a.WriteMultipart L mp w =
      ({ a with Encoding := a.contentType L }, { mp with lastpart := true },
        { w with out := w.out ++ a.bytes L mp.boundary (!mp.lastpart) }, none) := by
  unfold Part.bytes
  rw [Bool.not_not]
  unfold Part.WriteMultipart
  simp only
  generalize (MIMEHeader.Add _ "Content-Transfer-Encoding" _ : MIMEHeader) = h0
  generalize (if a.ContentID ≠ "" then MIMEHeader.Add h0 "Content-ID" ("<" ++ a.ContentID ++ ">")
    else h0) = headers
  unfold MPWriter.CreatePart
  simp only
  generalize utf8 ((if mp.lastpart = true then "\r\n--" ++ mp.boundary ++ "\r\n"
    else "--" ++ mp.boundary ++ "\r\n") ++ headerLines (sortByKey headers) ++ "\r\n") = bytes
  rw [Write_ok w bytes hw, Write_ok { out := [], fail := none } bytes rfl]
  simp only
  rw [WriteEncodedBody_ok L { w with out := w.out ++ bytes } _ _ hw]
  rw [WriteEncodedBody_ok L { out := [] ++ bytes, fail := none } _ _ rfl]
  simp

theorem writeAMPBody_ok (L : Lib) (e : Email) (boundary : String) (w : Writer)
    (hw : w.fail = none) :
    (e.ampText L ≠ "" →
        (e.writeAMPBody L { boundary := boundary, lastpart := false } w).2.2 =
          ({ w with out := w.out ++
              ((e.bodyPart "text/plain" (e.ampText L)).bytes L boundary true ++
                (e.bodyPart "text/x-amp-html" e.AMP).bytes L boundary false ++
                (e.bodyPart "text/html"
                  (if e.HTML = "" then e.ampText L else e.HTML)).bytes L boundary false) },
            none)) ∧
      (e.ampText L = "" →
        (e.writeAMPBody L { boundary := boundary, lastpart := false } w).2.2 =
          ({ w with out := w.out ++
              ((e.bodyPart "text/x-amp-html" e.AMP).bytes L boundary true ++
                (e.bodyPart "text/html"
                  (if e.HTML = "" then e.ampText L else e.HTML)).bytes L boundary false) },
            none)) ∧
      (e.writeAMPBody L { boundary := boundary, lastpart := false } w).2.1.boundary = boundary := by
  unfold Email.writeAMPBody Email.ampText
  by_cases hT : e.Text = "" <;> by_cases hS : e.Sanitize = true <;> by_cases hH : e.HTML = "" <;>
    by_cases hX : L.sanitizeHTML e.HTML = "" <;>
    simp [hT, hS, hH, hX, hw, WriteMultipart_ok, Email.bodyPart]

theorem writeAMPBody_same (L : Lib) (e : Email) (messageID : String) (mp : MPWriter)
    (w : Writer) :
    (Email.writeAMPBody L { e with MessageID := messageID } mp w).2 =
      (e.writeAMPBody L mp w).2 := by
  unfold Email.writeAMPBody
  simp only [Email.bodyPart]
  by_cases hT : e.Text = "" <;> by_cases hS : e.Sanitize = true <;>
    by_cases hH : e.HTML = "" <;> by_cases hX : L.sanitizeHTML e.HTML = "" <;>
    simp [hT, hS, hH, hX] <;> (repeat' split) <;> simp_all

/-- The bytes of the parts of an AMP message, in the order they are written. -/
theorem Write_amp (L : Lib) (e : Email) (W : World) (w : Writer) (hw : w.fail = none)
    (ha : e.AMP ≠ "") (parts : List UInt8)
    (hp : (e.writeAMPBody L { boundary := W.boundaries.headD "", lastpart := false }
        { w with out := w.out ++ utf8 (renderHeaders (e.expectedHeaders L (e.messageIDAt W)
          (W.dates.headD "") (W.boundaries.headD ""))) }).2.2 =
      ({ w with out := w.out ++ utf8 (renderHeaders (e.expectedHeaders L (e.messageIDAt W)
          (W.dates.headD "") (W.boundaries.headD ""))) ++ parts }, none)) :
    (e.Write L W w).2.2 =
      ({ w with out := (w.out ++ utf8 (renderHeaders (e.expectedHeaders L (e.messageIDAt W)
          (W.dates.headD "") (W.boundaries.headD ""))) ++ parts ++
          utf8 ("\r\n--" ++ W.boundaries.headD "" ++ "--\r\n")) }, none) := by
  have hm : e.IsMultiPart = true := by
    unfold Email.IsMultiPart
    simp [ha]
  have hbd := (writeAMPBody_ok L e (W.boundaries.headD "")
    { w with out := w.out ++ utf8 (renderHeaders (e.expectedHeaders L (e.messageIDAt W)
      (W.dates.headD "") (W.boundaries.headD ""))) } hw).2.2
  unfold Email.Write
  rw [if_pos hm, if_pos ha]
  have hN : NewWriter W = ({ boundary := W.boundaries.headD "", lastpart := false },
      { W with boundaries := W.boundaries.tail }) := rfl
  rw [hN]
  simp only
  obtain ⟨h1, h2⟩ := writeHeaders_ok L e { W with boundaries := W.boundaries.tail } w
    (W.boundaries.headD "") hw
  rcases hwh : e.writeHeaders L { W with boundaries := W.boundaries.tail } w
    (W.boundaries.headD "") with ⟨e1, W1, w1, err1⟩
  rw [hwh] at h1 h2
  simp only [Prod.mk.injEq] at h1 h2
  obtain ⟨rfl, rfl⟩ := h2
  subst h1
  have hid : e.messageIDAt { W with boundaries := W.boundaries.tail } = e.messageIDAt W := rfl
  rw [hid]
  simp only
  have hs := writeAMPBody_same L e (e.messageIDAt W)
    { boundary := W.boundaries.headD "", lastpart := false }
    { w with out := w.out ++ utf8 (renderHeaders (e.expectedHeaders L (e.messageIDAt W)
      (W.dates.headD "") (W.boundaries.headD ""))) }
  rcases hA : Email.writeAMPBody L { e with MessageID := e.messageIDAt W }
    { boundary := W.boundaries.headD "", lastpart := false }
    { w with out := w.out ++ utf8 (renderHeaders (e.expectedHeaders L (e.messageIDAt W)
      (W.dates.headD "") (W.boundaries.headD ""))) } with ⟨e2, mp2, w2, err2⟩
  rw [hA] at hs
  rcases hB : e.writeAMPBody L { boundary := W.boundaries.headD "", lastpart := false }
    { w with out := w.out ++ utf8 (renderHeaders (e.expectedHeaders L (e.messageIDAt W)
      (W.dates.headD "") (W.boundaries.headD ""))) } with ⟨e3, mp3, w3, err3⟩
  rw [hB] at hs hp hbd
  simp only [Prod.mk.injEq] at hs hp hbd
  obtain ⟨rfl, rfl, rfl⟩ := hs
  obtain ⟨rfl, rfl⟩ := hp
  simp only [MPWriter.Close, hbd]
  rw [Write_ok { w with out := w.out ++ utf8 (renderHeaders (e.expectedHeaders L (e.messageIDAt W)
    (W.dates.headD "") (W.boundaries.headD ""))) ++ parts } _ hw]

set_option maxRecDepth 20000

/-- C20 as stated fails: an AMP message with an HTML body, no text and no
request to sanitize is written with two parts, `text/x-amp-html` and
`text/html`; there is no `text/plain` part. -/
theorem Write_amp_without_text :
    ampEmail.AMP ≠ "" ∧
      (ampEmail.Write sampleLib sampleWorld emptyBuffer).2.2 =
        ({ out := utf8 ("Message-Id: <N1@x.org>\r\nFrom: \"A\" <a@x.org>\r\nTo: \"B\" <b@y.org>\r\n" ++
            "Subject: hi\r\nDate: D1\r\nMIME-Version: 1.0\r\n" ++
            "Content-Type: multipart/alternative; boundary=B1\r\n\r\n" ++
            "--B1\r\nContent-Transfer-Encoding: 8bit\r\n" ++
            "Content-Type: text/x-amp-html; charset=\"utf-8\"\r\n\r\n" ++
            "<html amp4email></html>\r\n" ++
            "\r\n--B1\r\nContent-Transfer-Encoding: 8bit\r\n" ++
            "Content-Type: text/html; charset=\"utf-8\"\r\n\r\n" ++
            "<p>hi</p>\r\n" ++
            "\r\n--B1--\r\n"),
           fail := none }, none) := by
  decide

/-- C20 (amended): written to a writer that accepts it, a message with an AMP
body is its header block, then the parts of the top-level container, then the
closing boundary. The parts are a `text/plain` part with the text (the text
given, or the HTML stripped of tags when no text is given and sanitizing is
requested) only when that text is not empty, a `text/x-amp-html` part with the
AMP body, and a `text/html` part with the HTML body, or with the text when
there is no HTML: three parts, or two when there is no text. Each is written
as one part of the top-level container; none is a container itself. -/
theorem Write_amp_parts (L : Lib) (e : Email) (W : World) (w : Writer) (hw : w.fail = none)
    (ha : e.AMP ≠ "") :
    (e.ampText L ≠ "" →
        (e.Write L W w).2.2 =
          ({ w with out := (w.out ++ utf8 (renderHeaders (e.expectedHeaders L (e.messageIDAt W)
              (W.dates.headD "") (W.boundaries.headD ""))) ++
              ((e.bodyPart "text/plain" (e.ampText L)).bytes L (W.boundaries.headD "") true ++
                (e.bodyPart "text/x-amp-html" e.AMP).bytes L (W.boundaries.headD "") false ++
                (e.bodyPart "text/html" (if e.HTML = "" then e.ampText L else e.HTML)).bytes L
                  (W.boundaries.headD "") false) ++
              utf8 ("\r\n--" ++ W.boundaries.headD "" ++ "--\r\n")) }, none)) ∧
      (e.ampText L = "" →
        (e.Write L W w).2.2 =
          ({ w with out := (w.out ++ utf8 (renderHeaders (e.expectedHeaders L (e.messageIDAt W)
              (W.dates.headD "") (W.boundaries.headD ""))) ++
              ((e.bodyPart "text/x-amp-html" e.AMP).bytes L (W.boundaries.headD "") true ++
                (e.bodyPart "text/html" (if e.HTML = "" then e.ampText L else e.HTML)).bytes L
                  (W.boundaries.headD "") false) ++
              utf8 ("\r\n--" ++ W.boundaries.headD "" ++ "--\r\n")) }, none)) := by
  have hb := writeAMPBody_ok L e (W.boundaries.headD "")
    { w with out := w.out ++ utf8 (renderHeaders (e.expectedHeaders L (e.messageIDAt W)
      (W.dates.headD "") (W.boundaries.headD ""))) } hw
  exact ⟨fun h => Write_amp L e W w hw ha _ (hb.1 h), fun h => Write_amp L e W w hw ha _ (hb.2.1 h)⟩

theorem Write_amp_parts_witness :
    ({ sampleEmail with AMP := "<html amp4email></html>" } : Email).ampText sampleLib ≠ "" ∧
      (Email.Write sampleLib { sampleEmail with AMP := "<html amp4email></html>" } sampleWorld
          emptyBuffer).2.2 =
        ({ out := utf8 ("Message-Id: <N1@x.org>\r\nFrom: \"A\" <a@x.org>\r\nTo: \"B\" <b@y.org>\r\n" ++
            "Subject: hi\r\nDate: D1\r\nMIME-Version: 1.0\r\n" ++
            "Content-Type: multipart/alternative; boundary=B1\r\n\r\n" ++
            "--B1\r\nContent-Transfer-Encoding: 8bit\r\n" ++
            "Content-Type: text/plain; charset=\"utf-8\"\r\n\r\n" ++
            "hello\r\n" ++
            "\r\n--B1\r\nContent-Transfer-Encoding: 8bit\r\n" ++
            "Content-Type: text/x-amp-html; charset=\"utf-8\"\r\n\r\n" ++
            "<html amp4email></html>\r\n" ++
            "\r\n--B1\r\nContent-Transfer-Encoding: 8bit\r\n" ++
            "Content-Type: text/html; charset=\"utf-8\"\r\n\r\n" ++
            "hello\r\n" ++
            "\r\n--B1--\r\n"),
           fail := none }, none) ∧
      ampEmail.ampText sampleLib = "" ∧
      (ampEmail.Write sampleLib sampleWorld emptyBuffer).2.2 =
        ({ out := (emptyBuffer.out ++ utf8 (renderHeaders (ampEmail.expectedHeaders sampleLib
            (ampEmail.messageIDAt sampleWorld) (sampleWorld.dates.headD "")
            (sampleWorld.boundaries.headD ""))) ++
            ((ampEmail.bodyPart "text/x-amp-html" ampEmail.AMP).bytes sampleLib
                (sampleWorld.boundaries.headD "") true ++
              (ampEmail.bodyPart "text/html"
                (if ampEmail.HTML = "" then ampEmail.ampText sampleLib else ampEmail.HTML)).bytes
                sampleLib (sampleWorld.boundaries.headD "") false) ++
            utf8 ("\r\n--" ++ sampleWorld.boundaries.headD "" ++ "--\r\n")),
           fail := emptyBuffer.fail }, none) :=
  ⟨by decide,
    ((Write_amp_parts sampleLib { sampleEmail with AMP := "<html amp4email></html>" } sampleWorld
      emptyBuffer rfl (by decide)).1 (by decide)).trans (by decide),
    by decide,
    (Write_amp_parts sampleLib ampEmail sampleWorld emptyBuffer rfl (by decide)).2 (by decide)⟩

theorem Write_header_block_witness :
    emptyBuffer.fail = none ∧
      ∃ body, (Email.Write sampleLib
          { sampleEmail with Bcc := [{ Name := "C", Address := "c@z.org" }] } sampleWorld
          emptyBuffer).2.2.1.out =
        emptyBuffer.out ++ utf8 (renderHeaders (sampleEmail.expectedHeaders sampleLib
          (sampleEmail.messageIDAt sampleWorld) (sampleWorld.dates.headD "")
          (sampleWorld.boundaries.headD ""))) ++ body :=
  ⟨rfl, Write_header_block sampleLib sampleEmail sampleWorld emptyBuffer
    [{ Name := "C", Address := "c@z.org" }] rfl⟩

set_option maxRecDepth 512

/-! ## Addresses and header lists -/

theorem intercalate_go (sep : String) (l : List String) :
    ∀ acc : String, (String.intercalate.go acc sep l).data =
      acc.data ++ l.flatMap (fun a => sep.data ++ a.data) := by
  induction l with
  | nil => intro acc; simp [String.intercalate.go]
  | cons a rest ih =>
    intro acc
    simp [String.intercalate.go, ih, String.data_append, List.append_assoc]

theorem joinComma_cons (a : String) (rest : List String) :
    (joinComma (a :: rest)).data = a.data ++ rest.flatMap (fun b => ", ".data ++ b.data) := by
  induction rest generalizing a with
  | nil => simp [joinComma]
  | cons b rest ih =>
    simp only [joinComma, String.data_append, ih b]
    simp [List.append_assoc]

theorem joinComma_intercalate (l : List String) : joinComma l = ", ".intercalate l := by
  cases l with
  | nil => rfl
  | cons a rest =>
    apply String.ext
    rw [joinComma_cons]
    simp [String.intercalate, intercalate_go]

theorem escapeQuoted_flatMap (l : List Char) :
    escapeQuoted l =
      l.flatMap (fun b => if b = Char.ofNat 92 ∨ b = Char.ofNat 34 then [Char.ofNat 92, b] else [b]) := by
  induction l with
  | nil => rfl
  | cons b bs ih =>
    by_cases hb : b = Char.ofNat 92 ∨ b = Char.ofNat 34
    · simp [escapeQuoted, hb, ih]
    · simp [escapeQuoted, hb, ih]

theorem find_head_filter {α : Type} (p : α → Bool) (l : List α) :
    l.find? p = (l.filter p).head? := by
  induction l with
  | nil => rfl
  | cons x xs ih =>
    by_cases hx : p x = true
    · simp [List.find?, List.filter, hx]
    · have hf : p x = false := by simpa using hx
      simp only [List.find?, List.filter, hf]
      exact ih

/-- C27: `String` gives `Name <Address>` for an address with a name and the
bare address otherwise; `JoinAddresses` gives these texts with `, ` between
them and nothing before the first or after the last: the empty text for no
address, the text of the address for one. -/
theorem JoinAddresses_spec (ad : EmailAddress) (addrs : List EmailAddress) :
    (ad.Name ≠ "" → ad.toString = ad.Name ++ " <" ++ ad.Address ++ ">") ∧
      (ad.Name = "" → ad.toString = ad.Address) ∧
      JoinAddresses addrs = ", ".intercalate (addrs.map EmailAddress.toString) ∧
      JoinAddresses [] = "" ∧ JoinAddresses [ad] = ad.toString ∧
      (addrs ≠ [] → JoinAddresses (ad :: addrs) = ad.toString ++ ", " ++ JoinAddresses addrs) := by
  refine ⟨fun h => by simp [EmailAddress.toString, h], fun h => by simp [EmailAddress.toString, h],
    joinComma_intercalate _, rfl, rfl, ?_⟩
  intro h
  cases addrs with
  | nil => exact absurd rfl h
  | cons b rest => rfl

theorem JoinAddresses_spec_witness :
    ({ Name := "Jack Sender", Address := "sender@gmail.com" } : EmailAddress).toString =
        "Jack Sender <sender@gmail.com>" ∧
      ({ Name := "", Address := "b@y.org" } : EmailAddress).toString = "b@y.org" ∧
      JoinAddresses [{ Name := "Jack Sender", Address := "sender@gmail.com" },
          { Name := "", Address := "b@y.org" }] =
        "Jack Sender <sender@gmail.com>, b@y.org" :=
  ⟨(JoinAddresses_spec { Name := "Jack Sender", Address := "sender@gmail.com" } []).1 (by decide),
    (JoinAddresses_spec { Name := "", Address := "b@y.org" } []).2.1 rfl,
    ((JoinAddresses_spec { Name := "Jack Sender", Address := "sender@gmail.com" }
      [{ Name := "", Address := "b@y.org" }]).2.2.2.2.2 (by decide)).trans (by decide)⟩

/-- C26: `FormatAddress` gives the bare address when the name is empty; the
name between double quotes, a backslash put before every backslash and double
quote, then ` <address>`, when the Q-encoder leaves the name as it is; and
otherwise the encoder's words for the name in the charset, without quotes, then
` <address>`. The result depends on the name, the address and the charset
only. -/
theorem FormatAddress_spec (L : Lib) (ad : EmailAddress) (charset : String) :
    (ad.Name = "" → ad.FormatAddress L charset = ad.Address) ∧
      (ad.Name ≠ "" → L.qEncode charset ad.Name = ad.Name →
        ad.FormatAddress L charset =
          dquote ++ String.mk (ad.Name.data.flatMap (fun b =>
            if b = Char.ofNat 92 ∨ b = Char.ofNat 34 then [Char.ofNat 92, b] else [b])) ++
            dquote ++ " <" ++ ad.Address ++ ">") ∧
      (ad.Name ≠ "" → L.qEncode charset ad.Name ≠ ad.Name →
        ad.FormatAddress L charset = L.qEncode charset ad.Name ++ " <" ++ ad.Address ++ ">") ∧
      (∀ ad2 : EmailAddress, ad2.Name = ad.Name → ad2.Address = ad.Address →
        ad2.FormatAddress L charset = ad.FormatAddress L charset) := by
  refine ⟨fun h => by simp [EmailAddress.FormatAddress, h],
    fun h he => by simp [EmailAddress.FormatAddress, h, he, escapeQuoted_flatMap],
    fun h he => by simp [EmailAddress.FormatAddress, h, he], ?_⟩
  intro ad2 h1 h2
  unfold EmailAddress.FormatAddress
  rw [h1, h2]

/-- C29: `Add` and `AddHeaders` keep the headers there are, in place, and put
the new ones after them in their order, whatever their names; `GetHeaders`
gives the headers whose name is the given one up to letter case, in the order
of the list; `GetHeader` gives the first of them, or nothing when there is
none. -/
theorem Headers_list_spec (L : Lib) (h hs : Mandala.Headers) (name value : String)
    (encoded : Bool) (query : String) :
    Headers.Add h name value encoded = h ++ [{ Name := name, Value := value, Encoded := encoded }] ∧
      Headers.AddHeaders h hs = h ++ hs ∧
      Headers.GetHeaders L h query =
        h.filter (fun x => decide (ToLower L x.Name = ToLower L query)) ∧
      Headers.GetHeaders L (Headers.AddHeaders h hs) query =
        Headers.GetHeaders L h query ++ Headers.GetHeaders L hs query ∧
      Headers.GetHeader L h query = (Headers.GetHeaders L h query).head? := by
  refine ⟨rfl, rfl, ?_, ?_, ?_⟩
  · unfold Headers.GetHeaders
    congr 1
  · simp [Headers.GetHeaders, Headers.AddHeaders]
  · unfold Headers.GetHeader Headers.GetHeaders
    exact find_head_filter _ _

theorem FormatAddress_spec_witness :
    ({ Name := "", Address := "test@test.com" } : EmailAddress).FormatAddress wordLib "utf-8" =
        "test@test.com" ∧
      ({ Name := "Jack \"J\" Sender", Address := "sender@gmail.com" } :
          EmailAddress).FormatAddress wordLib "utf-8" =
        "\"Jack \\\"J\\\" Sender\" <sender@gmail.com>" ∧
      ({ Name := "快乐的时光 Chao Lee", Address := "chao.lee@baidu.com" } :
          EmailAddress).FormatAddress wordLib "utf-8" =
        "=?utf-8?q?=E5=BF=AB=E4=B9=90=E7=9A=84=E6=97=B6=E5=85=89_Chao_Lee?= <chao.lee@baidu.com>" :=
  ⟨(FormatAddress_spec wordLib { Name := "", Address := "test@test.com" } "utf-8").1 rfl,
    ((FormatAddress_spec wordLib { Name := "Jack \"J\" Sender", Address := "sender@gmail.com" }
      "utf-8").2.1 (by decide) (by decide)).trans (by decide),
    ((FormatAddress_spec wordLib { Name := "快乐的时光 Chao Lee", Address := "chao.lee@baidu.com" }
      "utf-8").2.2.1 (by decide) (by decide)).trans (by decide)⟩

/-- C28: written to a writer that accepts it, a header list gives one line
`Name: V` ended by CRLF for each header, in the order of the list, then one
more CRLF; `V` is what the Q-encoder gives for the value in the charset when
the header is flagged as encoded, and the value itself otherwise. The words of
the encoder are written as it gives them, on the one line: a flagged value the
encoder leaves as it is stands unchanged. -/
theorem Headers_Write_spec (L : Lib) (hs : Mandala.Headers) (charset : String) (w : Writer)
    (hw : w.fail = none) :
    Headers.Write L hs w charset =
        ({ w with out := w.out ++ utf8 (renderHeaders (hs.map (fun h =>
          (h.Name, if h.Encoded = true then L.qEncode charset h.Value else h.Value)))) },
          none) ∧
      ((∀ h ∈ hs, h.Encoded = true → L.qEncode charset h.Value = h.Value) →
        Headers.Write L hs w charset =
          ({ w with out := w.out ++ utf8 (renderHeaders (hs.map (fun h => (h.Name, h.Value)))) },
            none)) := by
  refine ⟨Headers_Write_ok L charset hs w hw, fun h => ?_⟩
  rw [Headers_Write_ok L charset hs w hw]
  have : hs.map (fun h => (h.Name, if h.Encoded = true then L.qEncode charset h.Value
      else h.Value)) = hs.map (fun h => (h.Name, h.Value)) := by
    apply List.map_congr_left
    intro x hx
    by_cases he : x.Encoded = true
    · simp [he, h x hx he]
    · simp [he]
  rw [this]

theorem Headers_Write_spec_witness :
    emptyBuffer.fail = none ∧
      Headers.Write wordLib [{ Name := "Content-Type", Value := "text/html", Encoded := true }]
          emptyBuffer "UTF-8" =
        ({ out := utf8 "Content-Type: text/html\r\n\r\n", fail := none }, none) ∧
      Headers.Write wordLib [{ Name := "X-Very-Long", Value := "ùaaaaaaaaaaaaaaaaaaaaaaaaaaaaaaddddddddddddddddddddddddddddddddddddffffff ffffffffffffffffffffffffffffffffffff", Encoded := true }]
          emptyBuffer "UTF-8" =
        ({ out := utf8 "X-Very-Long: =?UTF-8?q?=C3=B9aaaaaaaaaaaaaaaaaaaaaaaaaaaaaaddddddddddddddddddddddddddd?= =?UTF-8?q?dddddddddffffff_ffffffffffffffffffffffffffffffffffff?=\r\n\r\n",
           fail := none }, none) :=
  ⟨rfl,
    ((Headers_Write_spec wordLib [{ Name := "Content-Type", Value := "text/html", Encoded := true }]
      "UTF-8" emptyBuffer rfl).2 (by decide)).trans (by decide),
    ((Headers_Write_spec wordLib [{ Name := "X-Very-Long", Value := "ùaaaaaaaaaaaaaaaaaaaaaaaaaaaaaaddddddddddddddddddddddddddddddddddddffffff ffffffffffffffffffffffffffffffffffff", Encoded := true }]
      "UTF-8" emptyBuffer rfl).1).trans (by decide)⟩

/-! ## Parts -/

theorem canonical_keys :
    canonicalKey "Content-Type" = "Content-Type" ∧
      canonicalKey "Content-Disposition" = "Content-Disposition" ∧
      canonicalKey "Content-Transfer-Encoding" = "Content-Transfer-Encoding" ∧
      canonicalKey "Content-ID" = "Content-Id" := by
  decide

/-- The header block `WriteMultipart` hands to `CreatePart`, as it is printed. -/
theorem part_headerLines (L : Lib) (a : Part) :
    headerLines (sortByKey
      (let headers : MIMEHeader := []
       let headers :=
         if a.Filename ≠ "" then headers.Add "Content-Type" (a.ContentType ++ "; name=" ++ a.Filename)
         else headers.Add "Content-Type" a.ContentType
       let headers :=
         if a.CharSet ≠ "" then
           headers.Set "Content-Type"
             (headers.Get "Content-Type" ++ "; charset=" ++ dquote ++ a.CharSet ++ dquote)
         else headers
       let headers :=
         if a.ContentDisposition ≠ "" then
           headers.Add "Content-Disposition"
             (a.ContentDisposition ++ "; filename=" ++ a.Filename ++ "; size=" ++
               toString a.Body.length)
         else headers
       let headers := headers.Add "Content-Transfer-Encoding" (a.contentType L)
       if a.ContentID ≠ "" then headers.Add "Content-ID" ("<" ++ a.ContentID ++ ">")
       else headers)) ++ "\r\n" =
      renderHeaders (a.expectedHeaders L) := by
  obtain ⟨k1, k2, k3, k4⟩ := canonical_keys
  by_cases h1 : a.Filename = "" <;> by_cases h2 : a.CharSet = "" <;>
    by_cases h3 : a.ContentDisposition = "" <;> by_cases h4 : a.ContentID = "" <;>
    simp [h1, h2, h3, h4, MIMEHeader.Add, MIMEHeader.Set, MIMEHeader.Get, k1, k2, k3, k4,
      sortByKey, insertByKey, headerLines, Part.expectedHeaders, renderHeaders,
      String.append_assoc]

theorem Part_bytes_eq (L : Lib) (a : Part) (boundary : String) (first : Bool) :
    a.bytes L boundary first =
      utf8 ((if first = true then "--" else "\r\n--") ++ boundary ++ "\r\n" ++
        renderHeaders (a.expectedHeaders L)) ++
        encodedBody L (a.contentType L) a.Body ++ utf8 "\r\n" := by
  have hl := part_headerLines L a
  simp only at hl
  unfold Part.bytes Part.WriteMultipart MPWriter.CreatePart WriteEncodedBody encodedBody
  simp only [Writer.Write]
  rw [← hl]
  cases first <;> simp [utf8_append, String.append_assoc]

/-! ## Base64 -/

theorem b64Value_b64Char (n : Nat) (h : n < 64) : b64Value (b64Char n) = some n := by
  interval_cases n <;> decide

theorem b64Char_ne_pad (n : Nat) (h : n < 64) : b64Char n ≠ '=' := by
  interval_cases n <;> decide

theorem ofNat_toNat (x : UInt8) : UInt8.ofNat x.toNat = x := by
  obtain ⟨⟨n, hn⟩⟩ := x
  show UInt8.ofNat n = _
  unfold UInt8.ofNat
  congr 1
  apply BitVec.eq_of_toNat_eq
  simp [BitVec.toNat_ofNat, Nat.mod_eq_of_lt hn]

theorem toNat_lt_256 (x : UInt8) : x.toNat < 256 := by
  obtain ⟨⟨n, hn⟩⟩ := x
  exact hn

theorem b64_roundtrip : ∀ body : List UInt8, b64DecodeStd (b64Encode body) = some body
  | [] => rfl
  | [a] => by
    have ha := toNat_lt_256 a
    have h1 : a.toNat * 65536 / 262144 < 64 := by omega
    have h2 : a.toNat * 65536 / 4096 % 64 < 64 := by omega
    have e : (a.toNat * 65536 / 262144 * 262144 + a.toNat * 65536 / 4096 % 64 * 4096) / 65536 =
        a.toNat := by omega
    simp [b64Encode, b64DecodeStd, b64Value_b64Char _ h1, b64Value_b64Char _ h2, e, ofNat_toNat]
  | [a, b] => by
    have ha := toNat_lt_256 a
    have hb := toNat_lt_256 b
    have h1 : (a.toNat * 65536 + b.toNat * 256) / 262144 < 64 := by omega
    have h2 : (a.toNat * 65536 + b.toNat * 256) / 4096 % 64 < 64 := by omega
    have h3 : (a.toNat * 65536 + b.toNat * 256) / 64 % 64 < 64 := by omega
    have e1 : ((a.toNat * 65536 + b.toNat * 256) / 262144 * 262144 +
        (a.toNat * 65536 + b.toNat * 256) / 4096 % 64 * 4096 +
        (a.toNat * 65536 + b.toNat * 256) / 64 % 64 * 64) / 65536 = a.toNat := by omega
    have e2 : ((a.toNat * 65536 + b.toNat * 256) / 262144 * 262144 +
        (a.toNat * 65536 + b.toNat * 256) / 4096 % 64 * 4096 +
        (a.toNat * 65536 + b.toNat * 256) / 64 % 64 * 64) / 256 % 256 = b.toNat := by omega
    simp [b64Encode, b64DecodeStd, b64Value_b64Char _ h1, b64Value_b64Char _ h2,
      b64Value_b64Char _ h3, b64Char_ne_pad _ h3, e1, e2, ofNat_toNat]
  | a :: b :: c :: rest => by
    have ih := b64_roundtrip rest
    have ha := toNat_lt_256 a
    have hb := toNat_lt_256 b
    have hc := toNat_lt_256 c
    have h1 : (a.toNat * 65536 + b.toNat * 256 + c.toNat) / 262144 < 64 := by omega
    have h2 : (a.toNat * 65536 + b.toNat * 256 + c.toNat) / 4096 % 64 < 64 := by omega
    have h3 : (a.toNat * 65536 + b.toNat * 256 + c.toNat) / 64 % 64 < 64 := by omega
    have h4 : (a.toNat * 65536 + b.toNat * 256 + c.toNat) % 64 < 64 := by omega
    have e1 : ((a.toNat * 65536 + b.toNat * 256 + c.toNat) / 262144 * 262144 +
        (a.toNat * 65536 + b.toNat * 256 + c.toNat) / 4096 % 64 * 4096 +
        (a.toNat * 65536 + b.toNat * 256 + c.toNat) / 64 % 64 * 64 +
        (a.toNat * 65536 + b.toNat * 256 + c.toNat) % 64) / 65536 = a.toNat := by omega
    have e2 : ((a.toNat * 65536 + b.toNat * 256 + c.toNat) / 262144 * 262144 +
        (a.toNat * 65536 + b.toNat * 256 + c.toNat) / 4096 % 64 * 4096 +
        (a.toNat * 65536 + b.toNat * 256 + c.toNat) / 64 % 64 * 64 +
        (a.toNat * 65536 + b.toNat * 256 + c.toNat) % 64) / 256 % 256 = b.toNat := by omega
    have e3 : ((a.toNat * 65536 + b.toNat * 256 + c.toNat) / 262144 * 262144 +
        (a.toNat * 65536 + b.toNat * 256 + c.toNat) / 4096 % 64 * 4096 +
        (a.toNat * 65536 + b.toNat * 256 + c.toNat) / 64 % 64 * 64 +
        (a.toNat * 65536 + b.toNat * 256 + c.toNat) % 64) % 256 = c.toNat := by omega
    simp [b64Encode, b64DecodeStd, b64Value_b64Char _ h1, b64Value_b64Char _ h2,
      b64Value_b64Char _ h3, b64Value_b64Char _ h4, b64Char_ne_pad _ h3, b64Char_ne_pad _ h4,
      e1, e2, e3, ofNat_toNat, ih]

theorem b64Encode_length : ∀ body : List UInt8,
    (b64Encode body).length = 4 * ((body.length + 2) / 3)
  | [] => rfl
  | [_] => by simp [b64Encode]
  | [_, _] => by simp [b64Encode]
  | _ :: _ :: _ :: rest => by
    have ih := b64Encode_length rest
    simp only [b64Encode, List.length_append, List.length_cons, List.length_nil, ih]
    omega

theorem ToLower_names (L : Lib) :
    ToLower L "base64" = "base64" ∧ ToLower L "8bit" = "8bit" ∧
      ToLower L "quoted-printable" = "quoted-printable" := by
  refine ⟨?_, ?_, ?_⟩ <;>
  · unfold ToLower
    rw [if_pos (by decide)]
    decide

theorem WriteMultipart_out (L : Lib) (a : Part) (mp : MPWriter) (w : Writer)
    (hw : w.fail = none) :
    (a.WriteMultipart L mp w).2.2 =
      ({ w with out := w.out ++
          (utf8 ((if mp.lastpart = true then "\r\n--" else "--") ++ mp.boundary ++ "\r\n" ++
            renderHeaders (a.expectedHeaders L)) ++
          encodedBody L (a.contentType L) a.Body ++ utf8 "\r\n") }, none) := by
  rw [WriteMultipart_ok L a mp w hw, Part_bytes_eq]
  cases mp.lastpart <;> simp

/-- C23: the encoding a part is written with is `base64` when its `Encoding`
is `base64` up to letter case, `8bit` when it is `8bit` up to letter case, and
`quoted-printable` for any other value, the empty one included. Written to a
writer that accepts it, the part carries that name in its
Content-Transfer-Encoding header, the one header of that name, and its body
transformed for that same name. Normalising a normalised encoding gives it
back. -/
theorem contentType_spec (L : Lib) (a : Part) (mp : MPWriter) (w : Writer)
    (hw : w.fail = none) :
    (ToLower L a.Encoding = "base64" → a.contentType L = "base64") ∧
      (ToLower L a.Encoding = "8bit" → a.contentType L = "8bit") ∧
      (ToLower L a.Encoding ≠ "base64" → ToLower L a.Encoding ≠ "8bit" →
        a.contentType L = "quoted-printable") ∧
      Part.contentType L { a with Encoding := a.contentType L } = a.contentType L ∧
      (a.WriteMultipart L mp w).2.2 =
        ({ w with out := w.out ++
            (utf8 ((if mp.lastpart = true then "\r\n--" else "--") ++ mp.boundary ++ "\r\n" ++
              renderHeaders (a.expectedHeaders L)) ++
            encodedBody L (a.contentType L) a.Body ++ utf8 "\r\n") }, none) ∧
      (∀ v, ("Content-Transfer-Encoding", v) ∈ a.expectedHeaders L ↔ v = a.contentType L) := by
  obtain ⟨l1, l2, l3⟩ := ToLower_names L
  refine ⟨fun h => by simp [Part.contentType, h], fun h => ?_,
    fun h1 h2 => by simp [Part.contentType, h1, h2], ?_, WriteMultipart_out L a mp w hw, ?_⟩
  · have : ("8bit" : String) ≠ "base64" := by decide
    simp [Part.contentType, h, this]
  · unfold Part.contentType
    by_cases h1 : ToLower L a.Encoding = "base64"
    · simp [h1, l1]
    · by_cases h2 : ToLower L a.Encoding = "8bit"
      · have : ("8bit" : String) ≠ "base64" := by decide
        simp [h1, h2, l2, this]
      · have e1 : ("quoted-printable" : String) ≠ "base64" := by decide
        have e2 : ("quoted-printable" : String) ≠ "8bit" := by decide
        simp [h1, h2, l3, e1, e2]
  · intro v
    unfold Part.expectedHeaders
    by_cases h3 : a.ContentDisposition = "" <;> by_cases h4 : a.ContentID = "" <;>
      simp [h3, h4, eq_comm]

set_option maxRecDepth 20000 in
theorem contentType_spec_witness :
    emptyBuffer.fail = none ∧
      Part.contentType sampleLib
        { Filename := "", ContentType := "text/plain", ContentDisposition := "",
          Encoding := "BASE64", CharSet := "", ContentID := "", Body := utf8 "hi" } = "base64" ∧
      Part.contentType sampleLib
        { Filename := "", ContentType := "text/plain", ContentDisposition := "",
          Encoding := "8Bit", CharSet := "", ContentID := "", Body := utf8 "hi" } = "8bit" ∧
      Part.contentType sampleLib
        { Filename := "", ContentType := "text/plain", ContentDisposition := "",
          Encoding := "", CharSet := "", ContentID := "", Body := utf8 "hi" } =
        "quoted-printable" ∧
      (Part.WriteMultipart sampleLib
        { Filename := "", ContentType := "text/plain", ContentDisposition := "",
          Encoding := "BASE64", CharSet := "", ContentID := "", Body := utf8 "hi" }
        { boundary := "B1", lastpart := false } emptyBuffer).2.2 =
        ({ out := utf8 ("--B1\r\nContent-Transfer-Encoding: base64\r\n" ++
            "Content-Type: text/plain\r\n\r\naGk=\r\n"), fail := none }, none) :=
  ⟨rfl,
    (contentType_spec sampleLib
      { Filename := "", ContentType := "text/plain", ContentDisposition := "",
        Encoding := "BASE64", CharSet := "", ContentID := "", Body := utf8 "hi" }
      { boundary := "B1", lastpart := false } emptyBuffer rfl).1 (by decide),
    (contentType_spec sampleLib
      { Filename := "", ContentType := "text/plain", ContentDisposition := "",
        Encoding := "8Bit", CharSet := "", ContentID := "", Body := utf8 "hi" }
      { boundary := "B1", lastpart := false } emptyBuffer rfl).2.1 (by decide),
    (contentType_spec sampleLib
      { Filename := "", ContentType := "text/plain", ContentDisposition := "",
        Encoding := "", CharSet := "", ContentID := "", Body := utf8 "hi" }
      { boundary := "B1", lastpart := false } emptyBuffer rfl).2.2.1 (by decide) (by decide),
    ((contentType_spec sampleLib
      { Filename := "", ContentType := "text/plain", ContentDisposition := "",
        Encoding := "BASE64", CharSet := "", ContentID := "", Body := utf8 "hi" }
      { boundary := "B1", lastpart := false } emptyBuffer rfl).2.2.2.2.1).trans (by decide)⟩

theorem b64Char_mem (n : Nat) (h : n < 64) : b64Char n ∈ b64Alphabet := by
  interval_cases n <;> decide

theorem b64Encode_alphabet : ∀ (body : List UInt8), ∀ c ∈ b64Encode body,
    c ∈ b64Alphabet ∨ c = '='
  | [] => by simp [b64Encode]
  | [a] => by
    have ha := toNat_lt_256 a
    intro c hc
    simp only [b64Encode, List.mem_cons, List.mem_singleton, List.not_mem_nil, or_false] at hc
    rcases hc with rfl | rfl | rfl | rfl
    · exact Or.inl (b64Char_mem _ (by omega))
    · exact Or.inl (b64Char_mem _ (by omega))
    · exact Or.inr rfl
    · exact Or.inr rfl
  | [a, b] => by
    have ha := toNat_lt_256 a
    have hb := toNat_lt_256 b
    intro c hc
    simp only [b64Encode, List.mem_cons, List.mem_singleton, List.not_mem_nil, or_false] at hc
    rcases hc with rfl | rfl | rfl | rfl
    · exact Or.inl (b64Char_mem _ (by omega))
    · exact Or.inl (b64Char_mem _ (by omega))
    · exact Or.inl (b64Char_mem _ (by omega))
    · exact Or.inr rfl
  | a :: b :: c0 :: rest => by
    have ih := b64Encode_alphabet rest
    have ha := toNat_lt_256 a
    have hb := toNat_lt_256 b
    have hc0 := toNat_lt_256 c0
    intro c hc
    simp only [b64Encode, List.mem_cons, List.mem_append, List.not_mem_nil, or_false] at hc
    rcases hc with (rfl | rfl | rfl | rfl) | hc
    · exact Or.inl (b64Char_mem _ (by omega))
    · exact Or.inl (b64Char_mem _ (by omega))
    · exact Or.inl (b64Char_mem _ (by omega))
    · exact Or.inl (b64Char_mem _ (by omega))
    · exact ih c hc

theorem WriteEncodedBody_out (L : Lib) (w : Writer) (body : List UInt8) (encoding : String)
    (hw : w.fail = none) :
    WriteEncodedBody L w body encoding =
      ({ w with out := w.out ++ encodedBody L encoding body ++ utf8 "\r\n" }, none) := by
  unfold WriteEncodedBody encodedBody
  simp [Writer.Write, hw]

/-- C25: written to a writer that accepts it, a body is followed by one CRLF
and is itself transformed by the encoding name: for `base64` it is the padded
base64 text in the standard alphabet, four characters for every three bytes,
which decodes to the body again; for `8bit` it is the body; for any other name
it is the quoted-printable form. -/
theorem WriteEncodedBody_spec (L : Lib) (w : Writer) (body : List UInt8) (encoding : String)
    (hw : w.fail = none) :
    WriteEncodedBody L w body encoding =
        ({ w with out := w.out ++ encodedBody L encoding body ++ [13, 10] }, none) ∧
      encodedBody L "base64" body = utf8 (String.mk (b64Encode body)) ∧
      encodedBody L "8bit" body = body ∧
      (encoding ≠ "base64" → encoding ≠ "8bit" → encodedBody L encoding body = L.qpEncode body) ∧
      b64DecodeStd (b64Encode body) = some body ∧
      (b64Encode body).length = 4 * ((body.length + 2) / 3) ∧
      (∀ c ∈ b64Encode body, c ∈ b64Alphabet ∨ c = '=') := by
  have hcrlf : utf8 "\r\n" = [13, 10] := by decide
  refine ⟨by rw [WriteEncodedBody_out L w body encoding hw, hcrlf], by simp [encodedBody], ?_,
    fun h1 h2 => by simp [encodedBody, h1, h2], b64_roundtrip body, b64Encode_length body,
    b64Encode_alphabet body⟩
  have : ("8bit" : String) ≠ "base64" := by decide
  simp [encodedBody, this]

set_option maxRecDepth 20000 in
theorem WriteEncodedBody_spec_witness :
    emptyBuffer.fail = none ∧
      WriteEncodedBody sampleLib emptyBuffer (utf8 "Hello world files!") "base64" =
        ({ out := utf8 "SGVsbG8gd29ybGQgZmlsZXMh\r\n", fail := none }, none) ∧
      WriteEncodedBody sampleLib emptyBuffer (utf8 "09091234567890987654334567890") "base64" =
        ({ out := utf8 "MDkwOTEyMzQ1Njc4OTA5ODc2NTQzMzQ1Njc4OTA=\r\n", fail := none }, none) ∧
      encodedBody sampleLib "quoted-printable" (utf8 "hi") = sampleLib.qpEncode (utf8 "hi") :=
  ⟨rfl,
    ((WriteEncodedBody_spec sampleLib emptyBuffer (utf8 "Hello world files!") "base64" rfl).1).trans
      (by decide),
    ((WriteEncodedBody_spec sampleLib emptyBuffer (utf8 "09091234567890987654334567890")
      "base64" rfl).1).trans (by decide),
    (WriteEncodedBody_spec sampleLib emptyBuffer (utf8 "hi") "quoted-printable" rfl).2.2.2.1
      (by decide) (by decide)⟩

/-- C24: written to a writer that accepts it, a part is its boundary line, its
header block and its encoded body. The block has one Content-Type header: the
`ContentType`, then `; name=` and the file name when there is one, then
`; charset=` and the quoted charset when there is one. It has a
Content-Disposition header, `disposition; filename=<Filename>; size=<n>` with
`n` the number of bytes of the body before encoding, exactly when a
disposition is set, and a Content-Id header `<ContentID>` exactly when an
identifier is set. -/
theorem WriteMultipart_headers (L : Lib) (a : Part) (mp : MPWriter) (w : Writer)
    (hw : w.fail = none) :
    (a.WriteMultipart L mp w).2.2 =
        ({ w with out := w.out ++
            (utf8 ((if mp.lastpart = true then "\r\n--" else "--") ++ mp.boundary ++ "\r\n" ++
              renderHeaders (a.expectedHeaders L)) ++
            encodedBody L (a.contentType L) a.Body ++ utf8 "\r\n") }, none) ∧
      (∀ v, ("Content-Type", v) ∈ a.expectedHeaders L ↔
        v = a.ContentType ++ (if a.Filename ≠ "" then "; name=" ++ a.Filename else "") ++
          (if a.CharSet ≠ "" then "; charset=" ++ dquote ++ a.CharSet ++ dquote else "")) ∧
      (∀ v, ("Content-Disposition", v) ∈ a.expectedHeaders L ↔
        a.ContentDisposition ≠ "" ∧
          v = a.ContentDisposition ++ "; filename=" ++ a.Filename ++ "; size=" ++
            toString a.Body.length) ∧
      (∀ v, ("Content-Id", v) ∈ a.expectedHeaders L ↔
        a.ContentID ≠ "" ∧ v = "<" ++ a.ContentID ++ ">") := by
  refine ⟨WriteMultipart_out L a mp w hw, ?_, ?_, ?_⟩ <;>
  · intro v
    unfold Part.expectedHeaders
    by_cases h3 : a.ContentDisposition = "" <;> by_cases h4 : a.ContentID = "" <;>
      simp [h3, h4, eq_comm]

set_option maxRecDepth 20000 in
theorem WriteMultipart_headers_witness :
    emptyBuffer.fail = none ∧
      (Part.WriteMultipart sampleLib
        { Filename := "testo.txt", ContentType := "text/plain", ContentDisposition := "attachment",
          Encoding := "base64", CharSet := "", ContentID := "",
          Body := utf8 "Hello world files!" }
        { boundary := "B1", lastpart := true } emptyBuffer).2.2 =
        ({ out := utf8 ("\r\n--B1\r\n" ++
            "Content-Disposition: attachment; filename=testo.txt; size=18\r\n" ++
            "Content-Transfer-Encoding: base64\r\n" ++
            "Content-Type: text/plain; name=testo.txt\r\n\r\n" ++
            "SGVsbG8gd29ybGQgZmlsZXMh\r\n"), fail := none }, none) ∧
      (Part.WriteMultipart sampleLib
        { Filename := "immagine.jpg", ContentType := "image/jpg", ContentDisposition := "",
          Encoding := "base64", CharSet := "utf-8", ContentID := "IMG001",
          Body := utf8 "0909" }
        { boundary := "B1", lastpart := true } emptyBuffer).2.2 =
        ({ out := utf8 ("\r\n--B1\r\n" ++
            "Content-Id: <IMG001>\r\n" ++
            "Content-Transfer-Encoding: base64\r\n" ++
            "Content-Type: image/jpg; name=immagine.jpg; charset=\"utf-8\"\r\n\r\n" ++
            "MDkwOQ==\r\n"), fail := none }, none) :=
  ⟨rfl,
    ((WriteMultipart_headers sampleLib
      { Filename := "testo.txt", ContentType := "text/plain", ContentDisposition := "attachment",
        Encoding := "base64", CharSet := "", ContentID := "", Body := utf8 "Hello world files!" }
      { boundary := "B1", lastpart := true } emptyBuffer rfl).1).trans (by decide),
    ((WriteMultipart_headers sampleLib
      { Filename := "immagine.jpg", ContentType := "image/jpg", ContentDisposition := "",
        Encoding := "base64", CharSet := "utf-8", ContentID := "IMG001", Body := utf8 "0909" }
      { boundary := "B1", lastpart := true } emptyBuffer rfl).1).trans (by decide)⟩

/-! ## The parts of a mixed message -/

theorem writeParts_ok (L : Lib) (boundary : String) (parts : List Part) :
    ∀ w : Writer, w.fail = none →
      writeParts L parts { boundary := boundary, lastpart := true } w =
        (parts.map (Part.normalised L), { boundary := boundary, lastpart := true },
          { w with out := w.out ++ parts.flatMap (fun a => a.bytes L boundary false) }, none) := by
  induction parts with
  | nil =>
    intro w hw
    simp [writeParts]
  | cons a rest ih =>
    intro w hw
    unfold writeParts
    rw [WriteMultipart_ok L a _ w hw]
    simp only
    rw [ih { w with out := w.out ++ a.bytes L boundary !true } hw]
    simp [Part.normalised, List.append_assoc]

theorem writeBody_ok (L : Lib) (e : Email) (W : World) (boundary : String) (w : Writer)
    (hw : w.fail = none) :
    e.writeBody L W { boundary := boundary, lastpart := false } w =
      ({ e with Text := e.mixedText L,
                HTML := if e.HTML = "" then e.mixedText L else e.HTML },
        { W with boundaries := W.boundaries.tail },
        { boundary := boundary, lastpart := true },
        { w with out := w.out ++
            (utf8 ("--" ++ boundary ++ "\r\n" ++ "Content-Type: multipart/alternative; boundary=" ++
              W.boundaries.headD "" ++ "\r\n" ++ "\r\n") ++
            ((e.bodyPart "text/plain" (e.mixedText L)).bytes L (W.boundaries.headD "") true ++
              (e.bodyPart "text/html"
                (if e.HTML = "" then e.mixedText L else e.HTML)).bytes L
                  (W.boundaries.headD "") false ++
              utf8 ("\r\n--" ++ W.boundaries.headD "" ++ "--\r\n"))) },
        none) := by
  unfold Email.writeBody
  have hN : NewWriter W = ({ boundary := W.boundaries.headD "", lastpart := false },
      { W with boundaries := W.boundaries.tail }) := rfl
  simp only [hN]
  have hlit : utf8 "Content-Type: multipart/alternative; boundary=" =
      utf8 "Content-Type: " ++ utf8 "multipart/alternative; boundary=" := by decide
  by_cases hT : e.Text = "" <;> by_cases hS : e.Sanitize = true <;> by_cases hH : e.HTML = "" <;>
    by_cases hX : L.sanitizeHTML e.HTML = "" <;>
    simp [MPWriter.CreatePart, MPWriter.Close, Writer.Write, hw, WriteMultipart_ok,
      Email.mixedText, Email.bodyPart, hT, hS, hH, hX, sortByKey, insertByKey, headerLines,
      utf8_append, List.append_assoc, hlit] <;>
    (cases e; simp_all)

theorem writeHeaders_boundaries (L : Lib) (e : Email) (W : World) (w : Writer)
    (boundary : String) :
    (e.writeHeaders L W w boundary).2.1.boundaries = W.boundaries := by
  unfold Email.writeHeaders
  by_cases hid : e.MessageID = ""
  · simp only [hid, if_true, World.nextNuid, World.nextDate]
  · simp only [hid, if_false, World.nextDate]

theorem Write_mixed (L : Lib) (e : Email) (W : World) (w : Writer) (hw : w.fail = none)
    (hm : e.IsMultiPart = true) (ha : e.AMP = "") :
    (e.Write L W w).1 =
        { e with MessageID := e.messageIDAt W, Text := e.mixedText L,
                 HTML := if e.HTML = "" then e.mixedText L else e.HTML,
                 Attachments := e.Attachments.map (Part.normalised L),
                 Images := e.Images.map (Part.normalised L) } ∧
      (e.Write L W w).2.2 =
        ({ w with out := (w.out ++ utf8 (renderHeaders (e.expectedHeaders L (e.messageIDAt W)
            (W.dates.headD "") (W.boundaries.headD ""))) ++
            (utf8 ("--" ++ W.boundaries.headD "" ++ "\r\n" ++
              "Content-Type: multipart/alternative; boundary=" ++
              W.boundaries.tail.headD "" ++ "\r\n" ++ "\r\n") ++
            ((e.bodyPart "text/plain" (e.mixedText L)).bytes L (W.boundaries.tail.headD "") true ++
              (e.bodyPart "text/html"
                (if e.HTML = "" then e.mixedText L else e.HTML)).bytes L
                  (W.boundaries.tail.headD "") false ++
              utf8 ("\r\n--" ++ W.boundaries.tail.headD "" ++ "--\r\n"))) ++
            e.Attachments.flatMap (fun a => a.bytes L (W.boundaries.headD "") false) ++
            e.Images.flatMap (fun a => a.bytes L (W.boundaries.headD "") false) ++
            utf8 ("\r\n--" ++ W.boundaries.headD "" ++ "--\r\n")) }, none) := by
  unfold Email.Write
  rw [if_pos hm, if_neg (by simp [ha])]
  have hN : NewWriter W = ({ boundary := W.boundaries.headD "", lastpart := false },
      { W with boundaries := W.boundaries.tail }) := rfl
  rw [hN]
  simp only
  obtain ⟨h1, h2⟩ := writeHeaders_ok L e { W with boundaries := W.boundaries.tail } w
    (W.boundaries.headD "") hw
  have h3 := writeHeaders_boundaries L e { W with boundaries := W.boundaries.tail } w
    (W.boundaries.headD "")
  rcases hwh : e.writeHeaders L { W with boundaries := W.boundaries.tail } w
    (W.boundaries.headD "") with ⟨e1, W1, w1, err1⟩
  rw [hwh] at h1 h2 h3
  simp only [Prod.mk.injEq] at h1 h2 h3
  obtain ⟨rfl, rfl⟩ := h2
  subst h1
  have hid : e.messageIDAt { W with boundaries := W.boundaries.tail } = e.messageIDAt W := rfl
  rw [hid]
  simp only
  simp only [writeBody_ok, writeParts_ok, Write_ok, hw, MPWriter.Close, h3]
  refine ⟨rfl, ?_⟩
  simp [Email.mixedText, Email.bodyPart, List.append_assoc]

/-- C21: written to a writer that accepts it, a multipart message without AMP
body is its header block (content type `multipart/mixed`), then, as the first
part of the container, one nested `multipart/alternative` container holding a
`text/plain` part and then a `text/html` part and closed by its own boundary,
then one part for each attachment in their order, then one part for each
embedded image in their order, then the closing boundary. Each attachment and
image is written once, at the top level, after the nested container. -/
theorem Write_mixed_parts (L : Lib) (e : Email) (W : World) (w : Writer) (hw : w.fail = none)
    (hm : e.IsMultiPart = true) (ha : e.AMP = "") :
    e.ContentType = "multipart/mixed" ∧
      (e.Write L W w).2.2 =
        ({ w with out := (w.out ++ utf8 (renderHeaders (e.expectedHeaders L (e.messageIDAt W)
            (W.dates.headD "") (W.boundaries.headD ""))) ++
            (utf8 ("--" ++ W.boundaries.headD "" ++ "\r\n" ++
              "Content-Type: multipart/alternative; boundary=" ++
              W.boundaries.tail.headD "" ++ "\r\n" ++ "\r\n") ++
            ((e.bodyPart "text/plain" (e.mixedText L)).bytes L (W.boundaries.tail.headD "") true ++
              (e.bodyPart "text/html"
                (if e.HTML = "" then e.mixedText L else e.HTML)).bytes L
                  (W.boundaries.tail.headD "") false ++
              utf8 ("\r\n--" ++ W.boundaries.tail.headD "" ++ "--\r\n"))) ++
            e.Attachments.flatMap (fun a => a.bytes L (W.boundaries.headD "") false) ++
            e.Images.flatMap (fun a => a.bytes L (W.boundaries.headD "") false) ++
            utf8 ("\r\n--" ++ W.boundaries.headD "" ++ "--\r\n")) }, none) := by
  refine ⟨?_, (Write_mixed L e W w hw hm ha).2⟩
  unfold Email.ContentType
  simp [hm, ha]

theorem Write_mixed_parts_witness :
    emptyBuffer.fail = none ∧ mixedEmail.IsMultiPart = true ∧ mixedEmail.AMP = "" ∧
      (mixedEmail.Write sampleLib sampleWorld emptyBuffer).2.2 =
        ({ out := utf8 ("Message-Id: <N1@x.org>\r\nFrom: \"A\" <a@x.org>\r\nTo: \"B\" <b@y.org>\r\n" ++
            "Subject: hi\r\nDate: D1\r\nMIME-Version: 1.0\r\n" ++
            "Content-Type: multipart/mixed; boundary=B1\r\n\r\n" ++
            "--B1\r\nContent-Type: multipart/alternative; boundary=B2\r\n\r\n" ++
            "--B2\r\nContent-Transfer-Encoding: 8bit\r\n" ++
            "Content-Type: text/plain; charset=\"utf-8\"\r\n\r\nhello\r\n" ++
            "\r\n--B2\r\nContent-Transfer-Encoding: 8bit\r\n" ++
            "Content-Type: text/html; charset=\"utf-8\"\r\n\r\n<p>hi</p>\r\n" ++
            "\r\n--B2--\r\n" ++
            "\r\n--B1\r\nContent-Disposition: attachment; filename=testo.txt; size=18\r\n" ++
            "Content-Transfer-Encoding: base64\r\n" ++
            "Content-Type: text/plain; name=testo.txt\r\n\r\nSGVsbG8gd29ybGQgZmlsZXMh\r\n" ++
            "\r\n--B1\r\nContent-Id: <IMG001>\r\nContent-Transfer-Encoding: base64\r\n" ++
            "Content-Type: image/jpg; name=immagine.jpg\r\n\r\nMDkwOQ==\r\n" ++
            "\r\n--B1--\r\n"),
           fail := none }, none) :=
  ⟨rfl, by decide, by decide,
    ((Write_mixed_parts sampleLib mixedEmail sampleWorld emptyBuffer rfl (by decide)
      (by decide)).2).trans (by decide!)⟩

/-! ## The turns of the authentication exchange -/

theorem authLoop_unfold (L : Lib) (a : Auth) (fuel : Nat) (c : Session) (code : Nat)
    (msg64 : String) (hf : c.Text.script.length < fuel) :
    Session.authLoop L a fuel c code msg64 =
      match (if code = 334 then L.b64Decode msg64
        else if code = 235 then Except.ok (utf8 msg64)
        else Except.error (Err.proto code msg64) : Except Err (List UInt8)) with
      | Except.error e => c.authAbort e
      | Except.ok msg =>
        match a.Next c.calls msg (decide (code = 334)) with
        | (_, some e) =>
          Session.authAbort
            { c with calls := c.calls ++ [AuthCall.next msg (decide (code = 334))] } e
        | (none, none) =>
          ({ c with calls := c.calls ++ [AuthCall.next msg (decide (code = 334))] }, none)
        | (some resp, none) =>
          match Session.cmd
            { c with calls := c.calls ++ [AuthCall.next msg (decide (code = 334))] } 0
            (String.mk (b64Encode resp)) with
          | (c, _, _, some e) => (c, some e)
          | (c, code, msg64, none) => Session.authLoop L a fuel c code msg64 := by
  cases fuel with
  | zero => omega
  | succ n =>
    conv_lhs => unfold Session.authLoop
    simp only
    split
    · rfl
    · rename_i msg hd
      rcases hn : a.Next c.calls msg (decide (code = 334)) with ⟨resp, err⟩
      cases err with
      | some e => cases resp <;> rfl
      | none =>
        cases resp with
        | none => rfl
        | some r =>
          simp only
          obtain ⟨t, code1, msg1, err1, hc, -, -, -, -, hok⟩ := cmd_spec
            { c with calls := c.calls ++ [AuthCall.next msg (decide (code = 334))] }
            0 (String.mk (b64Encode r))
          rw [hc]
          cases err1 with
          | some e => rfl
          | none =>
            simp only
            obtain ⟨hs, -⟩ := hok rfl
            simp only at hs
            have hl : t.script.length + 1 = c.Text.script.length := by
              rw [hs]
              simp
            exact authLoop_fuel L a n (n + 1) _ code1 msg1 (by simp only; omega)
              (by simp only; omega)

/-- C30 as stated fails: the server accepts the AUTH command with 235. A
mechanism that rejects the final text makes `Auth` send `*` and QUIT and fail;
a mechanism that answers the final text makes `Auth` send that answer as a
further line and go on (here into the end of the connection). -/
theorem Auth_after_235 :
    (Session.Auth sampleLib
        { freshSession [reply 250 "mx\nAUTH X", reply 235 "ok", reply 501 "cancelled",
            reply 221 "bye"] with a := some sampleStrict }).2 =
        some (Err.other "server not verified") ∧
      (Session.Auth sampleLib
        { freshSession [reply 250 "mx\nAUTH X", reply 235 "ok", reply 501 "cancelled",
            reply 221 "bye"] with a := some sampleStrict }).1.Text.trace =
        [Wire.cmd "EHLO localhost", Wire.cmd "AUTH X", Wire.cmd "*", Wire.cmd "QUIT"] ∧
      (Session.Auth sampleLib
        { freshSession [reply 250 "mx\nAUTH X", reply 235 "ok"] with
          a := some sampleChatty }).2 = some errEOF ∧
      (Session.Auth sampleLib
        { freshSession [reply 250 "mx\nAUTH X", reply 235 "ok"] with
          a := some sampleChatty }).1.Text.trace =
        [Wire.cmd "EHLO localhost", Wire.cmd "AUTH X", Wire.cmd "b2s="] := by
  decide

/-- C30 (amended): one turn of the authentication exchange, for the reply
`code`, `msg64` of the server to the line sent last. A code other than 334 and
235 aborts the exchange with a protocol error, and so does a 334 text that is
not base64. Otherwise `Next` is called, with the decoded text and `more = true`
for 334, with the text as it is and `more = false` for 235. An error of `Next`
aborts the exchange; no response and no error ends it with success and nothing
more is sent; a response is sent base64-encoded as a bare line, and the
exchange goes on with the reply to it, or ends with the transport error of that
line. An aborted exchange makes `Auth` fail with the error that caused it. -/
theorem authLoop_turn (L : Lib) (a : Auth) (fuel : Nat) (c : Session) (code : Nat)
    (msg64 : String) (hf : c.Text.script.length < fuel) :
    (code ≠ 334 → code ≠ 235 →
        Session.authLoop L a fuel c code msg64 = c.authAbort (Err.proto code msg64)) ∧
      (∀ e, code = 334 → L.b64Decode msg64 = Except.error e →
        Session.authLoop L a fuel c code msg64 = c.authAbort e) ∧
      (∀ m, (code = 334 ∧ L.b64Decode msg64 = Except.ok m) ∨ (code = 235 ∧ m = utf8 msg64) →
        (∀ r e, a.Next c.calls m (decide (code = 334)) = (r, some e) →
          Session.authLoop L a fuel c code msg64 =
            Session.authAbort
              { c with calls := c.calls ++ [AuthCall.next m (decide (code = 334))] } e) ∧
        (a.Next c.calls m (decide (code = 334)) = (none, none) →
          Session.authLoop L a fuel c code msg64 =
            ({ c with calls := c.calls ++ [AuthCall.next m (decide (code = 334))] }, none)) ∧
        (∀ r, a.Next c.calls m (decide (code = 334)) = (some r, none) →
          Session.authLoop L a fuel c code msg64 =
            match Session.cmd
              { c with calls := c.calls ++ [AuthCall.next m (decide (code = 334))] } 0
              (String.mk (b64Encode r)) with
            | (c2, _, _, some e) => (c2, some e)
            | (c2, code2, msg2, none) => Session.authLoop L a fuel c2 code2 msg2)) ∧
      (∀ (c0 : Session) (e : Err), (c0.authAbort e).2 = some e) := by
  have hu := authLoop_unfold L a fuel c code msg64 hf
  refine ⟨?_, ?_, ?_, authAbort_snd⟩
  · intro h1 h2
    rw [hu]
    simp [h1, h2]
  · intro e h1 h2
    rw [hu]
    simp [h1, h2]
  · intro m hm
    have hd : (if code = 334 then L.b64Decode msg64
        else if code = 235 then Except.ok (utf8 msg64)
        else Except.error (Err.proto code msg64) : Except Err (List UInt8)) = Except.ok m := by
      rcases hm with ⟨h1, h2⟩ | ⟨h1, h2⟩
      · simp [h1, h2]
      · simp [h1, h2]
    rw [hd] at hu
    simp only at hu
    refine ⟨fun r e hn => ?_, fun hn => ?_, fun r hn => ?_⟩
    · rw [hu, hn]
      cases r <;> rfl
    · rw [hu, hn]
    · rw [hu, hn]

theorem authLoop_turn_witness :
    Session.authLoop sampleLib samplePlain 1 (authSession []) 235 "ok" =
        ({ authSession [] with calls := [AuthCall.next (utf8 "ok") false] }, none) ∧
      Session.authLoop sampleLib samplePlain 1 (authSession []) 334 "" =
        Session.authAbort { authSession [] with calls := [AuthCall.next [] true] }
          (Err.other "unexpected server challenge") ∧
      Session.authLoop sampleLib samplePlain 1 (authSession []) 535 "no" =
        (authSession []).authAbort (Err.proto 535 "no") :=
  ⟨((authLoop_turn sampleLib samplePlain 1 (authSession []) 235 "ok" (by decide)).2.2.1
      (utf8 "ok") (Or.inr ⟨rfl, rfl⟩)).2.1 rfl,
    ((authLoop_turn sampleLib samplePlain 1 (authSession []) 334 "" (by decide)).2.2.1
      [] (Or.inl ⟨rfl, rfl⟩)).1 none (Err.other "unexpected server challenge") rfl,
    (authLoop_turn sampleLib samplePlain 1 (authSession []) 535 "no" (by decide)).1
      (by decide) (by decide)⟩

/-! ## What serialising a message changes in it -/

theorem writeHeaders_fst (L : Lib) (e : Email) (W : World) (w : Writer) (boundary : String) :
    (e.writeHeaders L W w boundary).1 = { e with MessageID := e.messageIDAt W } := by
  unfold Email.writeHeaders Email.messageIDAt
  by_cases hid : e.MessageID = ""
  · simp only [hid, if_true, World.nextNuid, World.nextDate]
  · simp only [hid, if_false, World.nextDate]

theorem writeParts_fst (L : Lib) (parts : List Part) :
    ∀ (mp : MPWriter) (w : Writer),
      List.Forall₂ (Touched L) parts (writeParts L parts mp w).1 ∧
        ((writeParts L parts mp w).2.2.2 = none →
          (writeParts L parts mp w).1 = parts.map (Part.normalised L)) := by
  induction parts with
  | nil =>
    intro mp w
    simp [writeParts]
  | cons a rest ih =>
    intro mp w
    unfold writeParts
    have ha : (a.WriteMultipart L mp w).1 = a.normalised L := by
      unfold Part.WriteMultipart
      simp only
      split <;> rfl
    rcases hc : a.WriteMultipart L mp w with ⟨a1, mp1, w1, err⟩
    rw [hc] at ha
    simp only at ha
    subst ha
    cases err with
    | some x =>
      simp only
      refine ⟨List.Forall₂.cons (Or.inr rfl) ?_, fun h => by simp at h⟩
      exact List.forall₂_same.mpr (fun x _ => Or.inl rfl)
    | none =>
      simp only
      obtain ⟨h1, h2⟩ := ih mp1 w1
      refine ⟨List.Forall₂.cons (Or.inr rfl) h1, fun h => ?_⟩
      simp only [List.map_cons]
      rw [h2 h]

theorem mixed_text_update (L : Lib) (e : Email) :
    (if e.Text = "" ∧ e.Sanitize = true then { e with Text := L.sanitizeHTML e.HTML } else e) =
      { e with Text := e.mixedText L } := by
  unfold Email.mixedText
  by_cases h : e.Text = "" ∧ e.Sanitize = true
  · simp only [h, and_self, if_true]
  · simp only [h, if_false]

theorem amp_text_update (L : Lib) (e : Email) :
    (if e.Text = "" ∧ e.Sanitize = true then
        if e.HTML ≠ "" then { e with Text := L.sanitizeHTML e.HTML } else e
      else e) = { e with Text := e.ampText L } := by
  unfold Email.ampText
  by_cases h : e.Text = "" ∧ e.Sanitize = true
  · by_cases h2 : e.HTML = ""
    · obtain ⟨h0, h1⟩ := h
      cases e
      simp_all
    · simp [h, h2]
  · have h3 : ¬ (e.Text = "" ∧ e.Sanitize = true ∧ e.HTML ≠ "") := fun x => h ⟨x.1, x.2.1⟩
    simp only [h, h3, if_false]

theorem html_update (e : Email) :
    (if e.HTML = "" then { e with HTML := e.Text } else e) =
      { e with HTML := if e.HTML = "" then e.Text else e.HTML } := by
  by_cases h : e.HTML = ""
  · simp only [h, if_true]
  · simp only [h, if_false]

theorem writeBody_fst (L : Lib) (e : Email) (W : World) (mp : MPWriter) (w : Writer) :
    ((e.writeBody L W mp w).1 = e ∨
        (e.writeBody L W mp w).1 = { e with Text := e.mixedText L } ∨
        (e.writeBody L W mp w).1 =
          { e with Text := e.mixedText L,
                   HTML := if e.HTML = "" then e.mixedText L else e.HTML }) ∧
      ((e.writeBody L W mp w).2.2.2.2 = none →
        (e.writeBody L W mp w).1 =
          { e with Text := e.mixedText L,
                   HTML := if e.HTML = "" then e.mixedText L else e.HTML }) := by
  unfold Email.writeBody
  simp only [mixed_text_update]
  rcases NewWriter W with ⟨alt, W1⟩
  simp only
  rcases mp.CreatePart w
    [("Content-Type", ["multipart/alternative; boundary=" ++ alt.boundary])] with ⟨mp1, w1, err⟩
  cases err with
  | some x => exact ⟨Or.inl rfl, fun h => by simp at h⟩
  | none =>
    simp only
    rcases (Email.bodyPart { e with Text := e.mixedText L } "text/plain"
      (e.mixedText L)).WriteMultipart L alt { out := [], fail := none } with ⟨p1, alt1, b1, err1⟩
    cases err1 with
    | some x => exact ⟨Or.inr (Or.inl rfl), fun h => by simp at h⟩
    | none =>
      simp only
      split
      · refine ⟨Or.inr (Or.inr ?_), fun _ => ?_⟩ <;> (by_cases hH : e.HTML = "" <;> simp [hH])
      · split
        · refine ⟨Or.inr (Or.inr ?_), fun _ => ?_⟩ <;> (by_cases hH : e.HTML = "" <;> simp [hH])
        · refine ⟨Or.inr (Or.inr ?_), fun _ => ?_⟩ <;> (by_cases hH : e.HTML = "" <;> simp [hH])

theorem writeAMPBody_fst (L : Lib) (e : Email) (mp : MPWriter) (w : Writer) :
    ((e.writeAMPBody L mp w).1 = { e with Text := e.ampText L } ∨
        (e.writeAMPBody L mp w).1 =
          { e with Text := e.ampText L,
                   HTML := if e.HTML = "" then e.ampText L else e.HTML }) ∧
      ((e.writeAMPBody L mp w).2.2.2 = none →
        (e.writeAMPBody L mp w).1 =
          { e with Text := e.ampText L,
                   HTML := if e.HTML = "" then e.ampText L else e.HTML }) := by
  unfold Email.writeAMPBody
  simp only [amp_text_update]
  generalize (if (Email.Text { e with Text := e.ampText L }) ≠ "" then
      match (Email.bodyPart { e with Text := e.ampText L } "text/plain"
        (Email.Text { e with Text := e.ampText L })).WriteMultipart L mp w with
      | (_, mp, w, err) => (mp, w, err)
    else (mp, w, none) : MPWriter × Writer × Option Err) = written
  rcases written with ⟨mp1, w1, err1⟩
  cases err1 with
  | some x => exact ⟨Or.inl rfl, fun h => by simp at h⟩
  | none =>
    simp only
    rcases (Email.bodyPart { e with Text := e.ampText L } "text/x-amp-html"
      e.AMP).WriteMultipart L mp1 w1 with ⟨p2, mp2, w2, err2⟩
    cases err2 with
    | some x => exact ⟨Or.inl rfl, fun h => by simp at h⟩
    | none =>
      simp only
      refine ⟨Or.inr ?_, fun _ => ?_⟩ <;> (by_cases hH : e.HTML = "" <;> simp [hH])

theorem mixedText_cases (L : Lib) (e : Email) :
    e.mixedText L = e.Text ∨
      (e.Text = "" ∧ e.Sanitize = true ∧ e.mixedText L = L.sanitizeHTML e.HTML) := by
  unfold Email.mixedText
  by_cases h : e.Text = "" ∧ e.Sanitize = true
  · exact Or.inr ⟨h.1, h.2, by simp [h]⟩
  · exact Or.inl (by simp only [h, if_false])

theorem ampText_cases (L : Lib) (e : Email) :
    e.ampText L = e.Text ∨
      (e.Text = "" ∧ e.Sanitize = true ∧ e.ampText L = L.sanitizeHTML e.HTML) := by
  unfold Email.ampText
  by_cases h : e.Text = "" ∧ e.Sanitize = true ∧ e.HTML ≠ ""
  · exact Or.inr ⟨h.1, h.2.1, by simp [h]⟩
  · exact Or.inl (by simp only [h, if_false])

theorem forall₂_touched_same (L : Lib) (parts : List Part) :
    List.Forall₂ (Touched L) parts parts :=
  List.forall₂_same.mpr (fun _ _ => Or.inl rfl)

/-- The message after `Write`, whatever the writer does: the identifier is
set, the text and the HTML body are as they were or filled in, and the parts
are as they were or normalised. -/
theorem Write_shape (L : Lib) (e : Email) (W : World) (w : Writer) :
    ∃ T H atts imgs,
      (e.Write L W w).1 =
        { e with MessageID := e.messageIDAt W, Text := T, HTML := H, Attachments := atts,
                 Images := imgs } ∧
      (T = e.Text ∨ (e.AMP ≠ "" ∧ T = e.ampText L) ∨ (e.AMP = "" ∧ e.IsMultiPart = true ∧ T = e.mixedText L)) ∧
      (H = e.HTML ∨ (e.HTML = "" ∧ e.IsMultiPart = true ∧ H = T)) ∧
      (atts = e.Attachments ∨ (e.AMP = "" ∧ e.IsMultiPart = true ∧ List.Forall₂ (Touched L) e.Attachments atts)) ∧
      (imgs = e.Images ∨ (e.AMP = "" ∧ e.IsMultiPart = true ∧ List.Forall₂ (Touched L) e.Images imgs)) := by
  have same : ∀ l : List Part, l = l ∨ (e.AMP = "" ∧ e.IsMultiPart = true ∧ List.Forall₂ (Touched L) l l) :=
    fun _ => Or.inl rfl
  unfold Email.Write
  by_cases hm : e.IsMultiPart = true
  case neg =>
    rw [if_neg hm]
    have h1 := writeHeaders_fst L e W w ""
    rcases hwh : e.writeHeaders L W w "" with ⟨e1, W1, w1, err1⟩
    rw [hwh] at h1
    simp only at h1
    subst h1
    refine ⟨e.Text, e.HTML, e.Attachments, e.Images, ?_, Or.inl rfl, Or.inl rfl, same _, same _⟩
    cases err1 <;> rfl
  case pos =>
    rw [if_pos hm]
    have hN : NewWriter W = ({ boundary := W.boundaries.headD "", lastpart := false },
        { W with boundaries := W.boundaries.tail }) := rfl
    have hid : e.messageIDAt { W with boundaries := W.boundaries.tail } = e.messageIDAt W := rfl
    rw [hN]
    simp only
    have h1 := writeHeaders_fst L e { W with boundaries := W.boundaries.tail } w
      (W.boundaries.headD "")
    rcases hwh : e.writeHeaders L { W with boundaries := W.boundaries.tail } w
      (W.boundaries.headD "") with ⟨e1, W1, w1, err1⟩
    rw [hwh, hid] at h1
    simp only at h1
    subst h1
    by_cases ha : e.AMP ≠ ""
    · rw [if_pos ha]
      cases err1 with
      | some x =>
        exact ⟨e.Text, e.HTML, e.Attachments, e.Images, rfl, Or.inl rfl, Or.inl rfl,
          same _, same _⟩
      | none =>
        simp only
        obtain ⟨hb, -⟩ := writeAMPBody_fst L { e with MessageID := e.messageIDAt W }
          { boundary := W.boundaries.headD "", lastpart := false } w1
        rcases hA : Email.writeAMPBody L { e with MessageID := e.messageIDAt W }
          { boundary := W.boundaries.headD "", lastpart := false } w1 with ⟨e2, mp2, w2, err2⟩
        rw [hA] at hb
        simp only at hb
        have hr : (match (e2, mp2, w2, err2) with
            | (e, _, w, some err) => (e, W1, w, some err)
            | (e, mpWriter, w, none) =>
              match mpWriter.Close w with
              | (_, w, err) => (e, W1, w, err)).1 = e2 := by
          cases err2 <;> rfl
        rw [hr]
        rcases hb with hb | hb
        · subst hb
          exact ⟨e.ampText L, e.HTML, e.Attachments, e.Images, rfl, Or.inr (Or.inl ⟨ha, rfl⟩), Or.inl rfl,
            same _, same _⟩
        · subst hb
          refine ⟨e.ampText L, if e.HTML = "" then e.ampText L else e.HTML, e.Attachments,
            e.Images, rfl, Or.inr (Or.inl ⟨ha, rfl⟩), ?_, same _, same _⟩
          by_cases hH : e.HTML = ""
          · exact Or.inr ⟨hH, hm, by simp [hH]⟩
          · exact Or.inl (by simp [hH])
    · rw [if_neg ha]
      have ha0 : e.AMP = "" := by
        by_cases h0 : e.AMP = ""
        · exact h0
        · exact absurd h0 ha
      cases err1 with
      | some x =>
        exact ⟨e.Text, e.HTML, e.Attachments, e.Images, rfl, Or.inl rfl, Or.inl rfl,
          same _, same _⟩
      | none =>
        simp only
        obtain ⟨hb, hbs⟩ := writeBody_fst L { e with MessageID := e.messageIDAt W } W1
          { boundary := W.boundaries.headD "", lastpart := false } w1
        rcases hA : Email.writeBody L { e with MessageID := e.messageIDAt W } W1
          { boundary := W.boundaries.headD "", lastpart := false } w1 with
          ⟨e2, W2, mp2, w2, err2⟩
        rw [hA] at hb hbs
        simp only at hb hbs
        have hHc : (if e.HTML = "" then e.mixedText L else e.HTML) = e.HTML ∨
            (e.HTML = "" ∧ e.IsMultiPart = true ∧
              (if e.HTML = "" then e.mixedText L else e.HTML) = e.mixedText L) := by
          by_cases hH : e.HTML = ""
          · exact Or.inr ⟨hH, hm, by simp [hH]⟩
          · exact Or.inl (by simp [hH])
        cases err2 with
        | some x =>
          simp only
          rcases hb with hb | hb | hb
          · subst hb
            exact ⟨e.Text, e.HTML, e.Attachments, e.Images, rfl, Or.inl rfl, Or.inl rfl,
              same _, same _⟩
          · subst hb
            exact ⟨e.mixedText L, e.HTML, e.Attachments, e.Images, rfl,
              Or.inr (Or.inr ⟨ha0, hm, rfl⟩),
              Or.inl rfl, same _, same _⟩
          · subst hb
            exact ⟨e.mixedText L, _, e.Attachments, e.Images, rfl,
              Or.inr (Or.inr ⟨ha0, hm, rfl⟩), hHc,
              same _, same _⟩
        | none =>
          have hb2 := hbs rfl
          subst hb2
          simp only
          obtain ⟨hp1, -⟩ := writeParts_fst L e.Attachments mp2 w2
          rcases hP : writeParts L e.Attachments mp2 w2 with ⟨atts, mp3, w3, err3⟩
          rw [hP] at hp1
          simp only at hp1
          cases err3 with
          | some x =>
            exact ⟨e.mixedText L, _, atts, e.Images, rfl,
              Or.inr (Or.inr ⟨ha0, hm, rfl⟩), hHc, Or.inr ⟨ha0, hm, hp1⟩, same _⟩
          | none =>
            simp only
            obtain ⟨hp2, -⟩ := writeParts_fst L e.Images mp3 w3
            rcases hQ : writeParts L e.Images mp3 w3 with ⟨imgs, mp4, w4, err4⟩
            rw [hQ] at hp2
            simp only at hp2
            cases err4 with
            | some x =>
              exact ⟨e.mixedText L, _, atts, imgs, rfl,
                Or.inr (Or.inr ⟨ha0, hm, rfl⟩), hHc, Or.inr ⟨ha0, hm, hp1⟩, Or.inr ⟨ha0, hm, hp2⟩⟩
            | none =>
              exact ⟨e.mixedText L, _, atts, imgs, rfl,
                Or.inr (Or.inr ⟨ha0, hm, rfl⟩), hHc, Or.inr ⟨ha0, hm, hp1⟩, Or.inr ⟨ha0, hm, hp2⟩⟩

/-- The message after a `Write` that returned no error. -/
theorem Write_done (L : Lib) (e : Email) (W : World) (w : Writer)
    (hok : (e.Write L W w).2.2.2 = none) :
    (¬ e.IsMultiPart = true →
        (e.Write L W w).1 = { e with MessageID := e.messageIDAt W }) ∧
      (e.AMP ≠ "" →
        (e.Write L W w).1 =
          { e with MessageID := e.messageIDAt W, Text := e.ampText L,
                   HTML := if e.HTML = "" then e.ampText L else e.HTML }) ∧
      (e.IsMultiPart = true → e.AMP = "" →
        (e.Write L W w).1 =
          { e with MessageID := e.messageIDAt W, Text := e.mixedText L,
                   HTML := if e.HTML = "" then e.mixedText L else e.HTML,
                   Attachments := e.Attachments.map (Part.normalised L),
                   Images := e.Images.map (Part.normalised L) }) := by
  have hN : NewWriter W = ({ boundary := W.boundaries.headD "", lastpart := false },
      { W with boundaries := W.boundaries.tail }) := rfl
  have hid : e.messageIDAt { W with boundaries := W.boundaries.tail } = e.messageIDAt W := rfl
  refine ⟨fun hm => ?_, fun ha => ?_, fun hm ha => ?_⟩
  · unfold Email.Write
    rw [if_neg hm]
    have h1 := writeHeaders_fst L e W w ""
    rcases hwh : e.writeHeaders L W w "" with ⟨e1, W1, w1, err1⟩
    rw [hwh] at h1
    simp only at h1
    subst h1
    cases err1 <;> rfl
  · have hm : e.IsMultiPart = true := by
      unfold Email.IsMultiPart
      simp [ha]
    unfold Email.Write at hok ⊢
    rw [if_pos hm, if_pos ha, hN] at hok ⊢
    simp only at hok ⊢
    have h1 := writeHeaders_fst L e { W with boundaries := W.boundaries.tail } w
      (W.boundaries.headD "")
    rcases hwh : e.writeHeaders L { W with boundaries := W.boundaries.tail } w
      (W.boundaries.headD "") with ⟨e1, W1, w1, err1⟩
    rw [hwh, hid] at h1
    rw [hwh] at hok
    simp only at h1
    subst h1
    cases err1 with
    | some x => simp at hok
    | none =>
      simp only at hok ⊢
      obtain ⟨-, hbs⟩ := writeAMPBody_fst L { e with MessageID := e.messageIDAt W }
        { boundary := W.boundaries.headD "", lastpart := false } w1
      rcases hA : Email.writeAMPBody L { e with MessageID := e.messageIDAt W }
        { boundary := W.boundaries.headD "", lastpart := false } w1 with ⟨e2, mp2, w2, err2⟩
      rw [hA] at hbs hok
      simp only at hbs
      cases err2 with
      | some x => simp at hok
      | none => exact hbs rfl
  · unfold Email.Write at hok ⊢
    rw [if_pos hm, if_neg (by simp [ha]), hN] at hok ⊢
    simp only at hok ⊢
    have h1 := writeHeaders_fst L e { W with boundaries := W.boundaries.tail } w
      (W.boundaries.headD "")
    rcases hwh : e.writeHeaders L { W with boundaries := W.boundaries.tail } w
      (W.boundaries.headD "") with ⟨e1, W1, w1, err1⟩
    rw [hwh, hid] at h1
    rw [hwh] at hok
    simp only at h1
    subst h1
    cases err1 with
    | some x => simp at hok
    | none =>
      simp only at hok ⊢
      obtain ⟨-, hbs⟩ := writeBody_fst L { e with MessageID := e.messageIDAt W } W1
        { boundary := W.boundaries.headD "", lastpart := false } w1
      rcases hA : Email.writeBody L { e with MessageID := e.messageIDAt W } W1
        { boundary := W.boundaries.headD "", lastpart := false } w1 with
        ⟨e2, W2, mp2, w2, err2⟩
      rw [hA] at hbs hok
      simp only at hbs
      cases err2 with
      | some x => simp at hok
      | none =>
        have hb2 := hbs rfl
        subst hb2
        simp only at hok ⊢
        obtain ⟨-, hp1⟩ := writeParts_fst L e.Attachments mp2 w2
        rcases hP : writeParts L e.Attachments mp2 w2 with ⟨atts, mp3, w3, err3⟩
        rw [hP] at hp1 hok
        simp only at hp1
        cases err3 with
        | some x => simp at hok
        | none =>
          have ha1 := hp1 rfl
          subst ha1
          simp only at hok ⊢
          obtain ⟨-, hp2⟩ := writeParts_fst L e.Images mp3 w3
          rcases hQ : writeParts L e.Images mp3 w3 with ⟨imgs, mp4, w4, err4⟩
          rw [hQ] at hp2 hok
          simp only at hp2
          cases err4 with
          | some x => simp at hok
          | none =>
            have ha2 := hp2 rfl
            subst ha2
            rfl

theorem normalised_idem (L : Lib) (a : Part) :
    (a.normalised L).normalised L = a.normalised L := by
  obtain ⟨l1, l2, l3⟩ := ToLower_names L
  have hc : Part.contentType L (a.normalised L) = a.contentType L := by
    unfold Part.normalised Part.contentType
    by_cases h1 : ToLower L a.Encoding = "base64"
    · simp [h1, l1]
    · by_cases h2 : ToLower L a.Encoding = "8bit"
      · have : ("8bit" : String) ≠ "base64" := by decide
        simp [h1, h2, l2, this]
      · have e1 : ("quoted-printable" : String) ≠ "base64" := by decide
        have e2 : ("quoted-printable" : String) ≠ "8bit" := by decide
        simp [h1, h2, l3, e1, e2]
  show ({ a.normalised L with Encoding := Part.contentType L (a.normalised L) } : Part) = _
  rw [hc]
  rfl

theorem forall₂_touched_fixed (L : Lib) :
    ∀ (parts parts' : List Part), (∀ a ∈ parts, a.normalised L = a) →
      List.Forall₂ (Touched L) parts parts' → parts' = parts := by
  intro parts
  induction parts with
  | nil =>
    intro parts' _ h
    cases h
    rfl
  | cons a l ih =>
    intro parts' hfix h
    cases h with
    | cons hab hl =>
      rename_i b l2
      have hb : b = a := by
        rcases hab with h | h
        · exact h
        · rw [h, hfix a (List.mem_cons_self _ _)]
      rw [hb, ih l2 (fun x hx => hfix x (List.mem_cons_of_mem _ hx)) hl]

theorem messageIDAt_ne (e : Email) (W : World) : e.messageIDAt W ≠ "" := by
  unfold Email.messageIDAt
  by_cases h : e.MessageID = ""
  · rw [if_pos h]
    intro h2
    have := congrArg String.data h2
    simp [String.data_append] at this
  · rw [if_neg h]
    exact h

theorem messageIDAt_of_ne (e : Email) (W : World) (h : e.MessageID ≠ "") :
    e.messageIDAt W = e.MessageID := by
  unfold Email.messageIDAt
  rw [if_neg h]

/-- A message whose lazily computed fields are already filled in comes out of
`Write` as it went in. -/
theorem Write_stable (L : Lib) (e : Email) (W : World) (w : Writer) (hM : e.MessageID ≠ "")
    (hA : e.AMP ≠ "" → e.ampText L = e.Text ∧ (e.HTML = "" → e.Text = ""))
    (hX : e.AMP = "" → e.IsMultiPart = true →
      e.mixedText L = e.Text ∧ (e.HTML = "" → e.Text = "") ∧
        (∀ a ∈ e.Attachments, a.normalised L = a) ∧ (∀ a ∈ e.Images, a.normalised L = a)) :
    (e.Write L W w).1 = e := by
  obtain ⟨T, H, atts, imgs, hE, hT, hH, hat, him⟩ := Write_shape L e W w
  rw [hE, messageIDAt_of_ne e W hM]
  have hmulti : ∀ T0 : String, (e.AMP ≠ "" ∧ T0 = e.ampText L) ∨ (e.AMP = "" ∧ T0 = e.mixedText L) →
      e.IsMultiPart = true → T0 = e.Text := by
    intro T0 h hm
    rcases h with ⟨ha, h⟩ | ⟨ha, h⟩
    · rw [h, (hA ha).1]
    · rw [h, (hX ha hm).1]
  have hempty : e.HTML = "" → e.IsMultiPart = true → e.Text = "" := by
    intro h hm
    by_cases ha : e.AMP = ""
    · exact (hX ha hm).2.1 h
    · exact (hA ha).2 h
  have hTe : T = e.Text := by
    rcases hT with h | ⟨ha, h⟩ | ⟨ha, hm, h⟩
    · exact h
    · rw [h, (hA ha).1]
    · rw [h, (hX ha hm).1]
  have hHe : H = e.HTML := by
    rcases hH with h | ⟨h0, hm, h⟩
    · exact h
    · rw [h, hTe, h0]
      by_cases ha : e.AMP = ""
      · exact (hX ha hm).2.1 h0
      · exact (hA ha).2 h0
  have hae : atts = e.Attachments := by
    rcases hat with h | ⟨ha, hm, h⟩
    · exact h
    · exact forall₂_touched_fixed L _ _ (hX ha hm).2.2.1 h
  have hie : imgs = e.Images := by
    rcases him with h | ⟨ha, hm, h⟩
    · exact h
    · exact forall₂_touched_fixed L _ _ (hX ha hm).2.2.2 h
  rw [hTe, hHe, hae, hie]

theorem ampText_settled (L : Lib) (e : Email) (m : String) :
    Email.ampText L
        { e with MessageID := m, Text := e.ampText L,
                 HTML := if e.HTML = "" then e.ampText L else e.HTML } = e.ampText L ∧
      ((if e.HTML = "" then e.ampText L else e.HTML) = "" → e.ampText L = "") := by
  unfold Email.ampText
  by_cases hT : e.Text = "" <;> by_cases hS : e.Sanitize = true <;>
    by_cases hH : e.HTML = "" <;> by_cases hZ : L.sanitizeHTML e.HTML = "" <;>
    simp_all

theorem mixedText_settled (L : Lib) (e : Email) (m : String) (atts imgs : List Part) :
    Email.mixedText L
        { e with MessageID := m, Text := e.mixedText L,
                 HTML := if e.HTML = "" then e.mixedText L else e.HTML,
                 Attachments := atts, Images := imgs } = e.mixedText L ∧
      ((if e.HTML = "" then e.mixedText L else e.HTML) = "" → e.mixedText L = "") := by
  unfold Email.mixedText
  by_cases hT : e.Text = "" <;> by_cases hS : e.Sanitize = true <;>
    by_cases hH : e.HTML = "" <;> by_cases hZ : L.sanitizeHTML e.HTML = "" <;>
    simp_all

/-- After a `Write` that returned no error, another `Write` of the message
leaves every field as it is. -/
theorem Write_twice (L : Lib) (e : Email) (W : World) (w : Writer)
    (hok : (e.Write L W w).2.2.2 = none) (W2 : World) (w2 : Writer) :
    ((e.Write L W w).1.Write L W2 w2).1 = (e.Write L W w).1 := by
  obtain ⟨h1, h2, h3⟩ := Write_done L e W w hok
  by_cases hm : e.IsMultiPart = true
  · by_cases ha : e.AMP = ""
    · rw [h3 hm ha]
      apply Write_stable
      · exact messageIDAt_ne e W
      · intro h
        exact absurd ha h
      · intro _ _
        obtain ⟨m1, m2⟩ := mixedText_settled L e (e.messageIDAt W)
          (e.Attachments.map (Part.normalised L)) (e.Images.map (Part.normalised L))
        refine ⟨m1, m2, ?_, ?_⟩
        · intro a hmem
          obtain ⟨b, -, rfl⟩ := List.mem_map.mp hmem
          exact normalised_idem L b
        · intro a hmem
          obtain ⟨b, -, rfl⟩ := List.mem_map.mp hmem
          exact normalised_idem L b
    · rw [h2 ha]
      apply Write_stable
      · exact messageIDAt_ne e W
      · intro _
        exact ampText_settled L e (e.messageIDAt W)
      · intro h
        exact absurd h ha
  · rw [h1 hm]
    apply Write_stable
    · exact messageIDAt_ne e W
    · intro h
      exfalso
      apply hm
      unfold Email.IsMultiPart
      rw [if_pos h]
    · intro _ h
      exact absurd h hm

/-! ## The fields `Write` assigns -/

/-- C22 as stated fails. `Write` of a message with an AMP body, a text and no
HTML body leaves the text in the HTML field; `Write` of a message with an
attachment whose encoding is spelled `BASE64` leaves the attachment with the
encoding `base64`; and after a `Write` that failed on its first write, a second
`Write` of the same message still changes the HTML field. -/
theorem Write_changes_more :
    (plainAmp.HTML = "" ∧
        (plainAmp.Write sampleLib sampleWorld emptyBuffer).1.HTML = "hello") ∧
      (upperEmail.Attachments.map (fun a => a.Encoding) = ["BASE64"] ∧
        (upperEmail.Write sampleLib sampleWorld emptyBuffer).1.Attachments.map
          (fun a => a.Encoding) = ["base64"]) ∧
      ((plainAmp.Write sampleLib sampleWorld closedWriter).2.2.2 = some (Err.other "closed") ∧
        (plainAmp.Write sampleLib sampleWorld closedWriter).1.HTML = "" ∧
        ((plainAmp.Write sampleLib sampleWorld closedWriter).1.Write sampleLib sampleWorld
          emptyBuffer).1.HTML = "hello") := by
  decide

/-- C22 (amended): for every message and every writer, after `Write` every
field other than `MessageID`, `Text`, `HTML`, `Attachments` and `Images` equals
its value before the call. `MessageID` is generated when empty and kept
otherwise. `Text` is as before, or, when it was empty and `Sanitize` is set,
the HTML body stripped of its tags. `HTML` is as before, or, when it was empty
and the message is multipart, the text. Every attachment and every image part
is as before, or differs only in that its `Encoding` is replaced by the
normalised name (`base64`, `8bit` or `quoted-printable`). After a `Write` that
returned no error, a second `Write` of the same message, at any time and to
any writer, changes no field at all. -/
theorem Write_frame (L : Lib) (e : Email) (W : World) (w : Writer) :
    Unchanged e (e.Write L W w).1 ∧
      (e.Write L W w).1.MessageID = e.messageIDAt W ∧
      ((e.Write L W w).1.Text = e.Text ∨
        (e.Text = "" ∧ e.Sanitize = true ∧
          (e.Write L W w).1.Text = L.sanitizeHTML e.HTML)) ∧
      ((e.Write L W w).1.HTML = e.HTML ∨
        (e.HTML = "" ∧ e.IsMultiPart = true ∧ (e.Write L W w).1.HTML = (e.Write L W w).1.Text)) ∧
      List.Forall₂ (Touched L) e.Attachments (e.Write L W w).1.Attachments ∧
      List.Forall₂ (Touched L) e.Images (e.Write L W w).1.Images ∧
      ((e.Write L W w).2.2.2 = none →
        ∀ (W2 : World) (w2 : Writer),
          ((e.Write L W w).1.Write L W2 w2).1 = (e.Write L W w).1) := by
  obtain ⟨T, H, atts, imgs, hE, hT, hH, hat, him⟩ := Write_shape L e W w
  refine ⟨?_, ?_, ?_, ?_, ?_, ?_, fun hok W2 w2 => Write_twice L e W w hok W2 w2⟩
  · rw [hE]
    exact ⟨rfl, rfl, rfl, rfl, rfl, rfl, rfl, rfl, rfl, rfl, rfl, rfl, rfl, rfl⟩
  · rw [hE]
  · rw [hE]
    show T = e.Text ∨ (e.Text = "" ∧ e.Sanitize = true ∧ T = L.sanitizeHTML e.HTML)
    rcases hT with h | ⟨_, h⟩ | ⟨_, _, h⟩
    · exact Or.inl h
    · rw [h]
      exact ampText_cases L e
    · rw [h]
      exact mixedText_cases L e
  · rw [hE]
    exact hH
  · rw [hE]
    show List.Forall₂ (Touched L) e.Attachments atts
    rcases hat with h | ⟨_, _, h⟩
    · rw [h]
      exact forall₂_touched_same L _
    · exact h
  · rw [hE]
    show List.Forall₂ (Touched L) e.Images imgs
    rcases him with h | ⟨_, _, h⟩
    · rw [h]
      exact forall₂_touched_same L _
    · exact h

set_option maxRecDepth 20000 in
/-- A message with an upper-case attachment encoding is written to a buffer
without error, and a second `Write` of it leaves every field as it is. -/
theorem Write_frame_witness :
    (upperEmail.Write sampleLib sampleWorld emptyBuffer).2.2.2 = none ∧
      ((upperEmail.Write sampleLib sampleWorld emptyBuffer).1.Write sampleLib
          { nuids := [], boundaries := ["B9"], dates := ["D9"] } closedWriter).1 =
        (upperEmail.Write sampleLib sampleWorld emptyBuffer).1 :=
  ⟨by decide,
    (Write_frame sampleLib upperEmail sampleWorld emptyBuffer).2.2.2.2.2.2 (by decide)
      { nuids := [], boundaries := ["B9"], dates := ["D9"] } closedWriter⟩

/-! ## The first address that cannot be classified -/

theorem prepareList_around (L : Lib) (c : Session) (addrs : List EmailAddress) :
    ∀ (s : Session) (acc : List String) (n : Bool), Around c s →
      Around c (Session.prepareList L s addrs acc n).1 := by
  induction addrs with
  | nil =>
    intro s acc n hs
    exact hs
  | cons rec rest ih =>
    intro s acc n hs
    have h1 := Around.prepare L hs rec.Address
    unfold Session.prepareList
    rcases hp : s.prepareForSMTPUTF8 L rec.Address with ⟨s1, addr, needs, err⟩
    rw [hp] at h1
    cases err with
    | some e => exact h1
    | none => exact ih s1 _ _ h1

theorem prepareList_err (L : Lib) (c : Session) (addrs : List EmailAddress) :
    ∀ (s : Session) (acc : List String) (n : Bool), Around c s →
      (Session.prepareList L s addrs acc n).2.2.2 =
        c.firstFailure L (addrs.map (fun rec => rec.Address)) := by
  induction addrs with
  | nil =>
    intro s acc n _
    rfl
  | cons rec rest ih =>
    intro s acc n hs
    have h1 := Around.prepare L hs rec.Address
    have h2 := prepare_snd_congr L hs.same_hello rec.Address
    unfold Session.prepareList
    rcases hp : s.prepareForSMTPUTF8 L rec.Address with ⟨s1, addr, needs, err⟩
    rw [hp] at h1 h2
    have h3 : (c.prepareForSMTPUTF8 L rec.Address).2.2.2 = err := by rw [← h2]
    cases err with
    | some e =>
      show some e = _
      unfold Session.firstFailure
      rw [List.map_cons, List.findSome?_cons, h3]
    | none =>
      show (Session.prepareList L s1 rest _ _).2.2.2 = _
      rw [ih s1 _ _ h1]
      unfold Session.firstFailure
      rw [List.map_cons, List.findSome?_cons, h3]

theorem firstFailure_append (L : Lib) (c : Session) (l1 l2 : List String) :
    c.firstFailure L (l1 ++ l2) = (c.firstFailure L l1).or (c.firstFailure L l2) := by
  unfold Session.firstFailure
  exact List.findSome?_append

theorem prepareRecipients_err (L : Lib) (c s : Session) (msg : Email) (hs : Around c s) :
    (s.prepareRecipients L msg).2.2.2 = c.firstFailure L msg.envelopeTo := by
  unfold Session.prepareRecipients Email.envelopeTo
  by_cases hr : msg.Recipient ≠ ""
  · rw [if_pos hr, if_pos hr]
    have h2 := prepare_snd_congr L hs.same_hello msg.Recipient
    rcases hp : s.prepareForSMTPUTF8 L msg.Recipient with ⟨s1, addr, needs, err⟩
    rw [hp] at h2
    have h3 : (c.prepareForSMTPUTF8 L msg.Recipient).2.2.2 = err := by rw [← h2]
    unfold Session.firstFailure
    rw [List.findSome?_cons, h3]
    cases err <;> rfl
  · rw [if_neg hr, if_neg hr]
    have a1 := prepareList_around L c msg.To s [] false hs
    have e1 := prepareList_err L c msg.To s [] false hs
    rcases h1 : Session.prepareList L s msg.To [] false with ⟨s1, r1, n1, err1⟩
    rw [h1] at a1 e1
    simp only at a1 e1
    rw [List.map_append, List.map_append, firstFailure_append, firstFailure_append, ← e1]
    cases err1 with
    | some e => rfl
    | none =>
      simp only
      have a2 := prepareList_around L c msg.Cc s1 r1 n1 a1
      have e2 := prepareList_err L c msg.Cc s1 r1 n1 a1
      rcases h2 : Session.prepareList L s1 msg.Cc r1 n1 with ⟨s2, r2, n2, err2⟩
      rw [h2] at a2 e2
      simp only at a2 e2
      rw [← e2]
      cases err2 with
      | some e => rfl
      | none =>
        have e3 := prepareList_err L c msg.Bcc s2 r2 n2 a2
        simp only [Option.or]
        rw [← e3]

theorem MailAndRcpt_err (L : Lib) (c : Session) (msg : Email)
    (h : c.firstFailure L (msg.envelopeFrom :: msg.envelopeTo) ≠ none) :
    (c.MailAndRcpt L msg).2 = c.firstFailure L (msg.envelopeFrom :: msg.envelopeTo) := by
  have hcons : c.firstFailure L (msg.envelopeFrom :: msg.envelopeTo) =
      (c.firstFailure L [msg.envelopeFrom]).or (c.firstFailure L msg.envelopeTo) :=
    firstFailure_append L c [msg.envelopeFrom] msg.envelopeTo
  rw [hcons] at h ⊢
  have hone : c.firstFailure L [msg.envelopeFrom] =
      (c.prepareForSMTPUTF8 L msg.envelopeFrom).2.2.2 := by
    unfold Session.firstFailure
    rw [List.findSome?_cons]
    cases (c.prepareForSMTPUTF8 L msg.envelopeFrom).2.2.2 <;> rfl
  rw [hone] at h ⊢
  unfold Session.MailAndRcpt
  have hs := Around.prepare L (Or.inl rfl : Around c c) msg.envelopeFrom
  unfold Email.envelopeFrom at hs h ⊢
  rcases hp : c.prepareForSMTPUTF8 L
    (if msg.ReturnPath ≠ "" then msg.ReturnPath else msg.From.Address) with ⟨s1, sender, needs, err⟩
  rw [hp] at hs h
  simp only at hs h ⊢
  cases err with
  | some e => rfl
  | none =>
    simp only
    have hr := prepareRecipients_err L c s1 msg hs
    rcases hq : s1.prepareRecipients L msg with ⟨s2, rs, n2, err2⟩
    rw [hq] at hr
    simp only at hr
    rw [← hr] at h ⊢
    cases err2 with
    | some e => rfl
    | none => exact absurd rfl h

/-! ## The mechanism list -/

theorem parseExt_auth (msg : String) : (parseExt msg).get? "AUTH" = authParam msg := by
  unfold parseExt authParam
  rw [get_foldl_set]
  cases (extLines msg).reverse.find? (fun kv => kv.1 == "AUTH") <;> rfl

/-- The mechanism list after `ehlo`: on success it is read from the AUTH
parameter of the response when there is one and stays as it was otherwise. -/
theorem ehlo_auth (c c' : Session) (h : c.ehlo = (c', none)) :
    ∃ msg, c.Text.script = reply 250 msg :: c'.Text.script ∧
      c'.tls = c.tls ∧ c'.serverName = c.serverName ∧ c'.calls = c.calls ∧ c'.a = c.a ∧
      c'.didHello = c.didHello ∧ c'.helloError = c.helloError ∧
      c'.auth = match authParam msg with
        | some mechs => mechanisms mechs
        | none => c.auth := by
  unfold Session.ehlo at h
  obtain ⟨t, code, msg, err, hc, -, -, -, -, h5⟩ := cmd_spec c 250 ("EHLO " ++ c.localName)
  rw [hc] at h
  cases err with
  | some e => simp at h
  | none =>
    obtain ⟨h6, h7⟩ := h5 rfl
    have hcode : code = 250 := by
      simp [codeMismatch] at h7
      exact h7
    subst hcode
    simp only [Prod.mk.injEq, and_true] at h
    rw [parseExt_auth] at h
    refine ⟨msg, ?_⟩
    cases hg : authParam msg with
    | none =>
      rw [hg] at h
      subst h
      exact ⟨h6, rfl, rfl, rfl, rfl, rfl, rfl, rfl⟩
    | some mechs =>
      rw [hg] at h
      subst h
      exact ⟨h6, rfl, rfl, rfl, rfl, rfl, rfl, rfl⟩

/-- The mechanism list after `StartTLS`: on success it is read from the AUTH
parameter of the response to the hello over TLS when there is one and stays as
the hello before the upgrade left it otherwise. -/
theorem StartTLS_auth (c c' : Session) (h : c.StartTLS = (c', none)) :
    ∃ pre msg, c.Text.script = pre ++ reply 250 msg :: c'.Text.script ∧
      c'.tls = true ∧ c'.didHello = true ∧ c'.helloError = none ∧
      c'.auth = match authParam msg with
        | some mechs => mechanisms mechs
        | none => (c.hello).1.auth := by
  unfold Session.StartTLS at h
  obtain ⟨t, ext, auth, err, hh, -, -, ⟨pre, hp⟩, -⟩ := hello_spec c
  rw [hh] at h ⊢
  cases err with
  | some e => simp at h
  | none =>
    simp only at h
    obtain ⟨t2, code, msg, err2, hc, -, -, -, -, hok⟩ :=
      cmd_spec { c with Text := t, ext := ext, auth := auth, didHello := true, helloError := none }
        220 "STARTTLS"
    rw [hc] at h
    cases err2 with
    | some e => simp at h
    | none =>
      simp only at h
      obtain ⟨hs, -⟩ := hok rfl
      obtain ⟨msg3, hs3, htls, -, -, -, hdid, herr, hauth⟩ := ehlo_auth _ c' h
      refine ⟨pre ++ [reply code msg], msg3, ?_, htls, hdid, herr, hauth⟩
      simp only at hs hs3 hp ⊢
      rw [hp, hs, hs3]
      simp

theorem cmd_calls (c : Session) (expectCode : Nat) (line : String) :
    (c.cmd expectCode line).1.calls = c.calls := by
  obtain ⟨t, code, msg, err, h, -⟩ := cmd_spec c expectCode line
  rw [h]

theorem Quit_calls (c : Session) : (c.Quit).1.calls = c.calls := by
  unfold Session.Quit
  have h1 := (hello_fields c).2.2.1
  rcases hh : c.hello with ⟨c1, err⟩
  rw [hh] at h1
  cases err with
  | some e => exact h1
  | none =>
    simp only
    have h2 := cmd_calls c1 221 "QUIT"
    rcases hc : c1.cmd 221 "QUIT" with ⟨c2, code, msg, err2⟩
    rw [hc] at h2
    cases err2 with
    | some e => exact h2.trans h1
    | none => exact h2.trans h1

theorem authAbort_calls (c : Session) (e : Err) : (c.authAbort e).1.calls = c.calls := by
  unfold Session.authAbort
  have h1 := cmd_calls c 501 "*"
  rcases hc : c.cmd 501 "*" with ⟨c1, code, msg, err⟩
  rw [hc] at h1
  simp only
  have h2 := Quit_calls c1
  rcases hq : c1.Quit with ⟨c2, err2⟩
  rw [hq] at h2
  exact h2.trans h1

/-- The authentication loop only adds to the record of the calls made to the
mechanism. -/
theorem authLoop_calls (L : Lib) (a : Auth) :
    ∀ (fuel : Nat) (c : Session) (code : Nat) (msg64 : String),
      ∃ more, (Session.authLoop L a fuel c code msg64).1.calls = c.calls ++ more := by
  intro fuel
  induction fuel with
  | zero =>
    intro c code msg64
    exact ⟨[], by simp [Session.authLoop]⟩
  | succ n ih =>
    intro c code msg64
    unfold Session.authLoop
    simp only
    generalize (if code = 334 then L.b64Decode msg64
      else if code = 235 then Except.ok (utf8 msg64)
      else Except.error (Err.proto code msg64) : Except Err (List UInt8)) = decoded
    cases decoded with
    | error e => exact ⟨[], by simp [authAbort_calls]⟩
    | ok msg =>
      simp only
      rcases hn : a.Next c.calls msg (decide (code = 334)) with ⟨resp, err⟩
      cases err with
      | some e =>
        refine ⟨[AuthCall.next msg (decide (code = 334))], ?_⟩
        cases resp <;> simp [authAbort_calls]
      | none =>
        cases resp with
        | none => exact ⟨[AuthCall.next msg (decide (code = 334))], rfl⟩
        | some r =>
          simp only
          have h1 := cmd_calls
            { c with calls := c.calls ++ [AuthCall.next msg (decide (code = 334))] } 0
            (String.mk (b64Encode r))
          rcases hc : Session.cmd
            { c with calls := c.calls ++ [AuthCall.next msg (decide (code = 334))] } 0
            (String.mk (b64Encode r)) with ⟨c1, code1, msg1, err1⟩
          rw [hc] at h1
          simp only at h1
          cases err1 with
          | some e => exact ⟨[AuthCall.next msg (decide (code = 334))], h1⟩
          | none =>
            obtain ⟨more, hm⟩ := ih c1 code1 msg1
            refine ⟨AuthCall.next msg (decide (code = 334)) :: more, ?_⟩
            simp only
            rw [hm, h1]
            simp

/-- On a session whose hello succeeds, `Auth` first calls `Start` of the
mechanism with the server name, the TLS state and the mechanism list the
session holds after its hello. -/
theorem Auth_calls (L : Lib) (c : Session) (a : Auth) (ha : c.a = some a)
    (hh : (c.hello).2 = none) :
    ∃ more, (c.Auth L).1.calls = c.calls ++ AuthCall.start (c.hello).1.serverInfo :: more := by
  obtain ⟨-, g1, g2, -, -⟩ := hello_fields c
  unfold Session.Auth
  rcases hc : c.hello with ⟨c1, err⟩
  rw [hc] at hh g1 g2
  simp only at hh g1 g2
  subst hh
  have ha1 : c1.a = some a := g1.trans ha
  rw [← g2]
  obtain ⟨T, tls, sn, ext, auth, ln, dh, hE, a0, calls⟩ := c1
  simp only at ha1
  subst ha1
  simp only [Session.serverInfo]
  rcases hs : a.Start calls { Name := sn, TLS := tls, Auth := auth } with ⟨mech, resp, err⟩
  cases err with
  | some e =>
    simp only
    have h2 := Quit_calls (Session.mk T tls sn ext auth ln dh hE (some a)
      (calls ++ [AuthCall.start { Name := sn, TLS := tls, Auth := auth }]))
    rcases hq : Session.Quit (Session.mk T tls sn ext auth ln dh hE (some a)
      (calls ++ [AuthCall.start { Name := sn, TLS := tls, Auth := auth }])) with ⟨c2, e2⟩
    rw [hq] at h2
    exact ⟨[], h2⟩
  | none =>
    simp only
    have h2 := cmd_calls (Session.mk T tls sn ext auth ln dh hE (some a)
      (calls ++ [AuthCall.start { Name := sn, TLS := tls, Auth := auth }])) 0
      (TrimSpace ("AUTH " ++ mech ++ " " ++ String.mk (b64Encode (resp.getD []))))
    rcases hq : Session.cmd (Session.mk T tls sn ext auth ln dh hE (some a)
      (calls ++ [AuthCall.start { Name := sn, TLS := tls, Auth := auth }])) 0
      (TrimSpace ("AUTH " ++ mech ++ " " ++ String.mk (b64Encode (resp.getD [])))) with
      ⟨c2, code, msg, e2⟩
    rw [hq] at h2
    simp only at h2
    cases e2 with
    | some e => exact ⟨[], h2⟩
    | none =>
      simp only
      obtain ⟨more, hm⟩ := authLoop_calls L a (c2.Text.script.length + 1) c2 code msg
      refine ⟨more, ?_⟩
      rw [hm, h2]
      simp

/-! ## The encoding named by a single-part message -/

/-- Written to a writer that accepts it, a single-part message is its header
block, whose last generated header carries the `Encoding` field as it stands,
then the body (the text, or the HTML body when there is no text) transformed
as `WriteEncodedBody` does for that same field, then CRLF. -/
theorem Write_single (L : Lib) (e : Email) (W : World) (w : Writer) (hw : w.fail = none)
    (hm : e.IsMultiPart = false) :
    (e.Write L W w).2.2 =
      ({ w with out := (w.out ++ utf8 (renderHeaders
          (e.expectedHeaders L (e.messageIDAt W) (W.dates.headD "") "")) ++
          encodedBody L e.Encoding (if e.Text ≠ "" then utf8 e.Text else utf8 e.HTML) ++
          utf8 "\r\n") }, none) := by
  unfold Email.Write
  simp only [hm, Bool.false_eq_true, if_false]
  obtain ⟨h1, h2⟩ := writeHeaders_ok L e W w "" hw
  rcases hwh : e.writeHeaders L W w "" with ⟨e1, W1, w1, err1⟩
  rw [hwh] at h1 h2
  simp only [Prod.mk.injEq] at h1 h2
  obtain ⟨rfl, rfl⟩ := h2
  subst h1
  simp only
  rw [WriteEncodedBody_out L { w with out := w.out ++ utf8 (renderHeaders
    (e.expectedHeaders L (e.messageIDAt W) (W.dates.headD "") "")) } _ _ hw]

/-- C31 fails on the code. A single-part message with the text `hello` and the
encoding `BASE64` is written with the header `Content-Transfer-Encoding:
BASE64` and the quoted-printable form of the text as its body, whereas the
same text as a part of a multipart message is written with the header
`Content-Transfer-Encoding: base64` and its base64 form. -/
theorem Write_single_encoding_mismatch (L : Lib) :
    upperSingle.IsMultiPart = false ∧
      (upperSingle.Write L sampleWorld emptyBuffer).2.2 =
        ({ out := (utf8 (renderHeaders
            [("Message-Id", "<N1@x.org>"), ("From", upperSingle.From.FormatAddress L "utf-8"),
              ("To", JoinFormattedAddresses L upperSingle.To "utf-8"),
              ("Subject", L.qEncode "utf-8" "hi"), ("Date", "D1"), ("MIME-Version", "1.0"),
              ("Content-Type", "text/plain; charset=\"utf-8\""),
              ("Content-Transfer-Encoding", "BASE64")]) ++
            L.qpEncode (utf8 "hello") ++ utf8 "\r\n"),
           fail := none }, none) ∧
      (upperSingle.bodyPart "text/plain" "hello").bytes L "B1" true =
        utf8 ("--B1\r\nContent-Transfer-Encoding: base64\r\n" ++
          "Content-Type: text/plain; charset=\"utf-8\"\r\n\r\n" ++ "aGVsbG8=" ++ "\r\n") := by
  refine ⟨by decide, ?_, ?_⟩
  · rw [Write_single L upperSingle sampleWorld emptyBuffer rfl (by decide)]
    have h1 : upperSingle.expectedHeaders L (upperSingle.messageIDAt sampleWorld)
        (sampleWorld.dates.headD "") "" =
        [("Message-Id", "<N1@x.org>"), ("From", upperSingle.From.FormatAddress L "utf-8"),
          ("To", JoinFormattedAddresses L upperSingle.To "utf-8"),
          ("Subject", L.qEncode "utf-8" "hi"), ("Date", "D1"), ("MIME-Version", "1.0"),
          ("Content-Type", "text/plain; charset=\"utf-8\""),
          ("Content-Transfer-Encoding", "BASE64")] := by
      have hid : upperSingle.messageIDAt sampleWorld = "N1@x.org" := by decide
      have hmp : upperSingle.IsMultiPart = false := by decide
      have hct : upperSingle.ContentType ++ "; charset=" ++ dquote ++ upperSingle.CharSet ++ dquote =
          "text/plain; charset=\"utf-8\"" := by decide
      have hml : "<" ++ "N1@x.org" ++ ">" = "<N1@x.org>" := by decide
      unfold Email.expectedHeaders
      rw [hid, hmp, hct, hml]
      rfl
    have h2 : encodedBody L upperSingle.Encoding
        (if upperSingle.Text ≠ "" then utf8 upperSingle.Text else utf8 upperSingle.HTML) =
        L.qpEncode (utf8 "hello") := by
      unfold encodedBody
      rw [if_neg (by decide), if_neg (by decide), if_pos (by decide)]
      rfl
    rw [h1, h2]
    rfl
  · rw [Part_bytes_eq]
    have h1 : (upperSingle.bodyPart "text/plain" "hello").contentType L = "base64" := by
      unfold Part.contentType
      have : ToLower L (upperSingle.bodyPart "text/plain" "hello").Encoding = "base64" := by
        unfold ToLower
        rw [if_pos (by decide)]
        decide
      rw [if_pos this]
    have h2 : renderHeaders ((upperSingle.bodyPart "text/plain" "hello").expectedHeaders L) =
        "Content-Transfer-Encoding: base64\r\nContent-Type: text/plain; charset=\"utf-8\"\r\n\r\n" := by
      unfold Part.expectedHeaders
      rw [h1]
      decide
    have h3 : encodedBody L "base64" (upperSingle.bodyPart "text/plain" "hello").Body =
        utf8 "aGVsbG8=" := by
      unfold encodedBody
      rw [if_pos rfl]
      decide
    rw [h1, h2, h3]
    decide

/-! ## The mechanism list after a hello -/

/-- `StartTLS` leaves the mechanism and the server name of the session alone. -/
theorem StartTLS_fields (c : Session) :
    (c.StartTLS).1.a = c.a ∧ (c.StartTLS).1.serverName = c.serverName := by
  unfold Session.StartTLS
  obtain ⟨t, ext, auth, err, hh, -⟩ := hello_spec c
  rw [hh]
  cases err with
  | some e => exact ⟨rfl, rfl⟩
  | none =>
    simp only
    obtain ⟨t2, code, msg, err2, hc, -⟩ :=
      cmd_spec { c with Text := t, ext := ext, auth := auth, didHello := true, helloError := none }
        220 "STARTTLS"
    rw [hc]
    cases err2 with
    | some e => exact ⟨rfl, rfl⟩
    | none =>
      simp only
      obtain ⟨t3, ext3, auth3, err3, he, -⟩ := ehlo_spec
        { c with Text := { t2 with trace := t2.trace ++ [Wire.tls] }, ext := ext, auth := auth,
                 didHello := true, helloError := none, tls := true }
      rw [he]
      exact ⟨rfl, rfl⟩

/-- C32 as stated fails: the server advertises `AUTH PLAIN LOGIN` before the
upgrade and no AUTH in its response to the hello over TLS; `StartTLS`
succeeds, the session still lists `PLAIN` and `LOGIN`, and `Auth` hands that
list to the mechanism. -/
theorem StartTLS_keeps_mechanisms :
    ((authSession staleScript).StartTLS).2 = none ∧
      authParam "mx\n8BITMIME" = none ∧
      ((authSession staleScript).StartTLS).1.auth = ["PLAIN", "LOGIN"] ∧
      (((authSession staleScript).StartTLS).1.Auth sampleLib).1.calls =
        [AuthCall.start { Name := "mx.example.org", TLS := true, Auth := ["PLAIN", "LOGIN"] },
          AuthCall.next (utf8 "ok") false] := by
  decide

/-- C32 (amended): after every successful extended hello, issued by `ehlo`
itself or as the re-hello that ends `StartTLS`, the session's list of
advertised authentication mechanisms is the space-separated split of the AUTH
parameter of the response that hello read when the response advertises AUTH,
and is the list the session held before that hello (empty on a new session)
when the response advertises no AUTH. After `StartTLS` the session is in TLS
with its hello done, and `Auth` then hands the mechanism the server name, the
TLS state and that list: what the server advertised over TLS when it advertised
AUTH there, and otherwise what the session held before the re-hello. -/
theorem hello_mechanisms (L : Lib) (c : Session) :
    ((c.ehlo).2 = none →
      ∃ msg, c.Text.script = reply 250 msg :: (c.ehlo).1.Text.script ∧
        (c.ehlo).1.auth =
          (match authParam msg with
            | some mechs => mechanisms mechs
            | none => c.auth) ∧
        (c.auth = [] → authParam msg = none → (c.ehlo).1.auth = [])) ∧
    ((c.StartTLS).2 = none →
      ∃ pre msg, c.Text.script = pre ++ reply 250 msg :: (c.StartTLS).1.Text.script ∧
        (c.StartTLS).1.auth =
          (match authParam msg with
            | some mechs => mechanisms mechs
            | none => (c.hello).1.auth) ∧
        (c.StartTLS).1.tls = true ∧
        ∀ a, c.a = some a →
          ∃ more, ((c.StartTLS).1.Auth L).1.calls =
            (c.StartTLS).1.calls ++
              AuthCall.start { Name := c.serverName, TLS := true, Auth := (c.StartTLS).1.auth } ::
                more) := by
  constructor
  · intro h
    obtain ⟨msg, h1, -, -, -, -, -, -, h2⟩ := ehlo_auth c (c.ehlo).1 (Prod.ext rfl h)
    refine ⟨msg, h1, h2, fun h0 hn => ?_⟩
    rw [h2, hn, h0]
  · intro h
    obtain ⟨pre, msg, h1, h2, h3, h4, h5⟩ := StartTLS_auth c (c.StartTLS).1 (Prod.ext rfl h)
    obtain ⟨f1, f2⟩ := StartTLS_fields c
    refine ⟨pre, msg, h1, h5, h2, fun a ha => ?_⟩
    have hhello : (c.StartTLS).1.hello = ((c.StartTLS).1, none) := by
      rw [hello_of_did h3, h4]
    obtain ⟨more, hm⟩ := Auth_calls L (c.StartTLS).1 a (f1.trans ha) (by rw [hhello])
    refine ⟨more, ?_⟩
    rw [hm, hhello]
    simp only [Session.serverInfo, f2, h2]

/-- A server that advertises `AUTH LOGIN` over TLS: the hypotheses of the
statement hold for its script, for `ehlo` and for `StartTLS`. -/
theorem hello_mechanisms_witness :
    (((authSession tlsScript).ehlo).2 = none ∧
      ∃ msg, (authSession tlsScript).Text.script =
          reply 250 msg :: ((authSession tlsScript).ehlo).1.Text.script ∧
        ((authSession tlsScript).ehlo).1.auth =
          (match authParam msg with
            | some mechs => mechanisms mechs
            | none => (authSession tlsScript).auth) ∧
        ((authSession tlsScript).auth = [] → authParam msg = none →
          ((authSession tlsScript).ehlo).1.auth = [])) ∧
    (((authSession tlsScript).StartTLS).2 = none ∧
      ∃ pre msg, (authSession tlsScript).Text.script =
          pre ++ reply 250 msg :: ((authSession tlsScript).StartTLS).1.Text.script ∧
        ((authSession tlsScript).StartTLS).1.auth =
          (match authParam msg with
            | some mechs => mechanisms mechs
            | none => ((authSession tlsScript).hello).1.auth) ∧
        ((authSession tlsScript).StartTLS).1.tls = true ∧
        ∀ a, (authSession tlsScript).a = some a →
          ∃ more, (((authSession tlsScript).StartTLS).1.Auth sampleLib).1.calls =
            ((authSession tlsScript).StartTLS).1.calls ++
              AuthCall.start { Name := (authSession tlsScript).serverName, TLS := true,
                               Auth := ((authSession tlsScript).StartTLS).1.auth } :: more) :=
  ⟨⟨by decide, (hello_mechanisms sampleLib (authSession tlsScript)).1 (by decide)⟩,
    ⟨by decide, (hello_mechanisms sampleLib (authSession tlsScript)).2 (by decide)⟩⟩

/-! ## Classification failures in `MailAndRcpt` -/

/-- C33: for every session and message, if the classification of an envelope
address fails (the sender, which is `ReturnPath` when set and `From.Address`
otherwise, or a recipient, which is `Recipient` alone when set and otherwise
each address of `To`, `Cc` and `Bcc`), `MailAndRcpt` returns the error of the
first such address in that order, and the session comes back as its hello
leaves it: the trace has grown by nothing when the hello was done before, and
otherwise by the EHLO, or by the EHLO and the HELO, of the hello exchange that
the classification needed. No MAIL and no RCPT command is issued. -/
theorem MailAndRcpt_classification (L : Lib) (c : Session) (msg : Email)
    (h : ∃ a ∈ msg.envelopeFrom :: msg.envelopeTo, (c.prepareForSMTPUTF8 L a).2.2.2 ≠ none) :
    ∃ e, c.firstFailure L (msg.envelopeFrom :: msg.envelopeTo) = some e ∧
      (c.MailAndRcpt L msg).2 = some e ∧
      (c.MailAndRcpt L msg).1 = (c.hello).1 ∧
      (c.didHello = true → (c.MailAndRcpt L msg).1.Text.trace = c.Text.trace) ∧
      ((c.MailAndRcpt L msg).1.Text.trace = c.Text.trace ∨
        (c.MailAndRcpt L msg).1.Text.trace =
          c.Text.trace ++ [Wire.cmd ("EHLO " ++ c.localName)] ∨
        (c.MailAndRcpt L msg).1.Text.trace =
          c.Text.trace ++ [Wire.cmd ("EHLO " ++ c.localName), Wire.cmd ("HELO " ++ c.localName)]) := by
  have hne : c.firstFailure L (msg.envelopeFrom :: msg.envelopeTo) ≠ none := by
    unfold Session.firstFailure
    intro h0
    obtain ⟨a, ha, hf⟩ := h
    exact hf (List.findSome?_eq_none_iff.mp h0 a ha)
  have herr := MailAndRcpt_err L c msg hne
  have hst : (c.MailAndRcpt L msg).1 = (c.hello).1 := by
    rcases MailAndRcpt_spec L c msg with ⟨-, e, he⟩ | ⟨hall, -⟩
    · rw [he]
    · obtain ⟨a, ha, hf⟩ := h
      exact absurd (hall a ha) hf
  obtain ⟨e, he⟩ := Option.ne_none_iff_exists'.mp hne
  obtain ⟨t, ext, auth, err, hh, -, -, -, hdid, htr⟩ := hello_spec c
  have ht : (c.hello).1.Text = t := by rw [hh]
  refine ⟨e, he, by rw [herr, he], hst, ?_, ?_⟩
  · intro hd
    rw [hst, ht, (hdid hd).1]
  · rw [hst, ht]
    exact htr

theorem MailAndRcpt_classification_witness :
    ∃ e, (freshSession [reply 250 "mx\n8BITMIME"]).firstFailure sampleLib
          (accentedEmail.envelopeFrom :: accentedEmail.envelopeTo) = some e ∧
      ((freshSession [reply 250 "mx\n8BITMIME"]).MailAndRcpt sampleLib accentedEmail).2 = some e ∧
      ((freshSession [reply 250 "mx\n8BITMIME"]).MailAndRcpt sampleLib accentedEmail).1 =
        ((freshSession [reply 250 "mx\n8BITMIME"]).hello).1 ∧
      ((freshSession [reply 250 "mx\n8BITMIME"]).didHello = true →
        ((freshSession [reply 250 "mx\n8BITMIME"]).MailAndRcpt sampleLib accentedEmail).1.Text.trace =
          (freshSession [reply 250 "mx\n8BITMIME"]).Text.trace) ∧
      (((freshSession [reply 250 "mx\n8BITMIME"]).MailAndRcpt sampleLib accentedEmail).1.Text.trace =
          (freshSession [reply 250 "mx\n8BITMIME"]).Text.trace ∨
        ((freshSession [reply 250 "mx\n8BITMIME"]).MailAndRcpt sampleLib accentedEmail).1.Text.trace =
          (freshSession [reply 250 "mx\n8BITMIME"]).Text.trace ++
            [Wire.cmd ("EHLO " ++ (freshSession [reply 250 "mx\n8BITMIME"]).localName)] ∨
        ((freshSession [reply 250 "mx\n8BITMIME"]).MailAndRcpt sampleLib accentedEmail).1.Text.trace =
          (freshSession [reply 250 "mx\n8BITMIME"]).Text.trace ++
            [Wire.cmd ("EHLO " ++ (freshSession [reply 250 "mx\n8BITMIME"]).localName),
              Wire.cmd ("HELO " ++ (freshSession [reply 250 "mx\n8BITMIME"]).localName)]) :=
  MailAndRcpt_classification sampleLib (freshSession [reply 250 "mx\n8BITMIME"]) accentedEmail
    ⟨"é@z.org", by decide, by decide⟩

/-! ## Sending one message with `SendMail` -/

theorem SendSingleMessage_invalid (L : Lib) (c : Session) (W : World) (msg : Email)
    (h : msg.From.Address = "" ∨
      (msg.Recipient = "" ∧ msg.To = [] ∧ msg.Cc = [] ∧ msg.Bcc = [])) :
    (c.SendSingleMessage L W msg).1 = c := by
  unfold Session.SendSingleMessage
  by_cases hf : msg.From.Address = ""
  · rw [if_pos hf]
  · rw [if_neg hf]
    rcases h with h | ⟨h1, h2, h3, h4⟩
    · exact absurd h hf
    · rw [if_pos ⟨h1, by rw [h2]; rfl, by rw [h3]; rfl, by rw [h4]; rfl⟩]

/-- C34: for every message, network and server behaviour, once `NewSession`
has given a session and `StartSession` has returned no error on it, `SendMail`
returns exactly what `Quit` returns on the session as `SendSingleMessage`
leaves it; the error of `SendSingleMessage` is dropped. So a message that
fails validation (no sender, or no recipient) leaves the result to the `Quit`
of the started session, and whenever that `Quit` returns no error `SendMail`
returns none, whatever `SendSingleMessage` returned. -/
theorem SendMail_returns_Quit (L : Lib) (N : Net) (W : World) (addr : String)
    (a : Option Auth) (msg : Email) (c : Session) (hn : NewSession N addr a = Except.ok c)
    (hs : (c.StartSession L).2 = none) :
    (SendMail L N W addr a msg).2.2.2 =
        (((c.StartSession L).1.SendSingleMessage L W msg).1.Quit).2 ∧
      ((msg.From.Address = "" ∨
          (msg.Recipient = "" ∧ msg.To = [] ∧ msg.Cc = [] ∧ msg.Bcc = [])) →
        (SendMail L N W addr a msg).2.2.2 = ((c.StartSession L).1.Quit).2) ∧
      ((((c.StartSession L).1.SendSingleMessage L W msg).1.Quit).2 = none →
        (SendMail L N W addr a msg).2.2.2 = none) := by
  have h1 : (SendMail L N W addr a msg).2.2.2 =
      (((c.StartSession L).1.SendSingleMessage L W msg).1.Quit).2 := by
    unfold SendMail
    rw [hn]
    simp only
    rcases hst : c.StartSession L with ⟨c1, err⟩
    rw [hst] at hs
    simp only at hs
    subst hs
    simp only
  refine ⟨h1, fun hv => ?_, fun hq => ?_⟩
  · rw [h1, SendSingleMessage_invalid L _ W msg hv]
  · rw [h1, hq]

/-- The server rejects MAIL: `SendSingleMessage` returns the server's error,
`Quit` is answered, and `SendMail` returns no error. -/
theorem SendMail_returns_Quit_witness :
    NewSession (scriptedNet (reply 220 "mx ready" :: rejectingScript)) "mx.example.org:25" none =
        Except.ok (freshSession rejectingScript) ∧
      ((freshSession rejectingScript).StartSession sampleLib).2 = none ∧
      (((freshSession rejectingScript).StartSession sampleLib).1.SendSingleMessage sampleLib
        sampleWorld sampleEmail).2.2.2 = some (Err.proto 550 "no") ∧
      (SendMail sampleLib (scriptedNet (reply 220 "mx ready" :: rejectingScript)) sampleWorld
        "mx.example.org:25" none sampleEmail).2.2.2 = none :=
  ⟨rfl, by decide, by decide,
    (SendMail_returns_Quit sampleLib (scriptedNet (reply 220 "mx ready" :: rejectingScript))
      sampleWorld "mx.example.org:25" none sampleEmail (freshSession rejectingScript) rfl
      (by decide)).2.2 (by decide)⟩

end Mandala
